import Mathlib

/-!
# s3fs: a file system kept in a flat object store

A shallow embedding of `src/s3fs.c`.  Every callback of the C file is a
function from a store to a return code and a store.

Modelling conventions.

* FUSE hands every callback an absolute, normalised path.  A path is its list
  of components; the root `"/"` is the empty list.  `dirname` and `basename`
  are the libc functions on such paths.
* The bucket maps a key to an object.  An object is either an array of
  `s3dirent_t` records, as `s3fs_put_object` was given one, or plain bytes.
  `s3dirent_t` is declared in `s3fs.h`; its size and the reinterpretation of
  bytes as records (and back) are parameters held in `Env`.
* Every call into the object store may fail.  The store carries the outcomes
  of the calls still to come (`faults`): `true` makes the next call fail.  With
  `faults = []` every call succeeds.
* Memory that the C code reads without having written it (fields of a local
  record, bytes of a local array, bytes past the end of a fetched buffer) is
  indeterminate; its value is taken from `Env`.
* A call may yield no return value: control reaches the end of a non-void
  function, a loop runs through a null buffer, or the C library is handed a
  block to free that it must not be handed (a block freed before, an
  indeterminate pointer) and ends the process.  The result is then `none`, and
  the store is the one reached by the store calls made up to that point.
-/

namespace S3fs

/-! ## Paths -/

abbrev Path := List String

/-- The libc `dirname` on a normalised absolute path; `dirname "/" = "/"`. -/
def dirname (p : Path) : Path := p.dropLast

/-- The libc `basename` on a normalised absolute path; `basename "/" = "/"`. -/
def basename (p : Path) : String :=
  match p.getLast? with
  | some n => n
  | none => "/"

/-! ## Records and objects -/

/-- The record `s3dirent_t` of `s3fs.h`, with the fields the code assigns. -/
structure s3dirent_t where
  name : String
  type : Char
  size : Nat
  permissions : Nat
  hardlinks : Nat
  user : Nat
  group : Nat
  access : Nat
  modify : Nat
  change : Nat
deriving DecidableEq, Repr

/-- The fields of `struct stat` that `fillstat` assigns. -/
structure stat where
  st_mode : Nat
  st_nlink : Nat
  st_uid : Nat
  st_gid : Nat
  st_size : Nat
  st_atime : Nat
  st_mtime : Nat
  st_ctime : Nat
  st_blocks : Nat
deriving DecidableEq, Repr

/-- An object of the bucket. -/
inductive Obj where
  | table (ents : List s3dirent_t)
  | bytes (data : List Nat)
deriving DecidableEq, Repr

/-- What the code takes from outside the C file. -/
structure Env where
  /-- `sizeof(s3dirent_t)`. -/
  recsize : Nat
  recsize_pos : 0 < recsize
  /-- `getuid()`. -/
  uid : Nat
  /-- `getgid()`. -/
  gid : Nat
  /-- `time(NULL)`. -/
  now : Nat
  /-- The indeterminate contents of a local `s3dirent_t` never assigned. -/
  uninitEnt : s3dirent_t
  /-- The indeterminate byte at an index of memory never assigned. -/
  uninitByte : Nat → Nat
  /-- Plain bytes read through a `s3dirent_t *`. -/
  asRecords : List Nat → List s3dirent_t
  /-- An array of records read through a `char *`. -/
  asBytes : List s3dirent_t → List Nat
  /-- Byte `i` of the address of the buffer that a fetch allocates. -/
  addrByte : Nat → Nat

/-- The bucket, with the outcomes of the store calls still to come. -/
structure Store where
  objs : Path → Option Obj
  faults : List Bool

/-! ## Constants of the C library -/

def ENOENT : Int := 2
def EIO : Int := 5
def ENOMEM : Int := 12
def EEXIST : Int := 17
def ENOTDIR : Int := 20
def ENOTEMPTY : Int := 39

def S_IFDIR : Nat := 0o040000
def S_IRUSR : Nat := 0o400
def S_IWUSR : Nat := 0o200
def S_IXUSR : Nat := 0o100

/-- `sizeof(buffer)` for a pointer `buffer` (LP64). -/
def sizeof_ptr : Nat := 8

/-! ## The object store client (`libs3_wrapper.h`) -/

/-- The byte length of an object, which `s3fs_get_object` returns. -/
def byteLen (env : Env) : Obj → Nat
  | Obj.table ents => env.recsize * ents.length
  | Obj.bytes data => data.length

/-- The buffer of a fetch read through a `s3dirent_t *`. -/
def recordView (env : Env) : Obj → List s3dirent_t
  | Obj.table ents => ents
  | Obj.bytes data => env.asRecords data

/-- The buffer of a fetch read as `s3dirent_t buffer[length]` with
`length = success / sizeof(s3dirent_t)`. -/
def records (env : Env) (o : Obj) : List s3dirent_t :=
  (recordView env o).take (byteLen env o / env.recsize)

/-- The buffer of a fetch read as `char buffer[success]`. -/
def content (env : Env) : Obj → List Nat
  | Obj.table ents => env.asBytes ents
  | Obj.bytes data => data

/-- The outcome of the next store call: whether it fails, and the store with
that outcome consumed. -/
def nextCall (s : Store) : Bool × Store :=
  match s.faults with
  | [] => (false, s)
  | b :: rest => (b, { s with faults := rest })

/-- Modelled from the spec: `s3fs_get_object` of the object-store client,
`get_object(key, offset, length) -> bytes|error`, which fetches up to `length`
bytes of content starting at `offset`; the code passes `0, 0` for the whole
object.  `none` stands for the return value `-1`. -/
def s3fs_get_object (env : Env) (s : Store) (key : Path) (start count : Nat) :
    Option Obj × Store :=
  let (fail, s1) := nextCall s
  if fail then (none, s1)
  else
    match s.objs key with
    | none => (none, s1)
    | some o =>
      if start = 0 ∧ count = 0 then (some o, s1)
      else (some (Obj.bytes (((content env o).drop start).take count)), s1)

/-- Modelled from the spec: `s3fs_put_object` of the object-store client,
`put_object(key, bytes) -> bytes_written|error`, a whole-object replace.
`none` stands for the return value `-1`. -/
def s3fs_put_object (env : Env) (s : Store) (key : Path) (o : Obj) :
    Option Nat × Store :=
  let (fail, s1) := nextCall s
  if fail then (none, s1)
  else (some (byteLen env o),
        { s1 with objs := fun k => if k = key then some o else s.objs k })

/-- Modelled from the spec: `s3fs_remove_object` of the object-store client,
`remove_object(key) -> ok|error`; removing a key that holds no object is an
error.  `false` stands for a negative return value. -/
def s3fs_remove_object (s : Store) (key : Path) : Bool × Store :=
  let (fail, s1) := nextCall s
  if fail then (false, s1)
  else
    match s.objs key with
    | none => (false, s1)
    | some _ => (true, { s1 with objs := fun k => if k = key then none else s.objs k })

/-- Modelled from the spec: `s3fs_clear_bucket` of the object-store client,
which removes every object. -/
def s3fs_clear_bucket (s : Store) : Bool × Store :=
  let (fail, s1) := nextCall s
  if fail then (false, s1)
  else (true, { s1 with objs := fun _ => none })

/-- Modelled from the spec: `s3fs_test_bucket` of the object-store client. -/
def s3fs_test_bucket (s : Store) : Bool × Store :=
  let (fail, s1) := nextCall s
  (!fail, s1)

/-! ## Stage 1 callbacks -/

/-- The record that `fs_init` stores at `"/"`. -/
def rootEnt (env : Env) : s3dirent_t :=
  { name := ".", type := 'D', size := env.recsize,
    permissions := S_IFDIR ||| S_IRUSR ||| S_IWUSR ||| S_IXUSR,
    hardlinks := 1, user := env.uid, group := env.gid,
    access := env.now, modify := env.now, change := env.now }

/-- The callback `fs_init`: test the bucket, clear it, store the root table.
No outcome of the three store calls changes what it does next. -/
def fs_init (env : Env) (s : Store) : Store :=
  let t := s3fs_test_bucket s
  let c := s3fs_clear_bucket t.2
  let p := s3fs_put_object env c.2 [] (Obj.table [rootEnt env])
  p.2

/-- The function `fillstat`. -/
def fillstat (dirent : s3dirent_t) : stat :=
  { st_mode := dirent.permissions, st_nlink := dirent.hardlinks,
    st_uid := dirent.user, st_gid := dirent.group, st_size := dirent.size,
    st_atime := dirent.access, st_mtime := dirent.modify,
    st_ctime := dirent.change, st_blocks := dirent.size / 512 + 1 }

/-- The loop of `fs_opendir` over the parent's records. -/
def opendir_scan (name : String) : List s3dirent_t → Int
  | [] => -ENOENT
  | d :: rest =>
    if d.name = name then
      if d.type = 'D' then 0
      else if d.type = 'F' then -ENOTDIR
      else opendir_scan name rest
    else opendir_scan name rest

/-- The callback `fs_opendir`. -/
def fs_opendir (env : Env) (s : Store) (path : Path) : Int × Store :=
  if path = [] then (0, s)
  else
    let g := s3fs_get_object env s path 0 0
    match g.1 with
    | none => (-ENOENT, g.2)
    | some _ =>
      let g2 := s3fs_get_object env g.2 (dirname path) 0 0
      match g2.1 with
      | none => (-ENOENT, g2.2)
      | some o => (opendir_scan (basename path) (records env o), g2.2)

/-- The loop of `fs_getattr` over the first `length` records of the parent. -/
def getattr_scan (name : String) : List s3dirent_t → Option s3dirent_t
  | [] => none
  | d :: rest => if d.name = name then some d else getattr_scan name rest

/-- The callback `fs_getattr`; the second component is the stat buffer when
`fillstat` was called on it.  For a path that does not open as a directory the
number of records looked at is `sizeof(buffer) / sizeof(s3dirent_t)`, with
`buffer` a pointer. -/
def fs_getattr (env : Env) (s : Store) (path : Path) : Int × Option stat × Store :=
  let r := fs_opendir env s path
  if r.1 = 0 then
    let g := s3fs_get_object env r.2 path 0 0
    match g.1 with
    | none => (-ENOENT, none, g.2)
    | some o => (0, some (fillstat ((recordView env o).headD env.uninitEnt)), g.2)
  else
    let g := s3fs_get_object env r.2 path 0 0
    match g.1 with
    | none => (-ENOENT, none, g.2)
    | some _ =>
      let g2 := s3fs_get_object env g.2 (dirname path) 0 0
      match g2.1 with
      | none => (-ENOENT, none, g2.2)
      | some o =>
        match getattr_scan (basename path)
            ((recordView env o).take (sizeof_ptr / env.recsize)) with
        | some d => (0, some (fillstat d), g2.2)
        | none => (- EIO, none, g2.2)

/-- The loop of `fs_readdir`.  `filler names name` tells whether the filler,
holding `names` already, reports a full buffer on `name`.  The result is the
return code and the names passed to the filler so far. -/
def readdir_loop (filler : List String → String → Bool) (passed : List String) :
    List s3dirent_t → Int × List String
  | [] => (0, passed)
  | d :: rest =>
    if d.type ≠ 'U' then
      if filler passed d.name then (-ENOMEM, passed ++ [d.name])
      else readdir_loop filler (passed ++ [d.name]) rest
    else readdir_loop filler passed rest

/-- The callback `fs_readdir`; the second component lists the names passed to
the filler.  When the fetch fails the loop bound is computed from `-1` and the
buffer is null: no result. -/
def fs_readdir (env : Env) (s : Store) (path : Path)
    (filler : List String → String → Bool) : Option Int × List String × Store :=
  let r := fs_opendir env s path
  if r.1 ≠ 0 then (some r.1, [], r.2)
  else
    let g := s3fs_get_object env r.2 path 0 0
    match g.1 with
    | none => (none, [], g.2)
    | some o =>
      let l := readdir_loop filler [] (records env o)
      (some l.1, l.2, g.2)

/-- The callback `fs_releasedir`. -/
def fs_releasedir (s : Store) (_path : Path) : Int × Store := (0, s)

/-- The record `newent` that `adddirent` builds. -/
def dirEnt (env : Env) (mode : Nat) : s3dirent_t :=
  { name := ".", type := 'D', size := env.recsize, permissions := mode,
    hardlinks := 1, user := env.uid, group := env.gid,
    access := env.now, modify := env.now, change := env.now }

/-- The function `adddirent`: store at `path` a table of one record `"."`. -/
def adddirent (env : Env) (s : Store) (path : Path) (mode : Nat) : Int × Store :=
  let p := s3fs_put_object env s path (Obj.table [dirEnt env mode])
  match p.1 with
  | none => (- EIO, p.2)
  | some test => if test < env.recsize then (- EIO, p.2) else (0, p.2)

/-- The statement `buffer[0].hardlinks++` followed by the copy of the buffer. -/
def bumpFirst : List s3dirent_t → List s3dirent_t
  | [] => []
  | d :: rest => { d with hardlinks := (d.hardlinks + 1) % 2 ^ 32 } :: rest

/-- The record `adding` of `adddirtoparent`: only its `type`, `name` and `size`
are assigned. -/
def addingEnt (env : Env) (name : String) : s3dirent_t :=
  { env.uninitEnt with type := 'D', name := name, size := env.recsize }

/-- The function `adddirtoparent`.  The result is `test`, the byte count of
the put, or `-EIO`. -/
def adddirtoparent (env : Env) (s : Store) (path : Path) : Int × Store :=
  let g := s3fs_get_object env s (dirname path) 0 0
  match g.1 with
  | none => (- EIO, g.2)
  | some o =>
    let newents := bumpFirst (records env o) ++ [addingEnt env (basename path)]
    let rm := s3fs_remove_object g.2 (dirname path)
    if !rm.1 then (- EIO, rm.2)
    else
      let p := s3fs_put_object env rm.2 (dirname path) (Obj.table newents)
      match p.1 with
      | none => (- EIO, p.2)
      | some test => ((test : Int), p.2)

/-- The callback `fs_mkdir`. -/
def fs_mkdir (env : Env) (s : Store) (path : Path) (mode : Nat) : Int × Store :=
  let mode := mode ||| S_IFDIR
  let r := fs_opendir env s path
  if r.1 = 0 then (-EEXIST, r.2)
  else
    let r2 := fs_opendir env r.2 (dirname path)
    if r2.1 ≠ 0 then (-ENOENT, r2.2)
    else
      let a := adddirtoparent env r2.2 path
      if a.1 < 0 then (- EIO, a.2)
      else if a.1 < (env.recsize : Int) then (- EIO, a.2)
      else adddirent env a.2 path mode

/-- The first loop of `fs_rmdir`: is some record past slot 0 not `'U'`. -/
def rmdir_live (buffer : List s3dirent_t) : Bool :=
  (buffer.drop 1).any (fun d => d.type ≠ 'U')

/-- The second loop of `fs_rmdir` over the records past slot 0: the records
with the first one named `name` and not `'U'` set to `'U'`, if there is one. -/
def rmdir_mark (name : String) : List s3dirent_t → Option (List s3dirent_t)
  | [] => none
  | d :: rest =>
    if d.name = name ∧ d.type ≠ 'U' then some ({ d with type := 'U' } :: rest)
    else (rmdir_mark name rest).map (fun l => d :: l)

/-- The statement `buffer[0].hardlinks--`. -/
def dropFirst : List s3dirent_t → List s3dirent_t
  | [] => []
  | d :: rest => { d with hardlinks := (d.hardlinks + 2 ^ 32 - 1) % 2 ^ 32 } :: rest

/-- The callback `fs_rmdir`.  The store calls and their order are those of the
code at every exit.  At three exits (the path does not open as a directory, the
fetch of its table fails, the fetch of the parent's table fails) the code calls
`fprintf` with a string literal in the place of the stream before its `return`
statement; the value given here at these exits is the one that statement
names.  The exits with 0, `-ENOTEMPTY` and `-EIO` have no such call. -/
def fs_rmdir (env : Env) (s : Store) (path : Path) : Int × Store :=
  let r := fs_opendir env s path
  if r.1 ≠ 0 then (r.1, r.2)
  else
    let g := s3fs_get_object env r.2 path 0 0
    match g.1 with
    | none => (-ENOENT, g.2)
    | some o =>
      if rmdir_live (records env o) then (-ENOTEMPTY, g.2)
      else
        let rm := s3fs_remove_object g.2 path
        if !rm.1 then (- EIO, rm.2)
        else
          let g2 := s3fs_get_object env rm.2 (dirname path) 0 0
          match g2.1 with
          | none => (-ENOENT, g2.2)
          | some po =>
            match rmdir_mark (basename path) ((records env po).drop 1) with
            | none => (- EIO, g2.2)
            | some tail =>
              let buffer := dropFirst ((records env po).take 1 ++ tail)
              let rm2 := s3fs_remove_object g2.2 (dirname path)
              if !rm2.1 then (- EIO, rm2.2)
              else
                let p := s3fs_put_object env rm2.2 (dirname path) (Obj.table buffer)
                match p.1 with
                | none => (- EIO, p.2)
                | some test2 => if test2 < env.recsize then (- EIO, p.2) else (0, p.2)

/-! ## Stage 2 callbacks -/

/-- The function `filexist`. -/
def filexist (env : Env) (s : Store) (path : Path) : Int × Store :=
  let g := s3fs_get_object env s path 0 0
  match g.1 with
  | none => (-ENOENT, g.2)
  | some _ => (0, g.2)

/-- The record `newent` that `addfiletoparent` builds. -/
def fileEnt (env : Env) (name : String) (mode size : Nat) : s3dirent_t :=
  { name := name, type := 'F', size := size, permissions := mode,
    hardlinks := 1, user := env.uid, group := env.gid,
    access := env.now, modify := env.now, change := env.now }

/-- The function `addfiletoparent`: append a `'F'` record to the table of the
parent of `path`. -/
def addfiletoparent (env : Env) (s : Store) (path : Path) (mode size : Nat) :
    Int × Store :=
  let g := s3fs_get_object env s (dirname path) 0 0
  match g.1 with
  | none => (- EIO, g.2)
  | some o =>
    let newents := records env o ++ [fileEnt env (basename path) mode size]
    let rm := s3fs_remove_object g.2 (dirname path)
    if !rm.1 then (- EIO, rm.2)
    else
      let p := s3fs_put_object env rm.2 (dirname path) (Obj.table newents)
      match p.1 with
      | none => (- EIO, p.2)
      | some _ => (0, p.2)

/-- The callback `fs_mknod`.  The result of `addfiletoparent` is compared with
`-1`. -/
def fs_mknod (env : Env) (s : Store) (path : Path) (mode : Nat) : Int × Store :=
  let e := filexist env s path
  if e.1 = 0 then (-EEXIST, e.2)
  else
    let e2 := filexist env e.2 (dirname path)
    if e2.1 ≠ 0 then (-ENOENT, e2.2)
    else
      let p := s3fs_put_object env e2.2 path (Obj.bytes [])
      match p.1 with
      | none => (- EIO, p.2)
      | some _ =>
        let a := addfiletoparent env p.2 path mode 0
        if a.1 = -1 then (- EIO, a.2) else (0, a.2)

/-- The loop of `fs_open` over the parent's records, and what follows it.
`pat` is freed right after the fetch and `dup` is allocated after that.  The
exits inside the loop free `dup` once.  The exit after the loop, taken when no
record named `name` is of type `'D'` or `'F'`, frees `dup` and then `pat` once
more: the C library ends the process there (`none`). -/
def open_scan (name : String) : List s3dirent_t → Option Int
  | [] => none
  | d :: rest =>
    if d.name = name then
      if d.type = 'D' then some (-ENOENT)
      else if d.type = 'F' then some 0
      else open_scan name rest
    else open_scan name rest

/-- The callback `fs_open`. -/
def fs_open (env : Env) (s : Store) (path : Path) : Option Int × Store :=
  let e := filexist env s path
  if e.1 ≠ 0 then (some (-ENOENT), e.2)
  else
    let g := s3fs_get_object env e.2 (dirname path) 0 0
    match g.1 with
    | none => (some (- EIO), g.2)
    | some o => (open_scan (basename path) (records env o), g.2)

/-- The loop shared by `fs_write` and `fs_rename`: the first record named
`name` whose type is `'F'`. -/
def file_scan (name : String) : List s3dirent_t → Option s3dirent_t
  | [] => none
  | d :: rest =>
    if d.name = name ∧ d.type = 'F' then some d else file_scan name rest

/-- The callback `fs_unlink`.  After the fetch of the parent's table the code
frees `pat`, allocates `dup = strdup(path)` and frees `pat` a second time.  The
block of `dup` is thereby free while the loop reads the name to compare from
it, and both ways out of the loop, the match of a record of type `'F'` and the
end of the loop, hand `dup` to `free` again before any other store call: the C
library ends the process there.  So past the fetch of the parent's table there
is no return value, `s3fs_remove_object` is not reached, and no table is
written (the type `'U'` is assigned to a local copy of the record only). -/
def fs_unlink (env : Env) (s : Store) (path : Path) : Option Int × Store :=
  let r := fs_open env s path
  match r.1 with
  | none => (none, r.2)
  | some c =>
    if c ≠ 0 then (some (-ENOENT), r.2)
    else
      let g := s3fs_get_object env r.2 (dirname path) 0 0
      match g.1 with
      | none => (some (- EIO), g.2)
      | some _ => (none, g.2)

/-- The value of an unsigned expression of 64 bits assigned to an `int`: its
low 32 bits, read as a signed number. -/
def toInt32 (n : Nat) : Int :=
  if n % 2 ^ 32 < 2 ^ 31 then ((n % 2 ^ 32 : Nat) : Int)
  else ((n % 2 ^ 32 : Nat) : Int) - 2 ^ 32

/-- The `int bufsize` of `fs_write`, from the byte count `test` of the fetch:
`test` is compared with `size + offset`, computed in 64 unsigned bits, and the
sum is assigned to the `int`. -/
def write_bufsize (test size offset : Nat) : Int :=
  if test < (size + offset) % 2 ^ 64 then toInt32 ((size + offset) % 2 ^ 64)
  else (test : Int)

/-- The array `newbuffer` of `fs_write` when it is stored, `bufsize` bytes:
positions `offset .. offset+size` hold `buf`; every other position is
indeterminate.  Positions below `offset` are never assigned (the first loop has
an empty body, and the block after it assigns position `offset` only), and the
positions from `offset+size` up to `test` are read through the pointer
`buffer`, which is never assigned. -/
def write_buffer (env : Env) (buf : List Nat) (size offset bufsize : Nat) : List Nat :=
  (List.range bufsize).map (fun i =>
    if offset ≤ i ∧ i < offset + size then buf.getD (i - offset) (env.uninitByte i)
    else env.uninitByte i)

/-- The callback `fs_write`.  The pointer `buffer` is never assigned: the fetch
of the old content is handed its indeterminate value (where the address of a
pointer is expected), the old bytes are read through it, and every exit past
the put hands it to `free`, so that none of them yields a return value.  An
array of no positive length is not defined either.  The call of `fs_unlink`
comes before `addfiletoparent` and the put: where it ends the process, nothing
is stored; its result is not looked at.  `none` at the end of the loop:
control reached the end of the function. -/
def fs_write (env : Env) (s : Store) (path : Path) (buf : List Nat)
    (size offset : Nat) : Option Int × Store :=
  let r := fs_open env s path
  match r.1 with
  | none => (none, r.2)
  | some c =>
    if c ≠ 0 then (some (-ENOENT), r.2)
    else
      let g := s3fs_get_object env r.2 path 0 0
      match g.1 with
      | none => (some (- EIO), g.2)
      | some o =>
        let bufsize := write_bufsize (byteLen env o) size offset
        if bufsize ≤ 0 then (none, g.2)
        else
          let newbuffer := write_buffer env buf size offset bufsize.toNat
          let g2 := s3fs_get_object env g.2 (dirname path) 0 0
          match g2.1 with
          | none => (some (- EIO), g2.2)
          | some po =>
            match file_scan (basename path) (records env po) with
            | none => (none, g2.2)
            | some dirent =>
              let u := fs_unlink env g2.2 path
              match u.1 with
              | none => (none, u.2)
              | some _ =>
                let a := addfiletoparent env u.2 path dirent.permissions bufsize.toNat
                let p := s3fs_put_object env a.2 path (Obj.bytes newbuffer)
                (none, p.2)

/-- The callback `fs_release`. -/
def fs_release (s : Store) (_path : Path) : Int × Store := (0, s)

/-- The first `n` bytes read from a buffer that holds `data`: bytes past its
end are indeterminate. -/
def readBytes (env : Env) (data : List Nat) (n : Nat) : List Nat :=
  (List.range n).map (fun i => data.getD i (env.uninitByte i))

/-- The callback `fs_rename`.  The call of `fs_unlink` comes before
`addfiletoparent` and the put: where it ends the process, nothing is stored.
Where it returns, its result and that of `addfiletoparent` are not looked at.
`none` at the end of the loop: control reached the end of the function. -/
def fs_rename (env : Env) (s : Store) (path newpath : Path) : Option Int × Store :=
  let g := s3fs_get_object env s path 0 0
  match g.1 with
  | none => (some (- EIO), g.2)
  | some o =>
    let g2 := s3fs_get_object env g.2 (dirname path) 0 0
    match g2.1 with
    | none => (some (- EIO), g2.2)
    | some po =>
      match file_scan (basename path) (records env po) with
      | none => (none, g2.2)
      | some dirent =>
        let u := fs_unlink env g2.2 path
        match u.1 with
        | none => (none, u.2)
        | some _ =>
          let a := addfiletoparent env u.2 newpath dirent.permissions dirent.size
          let p := s3fs_put_object env a.2 newpath
            (Obj.bytes (readBytes env (content env o) dirent.size))
          match p.1 with
          | none => (some (- EIO), p.2)
          | some test => if test < dirent.size then (some (- EIO), p.2) else (some 0, p.2)

/-- The callback `fs_ftruncate`: `fs_truncate` without the call of `fs_open`.
After the fetch of the parent's table the code frees `pat`, allocates
`dup = strdup(path)` and frees `pat` a second time, so that the loop compares
the names of the records with a name read from a freed block.  Where no record
matches, control reaches the end of the function; where one of type `'F'`
does, `dup` is handed to `free` again before any store call.  Either way there
is no return value, and neither `s3fs_remove_object` nor `s3fs_put_object` is
reached. -/
def fs_ftruncate (env : Env) (s : Store) (path : Path) (_offset : Nat) :
    Option Int × Store :=
  let g := s3fs_get_object env s path 0 0
  match g.1 with
  | none => (some (- EIO), g.2)
  | some _ =>
    let g2 := s3fs_get_object env g.2 (dirname path) 0 0
    match g2.1 with
    | none => (some (- EIO), g2.2)
    | some _ => (none, g2.2)

/-- The callback `fs_truncate`: the result of `fs_open` is returned when it is
not 0; then as `fs_ftruncate`, with the same two frees of `pat` around the
allocation of `dup`. -/
def fs_truncate (env : Env) (s : Store) (path : Path) (_newsize : Nat) :
    Option Int × Store :=
  let r := fs_open env s path
  match r.1 with
  | none => (none, r.2)
  | some test =>
    if test ≠ 0 then (some test, r.2)
    else
      let g := s3fs_get_object env r.2 path 0 0
      match g.1 with
      | none => (some (- EIO), g.2)
      | some _ =>
        let g2 := s3fs_get_object env g.2 (dirname path) 0 0
        match g2.1 with
        | none => (some (- EIO), g2.2)
        | some _ => (none, g2.2)

/-- The callback `fs_access`. -/
def fs_access (s : Store) (_path : Path) (_mask : Nat) : Int × Store := (0, s)

/-! ## A concrete environment and scenarios -/

/-- An environment for evaluation: a record of 304 bytes, indeterminate bytes
`0xAA`, indeterminate record fields `7`, address bytes `0x55`. -/
def env0 : Env :=
  { recsize := 304, recsize_pos := by decide, uid := 1000, gid := 1000, now := 1700000000,
    uninitEnt := { name := "", type := 'X', size := 7, permissions := 7, hardlinks := 7,
                   user := 7, group := 7, access := 7, modify := 7, change := 7 },
    uninitByte := fun _ => 0xAA,
    asRecords := fun _ => [],
    asBytes := fun _ => [],
    addrByte := fun _ => 0x55 }

/-- A bucket before `fs_init`, every store call succeeding. -/
def emptyStore : Store := { objs := fun _ => none, faults := [] }

/-- A filler that never reports a full buffer. -/
def acceptAll : List String → String → Bool := fun _ _ => false

/-- The bucket after `fs_init`. -/
def st_init : Store := fs_init env0 emptyStore

/-- After `fs_init`, then `mkdir /d` with mode 0755. -/
def st_d : Store := (fs_mkdir env0 st_init ["d"] 0o755).2

/-- After `st_d`, then `mknod /d/f` with mode 0644. -/
def st_df : Store := (fs_mknod env0 st_d ["d", "f"] 0o644).2

/-- After `fs_init`, then `mknod /f` with mode 0644. -/
def st_f : Store := (fs_mknod env0 st_init ["f"] 0o644).2

/-- After `st_d`, then `rmdir /d`: the root table holds a slot of type `'U'`. -/
def st_d_rm : Store := (fs_rmdir env0 st_d ["d"]).2

/-! ## Sequences of calls -/

/-- A call of one of the callbacks that change the store. -/
inductive Op where
  | mkdir (path : Path) (mode : Nat)
  | rmdir (path : Path)
  | mknod (path : Path) (mode : Nat)
  | unlink (path : Path)
  | write (path : Path) (buf : List Nat) (size offset : Nat)
  | truncate (path : Path) (newsize : Nat)
  | ftruncate (path : Path) (offset : Nat)
  | rename (path newpath : Path)

/-- The store after a call. -/
def applyOp (env : Env) (s : Store) : Op → Store
  | Op.mkdir p m => (fs_mkdir env s p m).2
  | Op.rmdir p => (fs_rmdir env s p).2
  | Op.mknod p m => (fs_mknod env s p m).2
  | Op.unlink p => (fs_unlink env s p).2
  | Op.write p b n o => (fs_write env s p b n o).2
  | Op.truncate p n => (fs_truncate env s p n).2
  | Op.ftruncate p n => (fs_ftruncate env s p n).2
  | Op.rename p q => (fs_rename env s p q).2

/-- The path arguments of a call. -/
def opPaths : Op → List Path
  | Op.mkdir p _ => [p]
  | Op.rmdir p => [p]
  | Op.mknod p _ => [p]
  | Op.unlink p => [p]
  | Op.write p _ _ _ => [p]
  | Op.truncate p _ => [p]
  | Op.ftruncate p _ => [p]
  | Op.rename p q => [p, q]

/-- The store after a sequence of calls, each with its own environment (the
time and the indeterminate memory differ from call to call). -/
def run (s : Store) : List (Env × Op) → Store
  | [] => s
  | c :: rest => run (applyOp c.1 s c.2) rest

/-- The object at `"/"` is a table whose slot 0 has the name, the type and the
mode that `fs_init` gives the root. -/
def rootOK (objs : Path → Option Obj) : Bool :=
  match objs [] with
  | some (Obj.table (e :: _)) =>
    decide (e.name = "." ∧ e.type = 'D' ∧
      e.permissions = S_IFDIR ||| S_IRUSR ||| S_IWUSR ||| S_IXUSR)
  | _ => false

/-- No failure of a store call is pending and the root is as `rootOK` says. -/
def Good (s : Store) : Prop := s.faults = [] ∧ rootOK s.objs = true

/-- The names of the slots of a table that are not `'U'`. -/
def liveNames (ents : List s3dirent_t) : List String :=
  (ents.filter (fun d => decide (d.type ≠ 'U'))).map (fun d => d.name)

/-! ## Further scenarios and predicates -/

/-- The bucket after `fs_init` with the outcomes of the next store calls given:
`true` makes a call fail. -/
def st_init_pending (faults : List Bool) : Store := { st_init with faults := faults }

/-- The bucket after `mknod /f` with the outcomes of the next store calls given:
`true` makes a call fail. -/
def st_f_pending (faults : List Bool) : Store := { st_f with faults := faults }

/-- The bucket after `mkdir /d` and `mknod /d/f` with the outcomes of the next
store calls given. -/
def st_df_pending (faults : List Bool) : Store := { st_df with faults := faults }

/-- After `st_f`, then `mkdir /f` with mode 0755. -/
def st_f_dir : Store := (fs_mkdir env0 st_f ["f"] 0o755).2

/-- The number of records of type `'D'`. -/
def countD (l : List s3dirent_t) : Nat :=
  (l.filter (fun d => decide (d.type = 'D'))).length

/-- No object is at `"/"`, or it is a table whose slot 0 is named `"."`, whose
later slots have the types `'D'`, `'F'` or `'U'`, and whose slot 0 records as
link count 1 plus the number of later slots of type `'D'`, in the 32 bits of
the field. -/
def linkOK (objs : Path → Option Obj) : Bool :=
  match objs [] with
  | none => true
  | some (Obj.table (e :: rest)) =>
    decide (e.name = "." ∧ (∀ d ∈ rest, d.type = 'D' ∨ d.type = 'F' ∨ d.type = 'U') ∧
      e.hardlinks = (1 + countD rest) % 2 ^ 32)
  | _ => false

/-- No failure of a store call is pending and the root is as `linkOK` says. -/
def Linked (s : Store) : Prop := s.faults = [] ∧ linkOK s.objs = true

/-- A call of `fs_mkdir`, `fs_rmdir`, `fs_mknod` or `fs_unlink`, where the path
of `fs_rmdir` does not end in the component `"."` (FUSE passes normalised
paths). -/
def linkCall : Op → Bool
  | Op.mkdir _ _ => true
  | Op.rmdir p => decide (basename p ≠ ".")
  | Op.mknod _ _ => true
  | Op.unlink _ => true
  | _ => false

/-- The value `ceil(s / 512)` in exact integer arithmetic. -/
def ceilDiv512 (s : Nat) : Nat := (s + 511) / 512

/-- The number of records named `n` whose type is not `'U'`. -/
def liveCount (n : String) (t : List s3dirent_t) : Nat :=
  (t.filter (fun d => decide (d.name = n ∧ d.type ≠ 'U'))).length

/-- What holds of the objects of every bucket reached from `fs_init` when no
store call fails and no path has a component `"."`. -/
structure Sound (objs : Path → Option Obj) : Prop where
  /-- The object at `"/"`, if there is one, is a table whose slot 0 is of type `'D'`. -/
  root : ∀ o, objs [] = some o → ∃ e t, o = Obj.table (e :: t) ∧ e.type = 'D'
  /-- Every content object is empty. -/
  bytes_nil : ∀ K data, objs K = some (Obj.bytes data) → data = []
  /-- No table is empty. -/
  nonempty : ∀ K, objs K ≠ some (Obj.table [])
  /-- Slot 0 of a table is the self-descriptor, or of type `'F'` (the table of a
  file that was given children). -/
  head : ∀ K e t, objs K = some (Obj.table (e :: t)) →
    (e.type = 'D' ∧ e.name = ".") ∨ e.type = 'F'
  /-- The later slots have the types `'D'`, `'F'` or `'U'`. -/
  types : ∀ K e t, objs K = some (Obj.table (e :: t)) →
    ∀ d ∈ t, d.type = 'D' ∨ d.type = 'F' ∨ d.type = 'U'
  /-- A later slot of type `'F'` names the key of an object. -/
  file : ∀ K e t d, objs K = some (Obj.table (e :: t)) → d ∈ t → d.type = 'F' →
    (objs (K ++ [d.name])).isSome = true
  /-- A later slot of type `'D'` names the key of a table whose slot 0 is of
  type `'D'`. -/
  dir : ∀ K e t d, objs K = some (Obj.table (e :: t)) → d ∈ t → d.type = 'D' →
    ∃ e2 t2, objs (K ++ [d.name]) = some (Obj.table (e2 :: t2)) ∧ e2.type = 'D'
  /-- Where the loop of `fs_opendir` over the later slots finds a name as a
  directory, no other of these slots that is not `'U'` has the name. -/
  uniq : ∀ K e t n, objs K = some (Obj.table (e :: t)) → n ≠ "." →
    opendir_scan n t = 0 → liveCount n t = 1

/-- No failure of a store call is pending and the objects are sound. -/
def SoundStore (s : Store) : Prop := s.faults = [] ∧ Sound s.objs

/-! ## What the calls leave alone, whatever the outcomes of the store calls -/

theorem nextCall_objs (s : Store) : (nextCall s).2.objs = s.objs := by
  unfold nextCall
  cases s.faults <;> rfl

theorem get_objs (env : Env) (s : Store) (k : Path) (start count : Nat) :
    (s3fs_get_object env s k start count).2.objs = s.objs := by
  unfold s3fs_get_object
  cases hn : nextCall s with
  | mk fail s1 =>
    have h1 : s1.objs = s.objs := by
      have := nextCall_objs s
      rw [hn] at this
      exact this
    cases fail
    · cases s.objs k with
      | none => simpa using h1
      | some o => by_cases c : start = 0 ∧ count = 0 <;> simpa [c] using h1
    · simpa using h1

theorem remove_objs_other (s : Store) (k x : Path) (hx : x ≠ k) :
    (s3fs_remove_object s k).2.objs x = s.objs x := by
  unfold s3fs_remove_object
  cases hn : nextCall s with
  | mk fail s1 =>
    have h1 : s1.objs = s.objs := by
      have := nextCall_objs s
      rw [hn] at this
      exact this
    cases fail
    · cases s.objs k with
      | none => simp [h1]
      | some o => simp [hx]
    · simp [h1]

theorem put_objs_other (env : Env) (s : Store) (k x : Path) (o : Obj) (hx : x ≠ k) :
    (s3fs_put_object env s k o).2.objs x = s.objs x := by
  unfold s3fs_put_object
  cases hn : nextCall s with
  | mk fail s1 =>
    have h1 : s1.objs = s.objs := by
      have := nextCall_objs s
      rw [hn] at this
      exact this
    cases fail
    · simp [hx]
    · simp [h1]

theorem filexist_objs (env : Env) (s : Store) (k : Path) :
    (filexist env s k).2.objs = s.objs := by
  unfold filexist
  dsimp only
  split <;> simp [get_objs]

theorem fs_open_objs (env : Env) (s : Store) (p : Path) :
    (fs_open env s p).2.objs = s.objs := by
  unfold fs_open
  dsimp only
  repeat' split
  all_goals simp [get_objs, filexist_objs]

theorem fs_opendir_objs (env : Env) (s : Store) (p : Path) :
    (fs_opendir env s p).2.objs = s.objs := by
  unfold fs_opendir
  dsimp only
  repeat' split
  all_goals simp [get_objs]

/-- Whatever the outcomes of the store calls, `fs_unlink` changes no object. -/
theorem fs_unlink_objs (env : Env) (s : Store) (p : Path) :
    (fs_unlink env s p).2.objs = s.objs := by
  unfold fs_unlink
  dsimp only
  repeat' split
  all_goals simp [get_objs, fs_open_objs]

/-- Whatever the outcomes of the store calls, `fs_ftruncate` changes no
object. -/
theorem fs_ftruncate_objs (env : Env) (s : Store) (p : Path) (n : Nat) :
    (fs_ftruncate env s p n).2.objs = s.objs := by
  unfold fs_ftruncate
  dsimp only
  repeat' split
  all_goals simp [get_objs]

/-- Whatever the outcomes of the store calls, `fs_truncate` changes no
object. -/
theorem fs_truncate_objs (env : Env) (s : Store) (p : Path) (n : Nat) :
    (fs_truncate env s p n).2.objs = s.objs := by
  unfold fs_truncate
  dsimp only
  repeat' split
  all_goals simp [get_objs, fs_open_objs]

/-- Whatever the outcomes of the store calls, `fs_unlink` does not return 0:
it returns `-ENOENT` or `-EIO`, or does not return. -/
theorem fs_unlink_ret (env : Env) (s : Store) (p : Path) :
    (fs_unlink env s p).1 = some (-ENOENT) ∨ (fs_unlink env s p).1 = some (- EIO) ∨
      (fs_unlink env s p).1 = none := by
  unfold fs_unlink
  dsimp only
  repeat' split
  all_goals simp

theorem fs_unlink_ne_zero (env : Env) (s : Store) (p : Path) :
    (fs_unlink env s p).1 ≠ some 0 := by
  rcases fs_unlink_ret env s p with h | h | h <;> rw [h] <;> simp [ENOENT, EIO]

/-- Whatever the outcomes of the store calls, `fs_ftruncate` does not return
0: it returns `-EIO` or does not return. -/
theorem fs_ftruncate_ne_zero (env : Env) (s : Store) (p : Path) (n : Nat) :
    (fs_ftruncate env s p n).1 ≠ some 0 := by
  unfold fs_ftruncate
  dsimp only
  repeat' split
  all_goals simp [ENOENT, EIO]

/-- Whatever the outcomes of the store calls, `fs_truncate` does not return
0. -/
theorem fs_truncate_ne_zero (env : Env) (s : Store) (p : Path) (n : Nat) :
    (fs_truncate env s p n).1 ≠ some 0 := by
  unfold fs_truncate
  dsimp only
  repeat' split
  all_goals first
    | (simp only [ne_eq, Option.some.injEq]; assumption)
    | simp [ENOENT, EIO]

/-- Whatever the outcomes of the store calls, `fs_write` returns `-ENOENT` or
`-EIO`, or does not return. -/
theorem fs_write_ret (env : Env) (s : Store) (p : Path) (buf : List Nat)
    (size offset : Nat) :
    (fs_write env s p buf size offset).1 = some (-ENOENT) ∨
      (fs_write env s p buf size offset).1 = some (- EIO) ∨
      (fs_write env s p buf size offset).1 = none := by
  unfold fs_write
  dsimp only
  repeat' split
  all_goals simp

theorem fs_write_ne_zero (env : Env) (s : Store) (p : Path) (buf : List Nat)
    (size offset : Nat) : (fs_write env s p buf size offset).1 ≠ some 0 := by
  rcases fs_write_ret env s p buf size offset with h | h | h <;> rw [h] <;> simp [ENOENT, EIO]

/-! ## Store calls that succeed -/

theorem dirname_ne_self (p : Path) (h : p ≠ []) : dirname p ≠ p := by
  intro e
  have hl := congrArg List.length e
  have hp : 0 < p.length := List.length_pos.mpr h
  simp [dirname] at hl
  omega

theorem records_table (env : Env) (ents : List s3dirent_t) :
    records env (Obj.table ents) = ents := by
  simp [records, recordView, byteLen, Nat.mul_div_cancel_left _ env.recsize_pos]

theorem content_bytes (env : Env) (data : List Nat) :
    content env (Obj.bytes data) = data := rfl

theorem records_bytes_nil (env : Env) : records env (Obj.bytes []) = [] := by
  simp [records, byteLen]

theorem get_ok (env : Env) (objs : Path → Option Obj) (k : Path) :
    s3fs_get_object env ⟨objs, []⟩ k 0 0 = (objs k, ⟨objs, []⟩) := by
  cases h : objs k <;> simp [s3fs_get_object, nextCall, h]

theorem put_ok (env : Env) (objs : Path → Option Obj) (k : Path) (o : Obj) :
    s3fs_put_object env ⟨objs, []⟩ k o =
      (some (byteLen env o), ⟨fun x => if x = k then some o else objs x, []⟩) := by
  simp [s3fs_put_object, nextCall]

theorem remove_ok (objs : Path → Option Obj) (k : Path) (o : Obj) (h : objs k = some o) :
    s3fs_remove_object ⟨objs, []⟩ k =
      (true, ⟨fun x => if x = k then none else objs x, []⟩) := by
  simp [s3fs_remove_object, nextCall, h]

theorem filexist_ok (env : Env) (objs : Path → Option Obj) (k : Path) :
    filexist env ⟨objs, []⟩ k =
      (if (objs k).isSome then 0 else -ENOENT, ⟨objs, []⟩) := by
  cases h : objs k <;> simp [filexist, get_ok, h]

/-- With every store call succeeding, `fs_open` leaves the store as it is. -/
theorem fs_open_ok_store (env : Env) (objs : Path → Option Obj) (p : Path) :
    (fs_open env ⟨objs, []⟩ p).2 = ⟨objs, []⟩ := by
  unfold fs_open
  simp only [filexist_ok, get_ok]
  cases h : objs p <;> cases h2 : objs (dirname p) <;> simp [ENOENT]

/-- With every store call succeeding, `fs_open` returns 0 only when the object
and the parent's object exist and the scan of the parent's records finds the
name as a file. -/
theorem fs_open_ok_zero (env : Env) (objs : Path → Option Obj) (p : Path)
    (h : (fs_open env ⟨objs, []⟩ p).1 = some 0) :
    ∃ o po, objs p = some o ∧ objs (dirname p) = some po ∧
      open_scan (basename p) (records env po) = some 0 := by
  unfold fs_open at h
  simp only [filexist_ok, get_ok] at h
  cases h1 : objs p <;> cases h2 : objs (dirname p) <;> simp [h1, h2, ENOENT, EIO] at h
  exact ⟨_, _, rfl, rfl, h⟩

theorem fs_open_ok_of (env : Env) (objs : Path → Option Obj) (p : Path) (o po : Obj)
    (h1 : objs p = some o) (h2 : objs (dirname p) = some po) :
    fs_open env ⟨objs, []⟩ p = (open_scan (basename p) (records env po), ⟨objs, []⟩) := by
  unfold fs_open
  simp [filexist_ok, get_ok, h1, h2]

/-- Where `fs_open` finds a file, the loop of `fs_write` and `fs_rename` finds
a record of that name and type `'F'`. -/
theorem file_scan_of_open_scan (name : String) (l : List s3dirent_t)
    (h : open_scan name l = some 0) :
    ∃ d, file_scan name l = some d ∧ d.name = name ∧ d.type = 'F' := by
  induction l with
  | nil => simp [open_scan] at h
  | cons d rest ih =>
    unfold open_scan at h
    unfold file_scan
    by_cases hn : d.name = name
    · by_cases hD : d.type = 'D'
      · simp [hn, hD, ENOENT] at h
      · by_cases hF : d.type = 'F'
        · exact ⟨d, by simp [hn, hF], hn, hF⟩
        · simp only [hn, hD, hF, if_true, if_false] at h
          simpa [hn, hF] using ih h
    · simp only [hn, if_false] at h
      simpa [hn] using ih h

/-- With every store call succeeding, on a path that `fs_open` opens,
`fs_unlink` does not return and leaves the store as it is. -/
theorem fs_unlink_ok (env : Env) (objs : Path → Option Obj) (p : Path)
    (h : (fs_open env ⟨objs, []⟩ p).1 = some 0) :
    fs_unlink env ⟨objs, []⟩ p = (none, ⟨objs, []⟩) := by
  obtain ⟨o, po, _, h2, _⟩ := fs_open_ok_zero env objs p h
  unfold fs_unlink
  simp [h, fs_open_ok_store, get_ok, h2]

/-- With every store call succeeding, `fs_unlink` leaves the store as it is,
whatever it returns. -/
theorem fs_unlink_nil (env : Env) (objs : Path → Option Obj) (p : Path) :
    (fs_unlink env ⟨objs, []⟩ p).2 = ⟨objs, []⟩ := by
  unfold fs_unlink
  dsimp only
  repeat' split
  all_goals simp [fs_open_ok_store, get_ok]

theorem addfiletoparent_ok (env : Env) (objs : Path → Option Obj) (p : Path) (po : Obj)
    (mode size : Nat) (h : objs (dirname p) = some po) :
    addfiletoparent env ⟨objs, []⟩ p mode size =
      (0, ⟨fun x => if x = dirname p
                    then some (Obj.table (records env po ++ [fileEnt env (basename p) mode size]))
                    else objs x, []⟩) := by
  unfold addfiletoparent
  simp only [get_ok, h, remove_ok objs (dirname p) po h, put_ok]
  simp only [Bool.not_true, Bool.false_eq_true, if_false, Prod.mk.injEq, Store.mk.injEq,
    and_true, true_and]
  funext x
  by_cases hx : x = dirname p <;> simp [hx]

/-- With every store call succeeding, `fs_write` leaves the store as it is:
on a path that `fs_open` opens, the call ends in `fs_unlink` at the latest. -/
theorem fs_write_nil (env : Env) (objs : Path → Option Obj) (p : Path) (buf : List Nat)
    (size offset : Nat) :
    (fs_write env ⟨objs, []⟩ p buf size offset).2 = ⟨objs, []⟩ := by
  unfold fs_write
  simp only [fs_open_ok_store, get_ok]
  split
  · rfl
  · rename_i c hc
    split
    · rfl
    · rename_i hc0
      have hz : (fs_open env ⟨objs, []⟩ p).1 = some 0 := by
        rw [hc]
        simpa using hc0
      simp only [fs_unlink_ok env objs p hz]
      repeat' split
      all_goals rfl

/-- With every store call succeeding, on a path that `fs_open` opens,
`fs_write` does not return. -/
theorem fs_write_ok (env : Env) (objs : Path → Option Obj) (p : Path) (buf : List Nat)
    (size offset : Nat) (h : (fs_open env ⟨objs, []⟩ p).1 = some 0) :
    fs_write env ⟨objs, []⟩ p buf size offset = (none, ⟨objs, []⟩) := by
  obtain ⟨o, po, h1, h2, h3⟩ := fs_open_ok_zero env objs p h
  obtain ⟨d, hd, _, _⟩ := file_scan_of_open_scan _ _ h3
  unfold fs_write
  simp only [h, fs_open_ok_store, get_ok, h1, h2, hd, fs_unlink_ok env objs p h]
  simp only [ne_eq, not_true_eq_false, if_false]
  split <;> rfl

theorem write_buffer_length (env : Env) (buf : List Nat) (size offset bufsize : Nat) :
    (write_buffer env buf size offset bufsize).length = bufsize := by
  simp [write_buffer]

theorem readBytes_length (env : Env) (data : List Nat) (n : Nat) :
    (readBytes env data n).length = n := by
  simp [readBytes]

/-- The bytes that `fs_rename` stores agree with the content it fetched as far
as both reach. -/
theorem readBytes_take (env : Env) (data : List Nat) (n : Nat) :
    (readBytes env data n).take data.length = data.take n := by
  apply List.ext_getElem
  · simp [readBytes_length, Nat.min_comm]
  · intro i h1 h2
    simp at h1 h2
    simp [readBytes, List.getD_eq_getElem?_getD, h2.2]

/-- With every store call succeeding, `fs_ftruncate` leaves the store as it is,
and does not return where the object and the parent's object exist. -/
theorem fs_ftruncate_ok (env : Env) (objs : Path → Option Obj) (p : Path) (o po : Obj)
    (n : Nat) (h1 : objs p = some o) (h2 : objs (dirname p) = some po) :
    fs_ftruncate env ⟨objs, []⟩ p n = (none, ⟨objs, []⟩) := by
  unfold fs_ftruncate
  simp [get_ok, h1, h2]

/-- With every store call succeeding, on a path that `fs_open` opens,
`fs_truncate` does not return and leaves the store as it is. -/
theorem fs_truncate_ok (env : Env) (objs : Path → Option Obj) (p : Path) (n : Nat)
    (h : (fs_open env ⟨objs, []⟩ p).1 = some 0) :
    fs_truncate env ⟨objs, []⟩ p n = (none, ⟨objs, []⟩) := by
  obtain ⟨o, po, h1, h2, _⟩ := fs_open_ok_zero env objs p h
  unfold fs_truncate
  simp [h, fs_open_ok_store, get_ok, h1, h2]

theorem fs_opendir_ok_store (env : Env) (objs : Path → Option Obj) (p : Path) :
    (fs_opendir env ⟨objs, []⟩ p).2 = ⟨objs, []⟩ := by
  unfold fs_opendir
  by_cases hp : p = []
  · simp [hp]
  · simp only [hp, if_false, get_ok]
    cases h : objs p <;> cases h2 : objs (dirname p) <;> simp

theorem fs_opendir_ok_of (env : Env) (objs : Path → Option Obj) (p : Path) (o po : Obj)
    (hp : p ≠ []) (h1 : objs p = some o) (h2 : objs (dirname p) = some po) :
    (fs_opendir env ⟨objs, []⟩ p).1 = opendir_scan (basename p) (records env po) := by
  unfold fs_opendir
  simp [hp, get_ok, h1, h2]

theorem adddirtoparent_ok (env : Env) (objs : Path → Option Obj) (p : Path) (po : Obj)
    (h : objs (dirname p) = some po) :
    adddirtoparent env ⟨objs, []⟩ p =
      (((env.recsize * ((records env po).length + 1) : Nat) : Int),
       ⟨fun x => if x = dirname p
          then some (Obj.table (bumpFirst (records env po) ++ [addingEnt env (basename p)]))
          else objs x, []⟩) := by
  have hb : (bumpFirst (records env po)).length = (records env po).length := by
    cases records env po <;> simp [bumpFirst]
  unfold adddirtoparent
  simp only [get_ok, h, remove_ok objs (dirname p) po h, put_ok]
  simp only [Bool.not_true, Bool.false_eq_true, if_false, byteLen, List.length_append, hb,
    List.length_singleton, Prod.mk.injEq, Store.mk.injEq, and_true, true_and]
  funext x
  by_cases hx : x = dirname p <;> simp [hx]

theorem adddirent_ok (env : Env) (objs : Path → Option Obj) (p : Path) (mode : Nat) :
    adddirent env ⟨objs, []⟩ p mode =
      (0, ⟨fun x => if x = p then some (Obj.table [dirEnt env mode]) else objs x, []⟩) := by
  unfold adddirent
  simp [put_ok, byteLen]

/-- What `fs_mkdir` has done when it returns 0, with every store call
succeeding: the parent's table has its slot 0 bumped and one record appended,
and a table of one record is stored at the path. -/
theorem fs_mkdir_ok (env : Env) (objs : Path → Option Obj) (p : Path) (mode : Nat)
    (hm : (fs_mkdir env ⟨objs, []⟩ p mode).1 = 0) :
    p ≠ [] ∧ ∃ po, objs (dirname p) = some po ∧
      (fs_mkdir env ⟨objs, []⟩ p mode).2 =
        ⟨fun x => if x = p then some (Obj.table [dirEnt env (mode ||| S_IFDIR)])
          else if x = dirname p
          then some (Obj.table (bumpFirst (records env po) ++ [addingEnt env (basename p)]))
          else objs x, []⟩ := by
  have hp : p ≠ [] := by
    intro h
    subst h
    simp [fs_mkdir, fs_opendir, EEXIST] at hm
  refine ⟨hp, ?_⟩
  unfold fs_mkdir at hm ⊢
  simp only [fs_opendir_ok_store] at hm ⊢
  by_cases c1 : (fs_opendir env ⟨objs, []⟩ p).1 = 0
  · simp [c1, EEXIST] at hm
  · by_cases c2 : (fs_opendir env ⟨objs, []⟩ (dirname p)).1 = 0
    · cases hpo : objs (dirname p) with
      | none =>
        simp [c1, c2, adddirtoparent, get_ok, hpo, EIO] at hm
      | some po =>
        refine ⟨po, rfl, ?_⟩
        have hnn : ¬ ((env.recsize * ((records env po).length + 1) : Nat) : Int) < 0 := by
          omega
        have hge : ¬ ((env.recsize * ((records env po).length + 1) : Nat) : Int) < env.recsize := by
          have : env.recsize ≤ env.recsize * ((records env po).length + 1) :=
            Nat.le_mul_of_pos_right _ (Nat.succ_pos _)
          omega
        simp only [c1, c2, if_false, ne_eq, not_true_eq_false, adddirtoparent_ok env objs p po hpo,
          hnn, hge, adddirent_ok]
    · simp [c1, c2, ENOENT] at hm

/-- For a record larger than a pointer, `fs_getattr` of a path that does not
open as a directory looks at no record of the parent and never returns 0. -/
theorem fs_getattr_not_dir (env : Env) (s : Store) (p : Path)
    (hrec : sizeof_ptr < env.recsize) (hd : (fs_opendir env s p).1 ≠ 0) :
    (fs_getattr env s p).1 < 0 ∧ (fs_getattr env s p).2.1 = none := by
  have hz : sizeof_ptr / env.recsize = 0 := Nat.div_eq_of_lt hrec
  unfold fs_getattr
  simp only [hd, if_false, hz, List.take_zero, getattr_scan]
  cases h1 : (s3fs_get_object env (fs_opendir env s p).2 p 0 0).1 with
  | none => simp [ENOENT]
  | some o =>
    cases h2 : (s3fs_get_object env
        (s3fs_get_object env (fs_opendir env s p).2 p 0 0).2 (dirname p) 0 0).1 <;>
      simp [ENOENT, EIO]

/-! ## Listing and removing a directory -/

/-- With a filler that accepts every name, the loop of `fs_readdir` passes the
names of the records that are not `'U'`, in order, and ends with 0. -/
theorem readdir_loop_accept (filler : List String → String → Bool)
    (hacc : ∀ l n, filler l n = false) (passed : List String) (l : List s3dirent_t) :
    readdir_loop filler passed l = (0, passed ++ liveNames l) := by
  induction l generalizing passed with
  | nil => simp [readdir_loop, liveNames]
  | cons d rest ih =>
    unfold readdir_loop
    by_cases hU : d.type = 'U'
    · simp only [hU, ne_eq, not_true_eq_false, if_false, ih]
      simp [liveNames, hU]
    · simp only [hU, ne_eq, not_false_eq_true, if_true, hacc, Bool.false_eq_true, if_false, ih]
      simp [liveNames, hU]

/-- Whatever the filler answers, the loop of `fs_readdir` passes names of
records that are not `'U'` only, in order: the names passed are what was passed
before and then the first few live names. -/
theorem readdir_loop_take (filler : List String → String → Bool) (passed : List String)
    (l : List s3dirent_t) :
    ∃ k, (readdir_loop filler passed l).2 = passed ++ (liveNames l).take k := by
  induction l generalizing passed with
  | nil => exact ⟨0, by simp [readdir_loop]⟩
  | cons d rest ih =>
    unfold readdir_loop
    by_cases hU : d.type = 'U'
    · obtain ⟨k, hk⟩ := ih passed
      exact ⟨k, by simp [hU, hk, liveNames]⟩
    · by_cases hfl : filler passed d.name = true
      · exact ⟨1, by simp [hU, hfl, liveNames]⟩
      · obtain ⟨k, hk⟩ := ih (passed ++ [d.name])
        exact ⟨k + 1, by simp [hU, hfl, hk, liveNames]⟩

theorem opendir_scan_mem (name : String) (l : List s3dirent_t)
    (h : opendir_scan name l = 0) : ∃ d ∈ l, d.name = name ∧ d.type = 'D' := by
  induction l with
  | nil => simp [opendir_scan, ENOENT] at h
  | cons d rest ih =>
    unfold opendir_scan at h
    by_cases hn : d.name = name
    · by_cases hD : d.type = 'D'
      · exact ⟨d, by simp, hn, hD⟩
      · by_cases hF : d.type = 'F'
        · simp [hn, hD, hF, ENOTDIR] at h
        · simp only [hn, hD, hF, if_true, if_false] at h
          obtain ⟨e, he, h1, h2⟩ := ih h
          exact ⟨e, by simp [he], h1, h2⟩
    · simp only [hn, if_false] at h
      obtain ⟨e, he, h1, h2⟩ := ih h
      exact ⟨e, by simp [he], h1, h2⟩

theorem opendir_scan_tail (name : String) (e : s3dirent_t) (rest : List s3dirent_t)
    (hne : e.name ≠ name) (h : opendir_scan name (e :: rest) = 0) :
    opendir_scan name rest = 0 := by
  unfold opendir_scan at h
  simpa [hne] using h

theorem rmdir_mark_some (name : String) (l : List s3dirent_t)
    (h : ∃ d ∈ l, d.name = name ∧ d.type ≠ 'U') :
    ∃ t, rmdir_mark name l = some t ∧ t.length = l.length := by
  induction l with
  | nil => simp at h
  | cons d rest ih =>
    unfold rmdir_mark
    by_cases hc : d.name = name ∧ d.type ≠ 'U'
    · exact ⟨{ d with type := 'U' } :: rest, if_pos hc, by simp⟩
    · have h2 : ∃ e ∈ rest, e.name = name ∧ e.type ≠ 'U' := by
        obtain ⟨e, he, h1, h2⟩ := h
        rcases List.mem_cons.mp he with rfl | hmem
        · exact absurd ⟨h1, h2⟩ hc
        · exact ⟨e, hmem, h1, h2⟩
      obtain ⟨t, ht, hl⟩ := ih h2
      refine ⟨d :: t, ?_, by simp [hl]⟩
      rw [if_neg hc, ht]
      rfl

theorem dropFirst_length (l : List s3dirent_t) : (dropFirst l).length = l.length := by
  cases l <;> simp [dropFirst]

/-- What `fs_rmdir` returns for a directory that holds a record past slot 0
that is not `'U'`, with every store call succeeding. -/
theorem fs_rmdir_ok_live (env : Env) (objs : Path → Option Obj) (p : Path) (o : Obj)
    (hd : (fs_opendir env ⟨objs, []⟩ p).1 = 0) (ho : objs p = some o)
    (hl : rmdir_live (records env o) = true) :
    fs_rmdir env ⟨objs, []⟩ p = (-ENOTEMPTY, ⟨objs, []⟩) := by
  unfold fs_rmdir
  simp [hd, fs_opendir_ok_store, get_ok, ho, hl]

/-- What `fs_rmdir` does to a directory whose records past slot 0 are all
`'U'`, with every store call succeeding: the directory's object is removed and
the parent's table is stored with the marked slot and slot 0 changed. -/
theorem fs_rmdir_ok_empty (env : Env) (objs : Path → Option Obj) (p : Path) (o po : Obj)
    (tail : List s3dirent_t) (hp : p ≠ [])
    (hd : (fs_opendir env ⟨objs, []⟩ p).1 = 0) (ho : objs p = some o)
    (hpo : objs (dirname p) = some po)
    (hl : rmdir_live (records env o) = false)
    (hm : rmdir_mark (basename p) ((records env po).drop 1) = some tail)
    (hlen : 0 < tail.length) :
    fs_rmdir env ⟨objs, []⟩ p =
      (0, ⟨fun x => if x = dirname p
            then some (Obj.table (dropFirst ((records env po).take 1 ++ tail)))
            else if x = p then none else objs x, []⟩) := by
  have hne : dirname p ≠ p := dirname_ne_self p hp
  have hge : ¬ env.recsize * (dropFirst ((records env po).take 1 ++ tail)).length
      < env.recsize := by
    have h1 : 1 ≤ (dropFirst ((records env po).take 1 ++ tail)).length := by
      rw [dropFirst_length, List.length_append]
      omega
    have := Nat.le_mul_of_pos_right env.recsize h1
    omega
  unfold fs_rmdir
  simp only [hd, fs_opendir_ok_store, get_ok, ho, hl, remove_ok objs p o ho]
  simp only [ne_eq, not_true_eq_false, if_false, Bool.false_eq_true, Bool.not_true, hne,
    hpo, hm]
  rw [remove_ok _ (dirname p) po (by simp [hne, hpo])]
  simp only [Bool.not_true, Bool.false_eq_true, if_false, put_ok, byteLen, hge,
    Prod.mk.injEq, Store.mk.injEq, and_true, true_and]
  funext x
  by_cases hx : x = dirname p <;> simp [hx]

theorem fs_opendir_ok_zero (env : Env) (objs : Path → Option Obj) (p : Path) (hp : p ≠ [])
    (h : (fs_opendir env ⟨objs, []⟩ p).1 = 0) :
    ∃ o po, objs p = some o ∧ objs (dirname p) = some po ∧
      opendir_scan (basename p) (records env po) = 0 := by
  unfold fs_opendir at h
  simp only [hp, if_false, get_ok] at h
  cases h1 : objs p <;> cases h2 : objs (dirname p) <;> simp [h1, h2, ENOENT] at h
  exact ⟨_, _, rfl, rfl, h⟩

/-! ## Creating a directory or a file -/

/-- On a path that opens as a directory `fs_mkdir` returns `-EEXIST` and leaves
every object as it is, whatever the outcomes of the store calls. -/
theorem fs_mkdir_existing_dir (env : Env) (s : Store) (p : Path) (mode : Nat)
    (hd : (fs_opendir env s p).1 = 0) :
    (fs_mkdir env s p mode).1 = -EEXIST ∧ (fs_mkdir env s p mode).2.objs = s.objs := by
  unfold fs_mkdir
  simp [hd, fs_opendir_objs]

theorem fs_mknod_ok_exists (env : Env) (objs : Path → Option Obj) (p : Path) (mode : Nat)
    (o : Obj) (h : objs p = some o) :
    fs_mknod env ⟨objs, []⟩ p mode = (-EEXIST, ⟨objs, []⟩) := by
  unfold fs_mknod
  simp [filexist_ok, h]

theorem fs_mknod_ok_no_parent (env : Env) (objs : Path → Option Obj) (p : Path) (mode : Nat)
    (h : objs p = none) (h2 : objs (dirname p) = none) :
    fs_mknod env ⟨objs, []⟩ p mode = (-ENOENT, ⟨objs, []⟩) := by
  unfold fs_mknod
  simp [filexist_ok, h, h2, ENOENT]

/-- What `fs_mknod` does where no object is at the path and the parent holds
an object, with every store call succeeding. -/
theorem fs_mknod_ok_new (env : Env) (objs : Path → Option Obj) (p : Path) (mode : Nat)
    (po : Obj) (h : objs p = none) (h2 : objs (dirname p) = some po) :
    fs_mknod env ⟨objs, []⟩ p mode =
      (0, ⟨fun x => if x = dirname p
            then some (Obj.table (records env po ++ [fileEnt env (basename p) mode 0]))
            else if x = p then some (Obj.bytes []) else objs x, []⟩) := by
  have hne : dirname p ≠ p := by
    intro e
    rw [e, h] at h2
    exact Option.noConfusion h2
  unfold fs_mknod
  simp only [filexist_ok, h, h2, put_ok]
  rw [addfiletoparent_ok env _ p po mode 0 (by simp [hne, h2])]
  simp [ENOENT]

/-! ## No failure is left over where none was pending -/

theorem store_eta_nil (s : Store) (h : s.faults = []) : s = ⟨s.objs, []⟩ := by
  obtain ⟨objs, faults⟩ := s
  simp only at h
  subst h
  rfl

theorem get_faults (env : Env) (s : Store) (k : Path) (start count : Nat)
    (h : s.faults = []) : (s3fs_get_object env s k start count).2.faults = [] := by
  unfold s3fs_get_object nextCall
  simp only [h]
  repeat' split
  all_goals simp [h]

theorem put_faults (env : Env) (s : Store) (k : Path) (o : Obj) (h : s.faults = []) :
    (s3fs_put_object env s k o).2.faults = [] := by
  unfold s3fs_put_object nextCall
  simp [h]

theorem remove_faults (s : Store) (k : Path) (h : s.faults = []) :
    (s3fs_remove_object s k).2.faults = [] := by
  unfold s3fs_remove_object nextCall
  simp only [h]
  repeat' split
  all_goals simp [h]

theorem filexist_faults (env : Env) (s : Store) (k : Path) (h : s.faults = []) :
    (filexist env s k).2.faults = [] := by
  unfold filexist
  dsimp only
  repeat' split
  all_goals simp [get_faults, h]

theorem fs_open_faults (env : Env) (s : Store) (p : Path) (h : s.faults = []) :
    (fs_open env s p).2.faults = [] := by
  unfold fs_open
  dsimp only
  repeat' split
  all_goals simp [get_faults, filexist_faults, h]

theorem fs_opendir_faults (env : Env) (s : Store) (p : Path) (h : s.faults = []) :
    (fs_opendir env s p).2.faults = [] := by
  unfold fs_opendir
  dsimp only
  repeat' split
  all_goals simp [get_faults, h]

theorem fs_unlink_faults (env : Env) (s : Store) (p : Path) (h : s.faults = []) :
    (fs_unlink env s p).2.faults = [] := by
  unfold fs_unlink
  dsimp only
  repeat' split
  all_goals
    try dsimp only
    repeat' first
      | exact h
      | apply remove_faults
      | apply get_faults
      | apply fs_open_faults

theorem addfiletoparent_faults (env : Env) (s : Store) (p : Path) (mode size : Nat)
    (h : s.faults = []) : (addfiletoparent env s p mode size).2.faults = [] := by
  unfold addfiletoparent
  dsimp only
  repeat' split
  all_goals
    try dsimp only
    repeat' first
      | exact h
      | apply put_faults
      | apply remove_faults
      | apply get_faults

theorem adddirtoparent_faults (env : Env) (s : Store) (p : Path) (h : s.faults = []) :
    (adddirtoparent env s p).2.faults = [] := by
  unfold adddirtoparent
  dsimp only
  repeat' split
  all_goals
    try dsimp only
    repeat' first
      | exact h
      | apply put_faults
      | apply remove_faults
      | apply get_faults

theorem adddirent_faults (env : Env) (s : Store) (p : Path) (mode : Nat)
    (h : s.faults = []) : (adddirent env s p mode).2.faults = [] := by
  unfold adddirent
  dsimp only
  repeat' split
  all_goals
    try dsimp only
    repeat' first
      | exact h
      | apply put_faults

theorem fs_mkdir_faults (env : Env) (s : Store) (p : Path) (mode : Nat)
    (h : s.faults = []) : (fs_mkdir env s p mode).2.faults = [] := by
  unfold fs_mkdir
  dsimp only
  repeat' split
  all_goals
    try dsimp only
    repeat' first
      | exact h
      | apply adddirent_faults
      | apply adddirtoparent_faults
      | apply fs_opendir_faults

theorem fs_mknod_faults (env : Env) (s : Store) (p : Path) (mode : Nat)
    (h : s.faults = []) : (fs_mknod env s p mode).2.faults = [] := by
  unfold fs_mknod
  dsimp only
  repeat' split
  all_goals
    try dsimp only
    repeat' first
      | exact h
      | apply addfiletoparent_faults
      | apply put_faults
      | apply filexist_faults

theorem fs_rmdir_faults (env : Env) (s : Store) (p : Path) (h : s.faults = []) :
    (fs_rmdir env s p).2.faults = [] := by
  unfold fs_rmdir
  dsimp only
  repeat' split
  all_goals
    try dsimp only
    repeat' first
      | exact h
      | apply put_faults
      | apply remove_faults
      | apply get_faults
      | apply fs_opendir_faults

theorem fs_write_faults (env : Env) (s : Store) (p : Path) (buf : List Nat)
    (size offset : Nat) (h : s.faults = []) :
    (fs_write env s p buf size offset).2.faults = [] := by
  unfold fs_write
  dsimp only
  repeat' split
  all_goals
    try dsimp only
    repeat' first
      | exact h
      | apply put_faults
      | apply addfiletoparent_faults
      | apply fs_unlink_faults
      | apply get_faults
      | apply fs_open_faults

theorem fs_rename_faults (env : Env) (s : Store) (p q : Path) (h : s.faults = []) :
    (fs_rename env s p q).2.faults = [] := by
  unfold fs_rename
  dsimp only
  repeat' split
  all_goals
    try dsimp only
    repeat' first
      | exact h
      | apply put_faults
      | apply addfiletoparent_faults
      | apply fs_unlink_faults
      | apply get_faults

theorem fs_ftruncate_faults (env : Env) (s : Store) (p : Path) (n : Nat)
    (h : s.faults = []) : (fs_ftruncate env s p n).2.faults = [] := by
  unfold fs_ftruncate
  dsimp only
  repeat' split
  all_goals
    try dsimp only
    repeat' first
      | exact h
      | apply put_faults
      | apply remove_faults
      | apply get_faults

theorem fs_truncate_faults (env : Env) (s : Store) (p : Path) (n : Nat)
    (h : s.faults = []) : (fs_truncate env s p n).2.faults = [] := by
  unfold fs_truncate
  dsimp only
  repeat' split
  all_goals
    try dsimp only
    repeat' first
      | exact h
      | apply put_faults
      | apply remove_faults
      | apply get_faults
      | apply fs_open_faults

/-! ## The root table under calls on other paths -/

theorem rootOK_iff (objs : Path → Option Obj) :
    rootOK objs = true ↔ ∃ e rest, objs [] = some (Obj.table (e :: rest)) ∧ e.name = "." ∧
      e.type = 'D' ∧ e.permissions = S_IFDIR ||| S_IRUSR ||| S_IWUSR ||| S_IXUSR := by
  unfold rootOK
  constructor
  · intro h
    split at h
    · next e rest heq =>
      exact ⟨e, rest, heq, of_decide_eq_true h⟩
    · exact absurd h (by simp)
  · rintro ⟨e, rest, heq, h⟩
    rw [heq]
    exact decide_eq_true h

theorem rootOK_congr (objs objs2 : Path → Option Obj) (h : objs2 [] = objs []) :
    rootOK objs2 = rootOK objs := by
  unfold rootOK
  rw [h]

theorem good_of_same_root (s s2 : Store) (hg : Good s) (hf : s2.faults = [])
    (h : s2.objs [] = s.objs []) : Good s2 :=
  ⟨hf, by rw [rootOK_congr _ _ h]; exact hg.2⟩

theorem get_good (env : Env) (s : Store) (k : Path) (start count : Nat) (hg : Good s) :
    Good (s3fs_get_object env s k start count).2 :=
  good_of_same_root s _ hg (get_faults env s k start count hg.1) (by rw [get_objs])

theorem filexist_good (env : Env) (s : Store) (k : Path) (hg : Good s) :
    Good (filexist env s k).2 :=
  good_of_same_root s _ hg (filexist_faults env s k hg.1) (by rw [filexist_objs])

theorem fs_open_good (env : Env) (s : Store) (p : Path) (hg : Good s) :
    Good (fs_open env s p).2 :=
  good_of_same_root s _ hg (fs_open_faults env s p hg.1) (by rw [fs_open_objs])

theorem fs_opendir_good (env : Env) (s : Store) (p : Path) (hg : Good s) :
    Good (fs_opendir env s p).2 :=
  good_of_same_root s _ hg (fs_opendir_faults env s p hg.1) (by rw [fs_opendir_objs])

theorem put_good (env : Env) (s : Store) (k : Path) (o : Obj) (hg : Good s) (hk : k ≠ []) :
    Good (s3fs_put_object env s k o).2 :=
  good_of_same_root s _ hg (put_faults env s k o hg.1)
    (put_objs_other env s k [] o (Ne.symm hk))

theorem remove_good (s : Store) (k : Path) (hg : Good s) (hk : k ≠ []) :
    Good (s3fs_remove_object s k).2 :=
  good_of_same_root s _ hg (remove_faults s k hg.1) (remove_objs_other s k [] (Ne.symm hk))

theorem fs_unlink_good (env : Env) (s : Store) (p : Path) (hg : Good s) :
    Good (fs_unlink env s p).2 :=
  good_of_same_root s _ hg (fs_unlink_faults env s p hg.1)
    (by rw [fs_unlink_objs])

theorem fs_truncate_good (env : Env) (s : Store) (p : Path) (n : Nat) (hg : Good s) :
    Good (fs_truncate env s p n).2 :=
  good_of_same_root s _ hg (fs_truncate_faults env s p n hg.1)
    (by rw [fs_truncate_objs])

theorem fs_ftruncate_good (env : Env) (s : Store) (p : Path) (n : Nat) (hg : Good s) :
    Good (fs_ftruncate env s p n).2 :=
  good_of_same_root s _ hg (fs_ftruncate_faults env s p n hg.1)
    (by rw [fs_ftruncate_objs])

theorem addfiletoparent_none (env : Env) (objs : Path → Option Obj) (p : Path)
    (mode size : Nat) (h : objs (dirname p) = none) :
    addfiletoparent env ⟨objs, []⟩ p mode size = (- EIO, ⟨objs, []⟩) := by
  unfold addfiletoparent
  simp [get_ok, h]

theorem adddirtoparent_none (env : Env) (objs : Path → Option Obj) (p : Path)
    (h : objs (dirname p) = none) :
    adddirtoparent env ⟨objs, []⟩ p = (- EIO, ⟨objs, []⟩) := by
  unfold adddirtoparent
  simp [get_ok, h]

/-- A table stored at a key leaves the root good when the key is not the root
or the table starts with a slot that has the root's name, type and mode. -/
theorem good_store_table (objs : Path → Option Obj) (k : Path) (t : List s3dirent_t)
    (hg : Good ⟨objs, []⟩)
    (ht : k = [] → ∃ e rest, t = e :: rest ∧ e.name = "." ∧ e.type = 'D' ∧
      e.permissions = S_IFDIR ||| S_IRUSR ||| S_IWUSR ||| S_IXUSR) :
    Good ⟨fun x => if x = k then some (Obj.table t) else objs x, []⟩ := by
  by_cases hk : k = []
  · obtain ⟨e, rest, he, h1⟩ := ht hk
    refine ⟨rfl, (rootOK_iff _).mpr ⟨e, rest, ?_, h1⟩⟩
    simp [hk, he]
  · exact good_of_same_root ⟨objs, []⟩ _ hg rfl (by simp [Ne.symm hk])

theorem addfiletoparent_good (env : Env) (s : Store) (p : Path) (mode size : Nat)
    (hg : Good s) : Good (addfiletoparent env s p mode size).2 := by
  obtain ⟨objs, faults⟩ := s
  have hf : faults = [] := hg.1
  subst hf
  cases hpo : objs (dirname p) with
  | none =>
    rw [addfiletoparent_none env objs p mode size hpo]
    exact hg
  | some po =>
    rw [addfiletoparent_ok env objs p po mode size hpo]
    apply good_store_table objs (dirname p) _ hg
    intro hk
    obtain ⟨e, rest, he, h1⟩ := (rootOK_iff objs).mp hg.2
    rw [hk, he] at hpo
    have hpp : po = Obj.table (e :: rest) := (Option.some.inj hpo).symm
    subst hpp
    exact ⟨e, rest ++ [fileEnt env (basename p) mode size], by simp [records_table], h1⟩

theorem adddirtoparent_good (env : Env) (s : Store) (p : Path) (hg : Good s) :
    Good (adddirtoparent env s p).2 := by
  obtain ⟨objs, faults⟩ := s
  have hf : faults = [] := hg.1
  subst hf
  cases hpo : objs (dirname p) with
  | none =>
    rw [adddirtoparent_none env objs p hpo]
    exact hg
  | some po =>
    rw [adddirtoparent_ok env objs p po hpo]
    apply good_store_table objs (dirname p) _ hg
    intro hk
    obtain ⟨e, rest, he, h1⟩ := (rootOK_iff objs).mp hg.2
    rw [hk, he] at hpo
    have hpp : po = Obj.table (e :: rest) := (Option.some.inj hpo).symm
    subst hpp
    exact ⟨{ e with hardlinks := (e.hardlinks + 1) % 2 ^ 32 },
      rest ++ [addingEnt env (basename p)], by simp [records_table, bumpFirst], h1⟩

theorem adddirent_good (env : Env) (s : Store) (p : Path) (mode : Nat) (hg : Good s)
    (hp : p ≠ []) : Good (adddirent env s p mode).2 := by
  unfold adddirent
  dsimp only
  repeat' split
  all_goals exact put_good env s p _ hg hp

theorem fs_mkdir_good (env : Env) (s : Store) (p : Path) (mode : Nat) (hg : Good s)
    (hp : p ≠ []) : Good (fs_mkdir env s p mode).2 := by
  unfold fs_mkdir
  dsimp only
  repeat' split
  all_goals
    try dsimp only
    repeat' first
      | exact hg
      | exact hp
      | apply adddirent_good
      | apply adddirtoparent_good
      | apply fs_opendir_good

theorem fs_mknod_good (env : Env) (s : Store) (p : Path) (mode : Nat) (hg : Good s)
    (hp : p ≠ []) : Good (fs_mknod env s p mode).2 := by
  unfold fs_mknod
  dsimp only
  repeat' split
  all_goals
    try dsimp only
    repeat' first
      | exact hg
      | exact hp
      | apply addfiletoparent_good
      | apply put_good
      | apply filexist_good

theorem fs_write_good (env : Env) (s : Store) (p : Path) (buf : List Nat)
    (size offset : Nat) (hg : Good s) (hp : p ≠ []) :
    Good (fs_write env s p buf size offset).2 := by
  unfold fs_write
  dsimp only
  repeat' split
  all_goals
    try dsimp only
    repeat' first
      | exact hg
      | exact hp
      | apply put_good
      | apply addfiletoparent_good
      | apply fs_unlink_good
      | apply get_good
      | apply fs_open_good

theorem fs_rename_good (env : Env) (s : Store) (p q : Path) (hg : Good s)
    (hq : q ≠ []) : Good (fs_rename env s p q).2 := by
  unfold fs_rename
  dsimp only
  repeat' split
  all_goals
    try dsimp only
    repeat' first
      | exact hg
      | exact hq
      | apply put_good
      | apply addfiletoparent_good
      | apply fs_unlink_good
      | apply get_good

theorem remove_ok_gen (objs : Path → Option Obj) (k : Path) :
    s3fs_remove_object ⟨objs, []⟩ k =
      ((objs k).isSome, ⟨fun x => if x = k then none else objs x, []⟩) := by
  cases h : objs k with
  | none =>
    simp only [s3fs_remove_object, nextCall, h, Bool.false_eq_true, if_false,
      Option.isSome_none, Prod.mk.injEq, Store.mk.injEq, and_true, true_and]
    funext x
    by_cases hx : x = k <;> simp [hx, h]
  | some o => simp [remove_ok objs k o h]

/-- The store that `fs_rmdir` leaves on success keeps the root good. -/
theorem rmdir_parent_good (env : Env) (objs : Path → Option Obj) (p : Path) (o : Obj)
    (tail : List s3dirent_t) (hg : Good ⟨objs, []⟩) (hp : p ≠ [])
    (hpo : objs (dirname p) = some o) :
    Good ⟨fun x => if x = dirname p
        then some (Obj.table (dropFirst (List.take 1 (records env o) ++ tail)))
        else if x = dirname p then none else if x = p then none else objs x, []⟩ := by
  obtain ⟨e, rest, he, h1⟩ := (rootOK_iff objs).mp hg.2
  by_cases hk : dirname p = []
  · rw [hk, he] at hpo
    have hoo : o = Obj.table (e :: rest) := (Option.some.inj hpo).symm
    subst hoo
    refine ⟨rfl, (rootOK_iff _).mpr
      ⟨{ e with hardlinks := (e.hardlinks + 2 ^ 32 - 1) % 2 ^ 32 }, tail, ?_, h1⟩⟩
    simp [hk, records_table, dropFirst]
  · refine ⟨rfl, (rootOK_iff _).mpr ⟨e, rest, ?_, h1⟩⟩
    simp [Ne.symm hk, Ne.symm hp, he]

theorem fs_rmdir_good (env : Env) (s : Store) (p : Path) (hg : Good s) (hp : p ≠ []) :
    Good (fs_rmdir env s p).2 := by
  obtain ⟨objs, faults⟩ := s
  have hf : faults = [] := hg.1
  subst hf
  have hne : dirname p ≠ p := dirname_ne_self p hp
  have hrm : Good ⟨fun x => if x = p then none else objs x, []⟩ :=
    good_of_same_root ⟨objs, []⟩ _ hg rfl (by simp [Ne.symm hp])
  unfold fs_rmdir
  simp only [fs_opendir_ok_store, get_ok, remove_ok_gen, put_ok, hne, if_false]
  repeat' split
  all_goals try dsimp only
  all_goals try exact hg
  all_goals try exact hrm
  all_goals try exact rmdir_parent_good env objs p _ _ hg hp (by assumption)
  all_goals simp_all

theorem fs_init_root (env : Env) (objs0 : Path → Option Obj) :
    (fs_init env ⟨objs0, []⟩).objs [] = some (Obj.table [rootEnt env]) ∧
    (fs_init env ⟨objs0, []⟩).faults = [] := by
  simp [fs_init, s3fs_test_bucket, s3fs_clear_bucket, s3fs_put_object, nextCall]

theorem fs_init_good (env : Env) (objs0 : Path → Option Obj) :
    Good (fs_init env ⟨objs0, []⟩) :=
  ⟨(fs_init_root env objs0).2,
    (rootOK_iff _).mpr ⟨rootEnt env, [], (fs_init_root env objs0).1, rfl, rfl, rfl⟩⟩

theorem applyOp_good (env : Env) (s : Store) (op : Op) (hg : Good s)
    (hargs : ∀ q ∈ opPaths op, q ≠ []) : Good (applyOp env s op) := by
  cases op with
  | mkdir p m => exact fs_mkdir_good env s p m hg (hargs p (by simp [opPaths]))
  | rmdir p => exact fs_rmdir_good env s p hg (hargs p (by simp [opPaths]))
  | mknod p m => exact fs_mknod_good env s p m hg (hargs p (by simp [opPaths]))
  | unlink p => exact fs_unlink_good env s p hg
  | write p b n o => exact fs_write_good env s p b n o hg (hargs p (by simp [opPaths]))
  | truncate p n => exact fs_truncate_good env s p n hg
  | ftruncate p n => exact fs_ftruncate_good env s p n hg
  | rename p q =>
    exact fs_rename_good env s p q hg (hargs q (by simp [opPaths]))

theorem run_good (s : Store) (calls : List (Env × Op)) (hg : Good s)
    (hargs : ∀ c ∈ calls, ∀ q ∈ opPaths c.2, q ≠ []) : Good (run s calls) := by
  induction calls generalizing s with
  | nil => exact hg
  | cons c rest ih =>
    unfold run
    apply ih
    · exact applyOp_good c.1 s c.2 hg (hargs c (by simp))
    · intro c2 hc2
      exact hargs c2 (by simp [hc2])

/-! ## Rejected requests -/

theorem adddirent_ret (env : Env) (s : Store) (p : Path) (mode : Nat) :
    (adddirent env s p mode).1 = - EIO ∨ (adddirent env s p mode).1 = 0 := by
  unfold adddirent
  dsimp only
  repeat' split
  all_goals simp

/-- When `fs_mkdir` returns `-EEXIST` or `-ENOENT` every object is as before,
whatever the outcomes of the store calls. -/
theorem fs_mkdir_rejected (env : Env) (s : Store) (p : Path) (mode : Nat)
    (h : (fs_mkdir env s p mode).1 = -EEXIST ∨ (fs_mkdir env s p mode).1 = -ENOENT) :
    (fs_mkdir env s p mode).2.objs = s.objs := by
  unfold fs_mkdir at h ⊢
  dsimp only at h ⊢
  split
  · simp [fs_opendir_objs]
  · rename_i h1
    simp only [h1, if_false] at h
    split
    · simp [fs_opendir_objs]
    · rename_i h2
      simp only [h2, if_false] at h
      split
      · rename_i h3
        simp [h3, EIO, EEXIST, ENOENT] at h
      · rename_i h3
        simp only [h3, if_false] at h
        split
        · rename_i h4
          simp [h4, EIO, EEXIST, ENOENT] at h
        · rename_i h4
          simp only [h4, if_false] at h
          rcases adddirent_ret env (adddirtoparent env
            (fs_opendir env (fs_opendir env s p).2 (dirname p)).2 p).2 p (mode ||| S_IFDIR)
            with h5 | h5 <;> simp [h5, EIO, EEXIST, ENOENT] at h

/-- When `fs_mknod` returns `-EEXIST` or `-ENOENT` every object is as before,
whatever the outcomes of the store calls. -/
theorem fs_mknod_rejected (env : Env) (s : Store) (p : Path) (mode : Nat)
    (h : (fs_mknod env s p mode).1 = -EEXIST ∨ (fs_mknod env s p mode).1 = -ENOENT) :
    (fs_mknod env s p mode).2.objs = s.objs := by
  unfold fs_mknod at h ⊢
  dsimp only at h ⊢
  split
  · simp [filexist_objs]
  · rename_i h1
    simp only [h1, if_false] at h
    split
    · simp [filexist_objs]
    · rename_i h2
      simp only [h2, if_false] at h
      split
      · rename_i h3
        simp [h3, EIO, EEXIST, ENOENT] at h
      · rename_i t h3
        simp only [h3] at h
        split
        · rename_i h4
          simp [h4, EIO, EEXIST, ENOENT] at h
        · rename_i h4
          simp [h4, EEXIST, ENOENT] at h

/-- When `fs_rmdir` returns `-ENOTDIR` or `-ENOTEMPTY` every object is as
before, whatever the outcomes of the store calls. -/
theorem fs_rmdir_rejected (env : Env) (s : Store) (p : Path)
    (h : (fs_rmdir env s p).1 = -ENOTDIR ∨ (fs_rmdir env s p).1 = -ENOTEMPTY) :
    (fs_rmdir env s p).2.objs = s.objs := by
  unfold fs_rmdir at h ⊢
  dsimp only at h ⊢
  repeat' split at h
  all_goals first
    | (exfalso; simp [ENOENT, ENOTDIR, ENOTEMPTY, EIO] at h; done)
    | skip
  all_goals simp_all [fs_opendir_objs, get_objs]

/-! ## The parent's table after `fs_rmdir` -/

/-- What the second loop of `fs_rmdir` changes: one record, the first one named
`name` that is not `'U'`, and only its type. -/
theorem rmdir_mark_spec (name : String) (l t : List s3dirent_t)
    (h : rmdir_mark name l = some t) :
    ∃ (i : Nat) (d : s3dirent_t), l[i]? = some d ∧ d.name = name ∧ d.type ≠ 'U' ∧
      (∀ (j : Nat) (e : s3dirent_t), j < i → l[j]? = some e →
        ¬ (e.name = name ∧ e.type ≠ 'U')) ∧
      t = l.set i { d with type := 'U' } := by
  induction l generalizing t with
  | nil => simp [rmdir_mark] at h
  | cons d rest ih =>
    unfold rmdir_mark at h
    by_cases hc : d.name = name ∧ d.type ≠ 'U'
    · rw [if_pos hc] at h
      refine ⟨0, d, by simp, hc.1, hc.2, ?_, ?_⟩
      · intro j e hj
        omega
      · simpa using (Option.some.inj h).symm
    · rw [if_neg hc] at h
      cases hr : rmdir_mark name rest with
      | none => simp [hr] at h
      | some t2 =>
        rw [hr] at h
        obtain ⟨i, d2, h1, h2, h3, h4, h5⟩ := ih t2 hr
        refine ⟨i + 1, d2, by simpa using h1, h2, h3, ?_, ?_⟩
        · intro j e hj he
          cases j with
          | zero =>
            simp only [List.getElem?_cons_zero, Option.some.injEq] at he
            subst he
            exact hc
          | succ j2 =>
            simp only [List.getElem?_cons_succ] at he
            exact h4 j2 e (by omega) he
        · have := (Option.some.inj h).symm
          simp only [Option.map_some'] at h
          simp [← Option.some.inj h, h5]

/-- What `fs_rmdir` has done when it returns 0 on a path other than the root,
with every store call succeeding. -/
theorem fs_rmdir_ok_zero (env : Env) (objs : Path → Option Obj) (p : Path) (hp : p ≠ [])
    (h : (fs_rmdir env ⟨objs, []⟩ p).1 = 0) :
    ∃ o po tail, objs p = some o ∧ objs (dirname p) = some po ∧
      (fs_opendir env ⟨objs, []⟩ p).1 = 0 ∧
      rmdir_mark (basename p) ((records env po).drop 1) = some tail ∧
      fs_rmdir env ⟨objs, []⟩ p =
        (0, ⟨fun x => if x = dirname p
              then some (Obj.table (dropFirst ((records env po).take 1 ++ tail)))
              else if x = p then none else objs x, []⟩) := by
  have hne : dirname p ≠ p := dirname_ne_self p hp
  have hd : (fs_opendir env ⟨objs, []⟩ p).1 = 0 := by
    by_contra hne0
    unfold fs_rmdir at h
    simp [hne0] at h
  cases ho : objs p with
  | none =>
    unfold fs_rmdir at h
    simp [hd, fs_opendir_ok_store, get_ok, ho, ENOENT] at h
  | some o =>
    by_cases hl : rmdir_live (records env o) = true
    · rw [fs_rmdir_ok_live env objs p o hd ho hl] at h
      simp [ENOTEMPTY] at h
    · have hl2 : rmdir_live (records env o) = false := by simpa using hl
      cases hpo : objs (dirname p) with
      | none =>
        unfold fs_rmdir at h
        simp [hd, fs_opendir_ok_store, get_ok, ho, hl2, remove_ok objs p o ho, hne, hpo,
          ENOENT] at h
      | some po =>
        cases hm : rmdir_mark (basename p) ((records env po).drop 1) with
        | none =>
          have hm2 : rmdir_mark (basename p) (records env po).tail = none := by
            simpa using hm
          unfold fs_rmdir at h
          simp [hd, fs_opendir_ok_store, get_ok, ho, hl2, remove_ok objs p o ho, hne, hpo,
            hm2, EIO] at h
        | some tail =>
          obtain ⟨i, d, h1, _, _, _, h5⟩ := rmdir_mark_spec _ _ _ hm
          have hlen : 0 < tail.length := by
            have hi := (List.getElem?_eq_some_iff.mp h1).1
            rw [h5, List.length_set]
            omega
          exact ⟨o, po, tail, rfl, rfl, hd, hm,
            fs_rmdir_ok_empty env objs p o po tail hp hd ho hpo hl2 hm hlen⟩

/-! ## The link count of the root -/

theorem linkOK_iff (objs : Path → Option Obj) :
    linkOK objs = true ↔ objs [] = none ∨
      ∃ e rest, objs [] = some (Obj.table (e :: rest)) ∧ e.name = "." ∧
        (∀ d ∈ rest, d.type = 'D' ∨ d.type = 'F' ∨ d.type = 'U') ∧
        e.hardlinks = (1 + countD rest) % 2 ^ 32 := by
  unfold linkOK
  constructor
  · intro h
    split at h
    · next heq => exact Or.inl heq
    · next e rest heq => exact Or.inr ⟨e, rest, heq, of_decide_eq_true h⟩
    · exact absurd h (by simp)
  · rintro (heq | ⟨e, rest, heq, h⟩)
    · rw [heq]
    · rw [heq]
      exact decide_eq_true h

theorem linkOK_congr (objs objs2 : Path → Option Obj) (h : objs2 [] = objs []) :
    linkOK objs2 = linkOK objs := by
  unfold linkOK
  rw [h]

theorem linked_of_same_root (s s2 : Store) (hg : Linked s) (hf : s2.faults = [])
    (h : s2.objs [] = s.objs []) : Linked s2 :=
  ⟨hf, by rw [linkOK_congr _ _ h]; exact hg.2⟩

theorem linked_of_no_root (s2 : Store) (hf : s2.faults = []) (h : s2.objs [] = none) :
    Linked s2 :=
  ⟨hf, (linkOK_iff _).mpr (Or.inl h)⟩

theorem get_linked (env : Env) (s : Store) (k : Path) (start count : Nat) (hg : Linked s) :
    Linked (s3fs_get_object env s k start count).2 :=
  linked_of_same_root s _ hg (get_faults env s k start count hg.1) (by rw [get_objs])

theorem filexist_linked (env : Env) (s : Store) (k : Path) (hg : Linked s) :
    Linked (filexist env s k).2 :=
  linked_of_same_root s _ hg (filexist_faults env s k hg.1) (by rw [filexist_objs])

theorem fs_opendir_linked (env : Env) (s : Store) (p : Path) (hg : Linked s) :
    Linked (fs_opendir env s p).2 :=
  linked_of_same_root s _ hg (fs_opendir_faults env s p hg.1) (by rw [fs_opendir_objs])

theorem put_linked (env : Env) (s : Store) (k : Path) (o : Obj) (hg : Linked s)
    (hk : k ≠ []) : Linked (s3fs_put_object env s k o).2 :=
  linked_of_same_root s _ hg (put_faults env s k o hg.1)
    (put_objs_other env s k [] o (Ne.symm hk))

theorem fs_unlink_linked (env : Env) (s : Store) (p : Path) (hg : Linked s) :
    Linked (fs_unlink env s p).2 :=
  linked_of_same_root s _ hg (fs_unlink_faults env s p hg.1) (by rw [fs_unlink_objs])

theorem countD_append (l : List s3dirent_t) (d : s3dirent_t) :
    countD (l ++ [d]) = countD l + (if d.type = 'D' then 1 else 0) := by
  unfold countD
  by_cases h : d.type = 'D' <;> simp [List.filter_append, h]

/-- A table stored at a key leaves the root linked when the key is not the root
or the table is as `linkOK` asks. -/
theorem linked_store_table (objs : Path → Option Obj) (k : Path) (t : List s3dirent_t)
    (hg : Linked ⟨objs, []⟩)
    (ht : k = [] → ∃ e rest, t = e :: rest ∧ e.name = "." ∧
      (∀ d ∈ rest, d.type = 'D' ∨ d.type = 'F' ∨ d.type = 'U') ∧
      e.hardlinks = (1 + countD rest) % 2 ^ 32) :
    Linked ⟨fun x => if x = k then some (Obj.table t) else objs x, []⟩ := by
  by_cases hk : k = []
  · obtain ⟨e, rest, he, h1⟩ := ht hk
    refine ⟨rfl, (linkOK_iff _).mpr (Or.inr ⟨e, rest, ?_, h1⟩)⟩
    simp [hk, he]
  · exact linked_of_same_root ⟨objs, []⟩ _ hg rfl (by simp [Ne.symm hk])

/-- The table of a root that holds an object, in a linked store. -/
theorem linked_root_table (objs : Path → Option Obj) (po : Obj) (hg : Linked ⟨objs, []⟩)
    (hpo : objs [] = some po) :
    ∃ e rest, po = Obj.table (e :: rest) ∧ e.name = "." ∧
      (∀ d ∈ rest, d.type = 'D' ∨ d.type = 'F' ∨ d.type = 'U') ∧
      e.hardlinks = (1 + countD rest) % 2 ^ 32 := by
  rcases (linkOK_iff objs).mp hg.2 with h | ⟨e, rest, he, h1⟩
  · rw [h] at hpo
    exact Option.noConfusion hpo
  · rw [he] at hpo
    exact ⟨e, rest, (Option.some.inj hpo).symm, h1⟩

theorem addfiletoparent_linked (env : Env) (s : Store) (p : Path) (mode size : Nat)
    (hg : Linked s) : Linked (addfiletoparent env s p mode size).2 := by
  obtain ⟨objs, faults⟩ := s
  have hf : faults = [] := hg.1
  subst hf
  cases hpo : objs (dirname p) with
  | none =>
    rw [addfiletoparent_none env objs p mode size hpo]
    exact hg
  | some po =>
    rw [addfiletoparent_ok env objs p po mode size hpo]
    apply linked_store_table objs (dirname p) _ hg
    intro hk
    rw [hk] at hpo
    obtain ⟨e, rest, hpp, hn, hty, hl⟩ := linked_root_table objs po hg hpo
    subst hpp
    refine ⟨e, rest ++ [fileEnt env (basename p) mode size], by simp [records_table], hn, ?_, ?_⟩
    · intro d hd
      rcases List.mem_append.mp hd with h | h
      · exact hty d h
      · simp only [List.mem_singleton] at h
        subst h
        exact Or.inr (Or.inl rfl)
    · rw [countD_append]
      simpa [fileEnt] using hl

theorem adddirtoparent_linked (env : Env) (s : Store) (p : Path) (hg : Linked s) :
    Linked (adddirtoparent env s p).2 := by
  obtain ⟨objs, faults⟩ := s
  have hf : faults = [] := hg.1
  subst hf
  cases hpo : objs (dirname p) with
  | none =>
    rw [adddirtoparent_none env objs p hpo]
    exact hg
  | some po =>
    rw [adddirtoparent_ok env objs p po hpo]
    apply linked_store_table objs (dirname p) _ hg
    intro hk
    rw [hk] at hpo
    obtain ⟨e, rest, hpp, hn, hty, hl⟩ := linked_root_table objs po hg hpo
    subst hpp
    refine ⟨{ e with hardlinks := (e.hardlinks + 1) % 2 ^ 32 },
      rest ++ [addingEnt env (basename p)], by simp [records_table, bumpFirst], hn, ?_, ?_⟩
    · intro d hd
      rcases List.mem_append.mp hd with h | h
      · exact hty d h
      · simp only [List.mem_singleton] at h
        subst h
        exact Or.inl rfl
    · rw [countD_append]
      simp only [addingEnt, if_true]
      rw [hl]
      omega

theorem adddirent_linked (env : Env) (s : Store) (p : Path) (mode : Nat) (hg : Linked s)
    (hp : p ≠ []) : Linked (adddirent env s p mode).2 := by
  unfold adddirent
  dsimp only
  repeat' split
  all_goals exact put_linked env s p _ hg hp

/-- Where `fs_opendir` finds a directory among records of the types `'D'`, `'F'`
and `'U'`, the record that the second loop of `fs_rmdir` marks is of type
`'D'`: the marked list has one record of type `'D'` less. -/
theorem rmdir_mark_count (name : String) (l t : List s3dirent_t)
    (hty : ∀ d ∈ l, d.type = 'D' ∨ d.type = 'F' ∨ d.type = 'U')
    (hs : opendir_scan name l = 0) (hm : rmdir_mark name l = some t) :
    countD t + 1 = countD l ∧ ∀ d ∈ t, d.type = 'D' ∨ d.type = 'F' ∨ d.type = 'U' := by
  induction l generalizing t with
  | nil => simp [rmdir_mark] at hm
  | cons d rest ih =>
    have hd := hty d (by simp)
    have hrest : ∀ e ∈ rest, e.type = 'D' ∨ e.type = 'F' ∨ e.type = 'U' :=
      fun e he => hty e (by simp [he])
    unfold rmdir_mark at hm
    unfold opendir_scan at hs
    by_cases hc : d.name = name ∧ d.type ≠ 'U'
    · rw [if_pos hc] at hm
      have ht : t = { d with type := 'U' } :: rest := (Option.some.inj hm).symm
      subst ht
      have hD : d.type = 'D' := by
        rcases hd with h | h | h
        · exact h
        · simp [hc.1, h, ENOTDIR] at hs
        · exact absurd h hc.2
      constructor
      · simp [countD, hD]
      · intro e he
        rcases List.mem_cons.mp he with h | h
        · subst h
          exact Or.inr (Or.inr rfl)
        · exact hrest e h
    · rw [if_neg hc] at hm
      cases hr : rmdir_mark name rest with
      | none => simp [hr] at hm
      | some t2 =>
        rw [hr] at hm
        have ht : t = d :: t2 := (Option.some.inj hm).symm
        subst ht
        have hs2 : opendir_scan name rest = 0 := by
          by_cases hn : d.name = name
          · have hU : d.type = 'U' := by
              by_contra hne
              exact hc ⟨hn, hne⟩
            simpa [hn, hU] using hs
          · simpa [hn] using hs
        obtain ⟨h1, h2⟩ := ih t2 hrest hs2 hr
        constructor
        · by_cases hD : d.type = 'D'
          · simp only [countD, List.filter_cons, hD, decide_True, if_true,
              List.length_cons] at h1 ⊢
            omega
          · simp only [countD, List.filter_cons, hD, decide_False] at h1 ⊢
            simpa using h1
        · intro e he
          rcases List.mem_cons.mp he with h | h
          · subst h
            exact hd
          · exact h2 e h

/-- The store that `fs_rmdir` leaves on success keeps the root linked. -/
theorem rmdir_parent_linked (env : Env) (objs : Path → Option Obj) (p : Path) (o : Obj)
    (tail : List s3dirent_t) (hg : Linked ⟨objs, []⟩) (hp : p ≠ [])
    (hb : basename p ≠ ".") (hd : (fs_opendir env ⟨objs, []⟩ p).1 = 0)
    (hpo : objs (dirname p) = some o)
    (hm : rmdir_mark (basename p) ((records env o).drop 1) = some tail) :
    Linked ⟨fun x => if x = dirname p
        then some (Obj.table (dropFirst (List.take 1 (records env o) ++ tail)))
        else if x = dirname p then none else if x = p then none else objs x, []⟩ := by
  by_cases hk : dirname p = []
  · have hpo2 := hpo
    rw [hk] at hpo2
    obtain ⟨e, rest, hoo, hn, hty, hl⟩ := linked_root_table objs o hg hpo2
    subst hoo
    obtain ⟨_, po, _, h2, h3⟩ := fs_opendir_ok_zero env objs p hp hd
    have hpp : po = Obj.table (e :: rest) := Option.some.inj (h2.symm.trans hpo)
    subst hpp
    simp only [records_table] at h3 hm
    have hs : opendir_scan (basename p) rest = 0 :=
      opendir_scan_tail _ _ _ (by rw [hn]; exact Ne.symm hb) h3
    obtain ⟨hc, hty2⟩ := rmdir_mark_count _ _ _ hty hs (by simpa using hm)
    refine ⟨rfl, (linkOK_iff _).mpr (Or.inr
      ⟨{ e with hardlinks := (e.hardlinks + 2 ^ 32 - 1) % 2 ^ 32 }, tail, ?_, hn, hty2, ?_⟩)⟩
    · simp [hk, records_table, dropFirst]
    · simp only
      rw [hl, ← hc]
      omega
  · apply linked_of_same_root ⟨objs, []⟩ _ hg rfl
    simp [Ne.symm hk, Ne.symm hp]

theorem fs_mkdir_linked (env : Env) (s : Store) (p : Path) (mode : Nat) (hg : Linked s) :
    Linked (fs_mkdir env s p mode).2 := by
  by_cases hp : p = []
  · subst hp
    have h := fs_mkdir_existing_dir env s [] mode (by simp [fs_opendir])
    exact linked_of_same_root s _ hg (fs_mkdir_faults env s [] mode hg.1) (by rw [h.2])
  · unfold fs_mkdir
    dsimp only
    repeat' split
    all_goals
      try dsimp only
      repeat' first
        | exact hg
        | exact hp
        | apply adddirent_linked
        | apply adddirtoparent_linked
        | apply fs_opendir_linked

theorem fs_mknod_linked (env : Env) (s : Store) (p : Path) (mode : Nat) (hg : Linked s) :
    Linked (fs_mknod env s p mode).2 := by
  by_cases hp : p = []
  · subst hp
    obtain ⟨objs, faults⟩ := s
    have hf : faults = [] := hg.1
    subst hf
    cases ho : objs [] with
    | none =>
      rw [fs_mknod_ok_no_parent env objs [] mode ho (by simpa [dirname] using ho)]
      exact hg
    | some o =>
      rw [fs_mknod_ok_exists env objs [] mode o ho]
      exact hg
  · unfold fs_mknod
    dsimp only
    repeat' split
    all_goals
      try dsimp only
      repeat' first
        | exact hg
        | exact hp
        | apply addfiletoparent_linked
        | apply put_linked
        | apply filexist_linked

theorem fs_rmdir_linked (env : Env) (s : Store) (p : Path) (hg : Linked s)
    (hb : basename p ≠ ".") : Linked (fs_rmdir env s p).2 := by
  obtain ⟨objs, faults⟩ := s
  have hf : faults = [] := hg.1
  subst hf
  by_cases hd : (fs_opendir env ⟨objs, []⟩ p).1 = 0
  · by_cases hp : p = []
    · subst hp
      have hrm : Linked ⟨fun x => if x = [] then none else objs x, []⟩ :=
        linked_of_no_root _ rfl (by simp)
      unfold fs_rmdir
      simp only [fs_opendir_ok_store, get_ok, remove_ok_gen, put_ok]
      repeat' split
      all_goals try dsimp only
      all_goals try exact hg
      all_goals try exact hrm
      all_goals simp_all [dirname]
    · have hne : dirname p ≠ p := dirname_ne_self p hp
      have hrm : Linked ⟨fun x => if x = p then none else objs x, []⟩ :=
        linked_of_same_root ⟨objs, []⟩ _ hg rfl (by simp [Ne.symm hp])
      unfold fs_rmdir
      simp only [fs_opendir_ok_store, get_ok, remove_ok_gen, put_ok, hne, if_false]
      repeat' split
      all_goals try dsimp only
      all_goals try exact hg
      all_goals try exact hrm
      all_goals try
        exact rmdir_parent_linked env objs p _ _ hg hp hb hd (by assumption) (by assumption)
      all_goals simp_all
  · unfold fs_rmdir
    simp only [hd, ne_eq, not_false_eq_true, if_true]
    exact fs_opendir_linked env _ p hg

theorem fs_init_linked (env : Env) (objs0 : Path → Option Obj) :
    Linked (fs_init env ⟨objs0, []⟩) :=
  ⟨(fs_init_root env objs0).2,
    (linkOK_iff _).mpr (Or.inr
      ⟨rootEnt env, [], (fs_init_root env objs0).1, rfl, by simp, by simp [countD, rootEnt]⟩)⟩

theorem applyOp_linked (env : Env) (s : Store) (op : Op) (hg : Linked s)
    (hc : linkCall op = true) : Linked (applyOp env s op) := by
  cases op with
  | mkdir p m => exact fs_mkdir_linked env s p m hg
  | rmdir p => exact fs_rmdir_linked env s p hg (of_decide_eq_true hc)
  | mknod p m => exact fs_mknod_linked env s p m hg
  | unlink p => exact fs_unlink_linked env s p hg
  | write p b n o => simp [linkCall] at hc
  | truncate p n => simp [linkCall] at hc
  | ftruncate p n => simp [linkCall] at hc
  | rename p q => simp [linkCall] at hc

theorem run_linked (s : Store) (calls : List (Env × Op)) (hg : Linked s)
    (hc : ∀ c ∈ calls, linkCall c.2 = true) : Linked (run s calls) := by
  induction calls generalizing s with
  | nil => exact hg
  | cons c rest ih =>
    unfold run
    apply ih
    · exact applyOp_linked c.1 s c.2 hg (hc c (by simp))
    · intro c2 hc2
      exact hc c2 (by simp [hc2])

/-! ## No slot without its object -/

theorem liveCount_nil (n : String) : liveCount n [] = 0 := rfl

theorem liveCount_cons (n : String) (d : s3dirent_t) (t : List s3dirent_t) :
    liveCount n (d :: t) = (if d.name = n ∧ d.type ≠ 'U' then 1 else 0) + liveCount n t := by
  unfold liveCount
  by_cases h : d.name = n ∧ d.type ≠ 'U'
  · simp [List.filter_cons, h]
    omega
  · simp [List.filter_cons, h]

theorem liveCount_append (n : String) (t l : List s3dirent_t) :
    liveCount n (t ++ l) = liveCount n t + liveCount n l := by
  simp [liveCount, List.filter_append]

theorem liveCount_zero_iff (n : String) (t : List s3dirent_t) :
    liveCount n t = 0 ↔ ∀ d ∈ t, d.name = n → d.type = 'U' := by
  simp [liveCount, List.filter_eq_nil_iff]

/-- The loop of `fs_opendir` returns 0, `-ENOTDIR` or `-ENOENT`. -/
theorem opendir_scan_values (n : String) (t : List s3dirent_t) :
    opendir_scan n t = 0 ∨ opendir_scan n t = -ENOTDIR ∨ opendir_scan n t = -ENOENT := by
  induction t with
  | nil => simp [opendir_scan]
  | cons d t ih =>
    unfold opendir_scan
    by_cases hn : d.name = n
    · by_cases hD : d.type = 'D'
      · simp [hn, hD]
      · by_cases hF : d.type = 'F'
        · simp [hn, hD, hF]
        · simpa [hn, hD, hF] using ih
    · simpa [hn] using ih

theorem opendir_scan_cons (n : String) (d : s3dirent_t) (t : List s3dirent_t) :
    opendir_scan n (d :: t) =
      if d.name = n then
        if d.type = 'D' then 0
        else if d.type = 'F' then -ENOTDIR
        else opendir_scan n t
      else opendir_scan n t := by
  rw [opendir_scan]

theorem opendir_scan_append (n : String) (t l : List s3dirent_t) :
    opendir_scan n (t ++ l) =
      if opendir_scan n t = -ENOENT then opendir_scan n l else opendir_scan n t := by
  induction t with
  | nil => simp [opendir_scan]
  | cons d t ih =>
    simp only [List.cons_append, opendir_scan_cons]
    by_cases hn : d.name = n
    · by_cases hD : d.type = 'D'
      · simp [hn, hD, ENOENT]
      · by_cases hF : d.type = 'F'
        · simp [hn, hD, hF, ENOENT, ENOTDIR]
        · simpa [hn, hD, hF] using ih
    · simpa [hn] using ih

theorem liveCount_zero_scan (n : String) (t : List s3dirent_t) (h : liveCount n t = 0) :
    opendir_scan n t = -ENOENT := by
  induction t with
  | nil => simp [opendir_scan]
  | cons d t ih =>
    rw [liveCount_cons] at h
    have h1 : ¬ (d.name = n ∧ d.type ≠ 'U') := by
      intro hc
      simp [hc] at h
    have h2 : liveCount n t = 0 := by omega
    unfold opendir_scan
    by_cases hn : d.name = n
    · have hU : d.type = 'U' := by
        by_contra hc
        exact h1 ⟨hn, hc⟩
      simp [hn, hU, ih h2]
    · simp [hn, ih h2]

theorem scan_enoent_liveCount (n : String) (t : List s3dirent_t)
    (ht : ∀ d ∈ t, d.type = 'D' ∨ d.type = 'F' ∨ d.type = 'U')
    (h : opendir_scan n t = -ENOENT) : liveCount n t = 0 := by
  induction t with
  | nil => rfl
  | cons d t ih =>
    have htd := ht d (List.mem_cons_self _ _)
    have htt : ∀ x ∈ t, x.type = 'D' ∨ x.type = 'F' ∨ x.type = 'U' :=
      fun x hx => ht x (List.mem_cons_of_mem _ hx)
    unfold opendir_scan at h
    rw [liveCount_cons]
    by_cases hn : d.name = n
    · by_cases hD : d.type = 'D'
      · simp [hn, hD, ENOENT] at h
      · by_cases hF : d.type = 'F'
        · simp [hn, hD, hF, ENOENT, ENOTDIR] at h
        · have hU : d.type = 'U' := by
            rcases htd with h1 | h1 | h1
            · exact absurd h1 hD
            · exact absurd h1 hF
            · exact h1
          simp only [hn, hD, hF, if_true, if_false] at h
          simp [hU, ih htt h]
    · simp only [hn, if_false] at h
      simp [hn, ih htt h]

/-- What the second loop of `fs_rmdir` does to the number of records of the
name that are not `'U'`. -/
theorem rmdir_mark_liveCount (n : String) (t t2 : List s3dirent_t)
    (h : rmdir_mark n t = some t2) : liveCount n t2 + 1 = liveCount n t := by
  induction t generalizing t2 with
  | nil => simp [rmdir_mark] at h
  | cons d t ih =>
    unfold rmdir_mark at h
    by_cases hc : d.name = n ∧ d.type ≠ 'U'
    · rw [if_pos hc] at h
      have h := Option.some.inj h
      subst h
      rw [liveCount_cons, liveCount_cons]
      simp [hc]
      omega
    · rw [if_neg hc] at h
      cases hm : rmdir_mark n t with
      | none => simp [hm] at h
      | some t3 =>
        simp only [hm, Option.map_some', Option.some.injEq] at h
        subst h
        rw [liveCount_cons, liveCount_cons]
        have := ih t3 hm
        simp only [hc, if_false]
        omega

theorem rmdir_mark_other (n m : String) (t t2 : List s3dirent_t)
    (h : rmdir_mark n t = some t2) (hm : m ≠ n) :
    opendir_scan m t2 = opendir_scan m t ∧ liveCount m t2 = liveCount m t := by
  induction t generalizing t2 with
  | nil => simp [rmdir_mark] at h
  | cons d t ih =>
    unfold rmdir_mark at h
    by_cases hc : d.name = n ∧ d.type ≠ 'U'
    · rw [if_pos hc] at h
      have h := Option.some.inj h
      subst h
      have hdm : d.name ≠ m := by
        rw [hc.1]
        exact fun e => hm e.symm
      constructor
      · unfold opendir_scan
        simp [hdm]
      · rw [liveCount_cons, liveCount_cons]
        simp [hdm]
    · rw [if_neg hc] at h
      cases hmk : rmdir_mark n t with
      | none => simp [hmk] at h
      | some t3 =>
        simp only [hmk, Option.map_some', Option.some.injEq] at h
        subst h
        obtain ⟨h1, h2⟩ := ih t3 hmk
        constructor
        · unfold opendir_scan
          rw [h1]
        · rw [liveCount_cons, liveCount_cons, h2]

theorem rmdir_mark_mem (n : String) (t t2 : List s3dirent_t)
    (h : rmdir_mark n t = some t2) (d2 : s3dirent_t) (hd : d2 ∈ t2) :
    d2 ∈ t ∨ d2.type = 'U' := by
  induction t generalizing t2 with
  | nil => simp [rmdir_mark] at h
  | cons d t ih =>
    unfold rmdir_mark at h
    by_cases hc : d.name = n ∧ d.type ≠ 'U'
    · rw [if_pos hc] at h
      have h := Option.some.inj h
      subst h
      rcases List.mem_cons.mp hd with h1 | h1
      · right
        rw [h1]
      · left
        exact List.mem_cons_of_mem _ h1
    · rw [if_neg hc] at h
      cases hmk : rmdir_mark n t with
      | none => simp [hmk] at h
      | some t3 =>
        simp only [hmk, Option.map_some', Option.some.injEq] at h
        subst h
        rcases List.mem_cons.mp hd with h1 | h1
        · left
          rw [h1]
          exact List.mem_cons_self _ _
        · rcases ih t3 hmk h1 with h2 | h2
          · left
            exact List.mem_cons_of_mem _ h2
          · right
            exact h2

theorem file_scan_mem (n : String) (t : List s3dirent_t) (d : s3dirent_t)
    (h : file_scan n t = some d) : d ∈ t ∧ d.name = n ∧ d.type = 'F' := by
  induction t with
  | nil => simp [file_scan] at h
  | cons x t ih =>
    unfold file_scan at h
    by_cases hc : x.name = n ∧ x.type = 'F'
    · rw [if_pos hc] at h
      have h := Option.some.inj h
      subst h
      exact ⟨List.mem_cons_self _ _, hc.1, hc.2⟩
    · rw [if_neg hc] at h
      obtain ⟨h1, h2, h3⟩ := ih h
      exact ⟨List.mem_cons_of_mem _ h1, h2, h3⟩

/-- Where the loop of `fs_open` ends on a record of type `'D'`, the loop of
`fs_opendir` returns 0. -/
theorem open_scan_dir (n : String) (t : List s3dirent_t)
    (h : open_scan n t = some (-ENOENT)) : opendir_scan n t = 0 := by
  induction t with
  | nil => simp [open_scan] at h
  | cons d t ih =>
    unfold open_scan at h
    unfold opendir_scan
    by_cases hn : d.name = n
    · by_cases hD : d.type = 'D'
      · simp [hn, hD]
      · by_cases hF : d.type = 'F'
        · simp [hn, hD, hF, ENOENT] at h
        · simp only [hn, hD, hF, if_true, if_false] at h ⊢
          exact ih h
    · simp only [hn, if_false] at h ⊢
      exact ih h

theorem open_scan_values (n : String) (t : List s3dirent_t) :
    open_scan n t = some 0 ∨ open_scan n t = some (-ENOENT) ∨ open_scan n t = none := by
  induction t with
  | nil => simp [open_scan]
  | cons d t ih =>
    unfold open_scan
    by_cases hn : d.name = n
    · by_cases hD : d.type = 'D'
      · simp [hn, hD]
      · by_cases hF : d.type = 'F'
        · simp [hn, hD, hF]
        · simpa [hn, hD, hF] using ih
    · simpa [hn] using ih

theorem liveCount_two (n : String) (t : List s3dirent_t) (d1 d2 : s3dirent_t)
    (h1 : d1 ∈ t) (h2 : d2 ∈ t) (hne : d1 ≠ d2)
    (hl1 : d1.name = n ∧ d1.type ≠ 'U') (hl2 : d2.name = n ∧ d2.type ≠ 'U') :
    2 ≤ liveCount n t := by
  induction t with
  | nil => simp at h1
  | cons x t ih =>
    rw [liveCount_cons]
    rcases List.mem_cons.mp h1 with e1 | m1
    · rcases List.mem_cons.mp h2 with e2 | m2
      · exact absurd (e1.trans e2.symm) hne
      · subst e1
        have : liveCount n t ≠ 0 := by
          intro hz
          exact hl2.2 ((liveCount_zero_iff n t).mp hz d2 m2 hl2.1)
        simp only [hl1, ne_eq, not_false_eq_true, and_self, if_true]
        omega
    · rcases List.mem_cons.mp h2 with e2 | m2
      · subst e2
        have : liveCount n t ≠ 0 := by
          intro hz
          exact hl1.2 ((liveCount_zero_iff n t).mp hz d1 m1 hl1.1)
        simp only [hl2, ne_eq, not_false_eq_true, and_self, if_true]
        omega
      · have := ih m1 m2
        omega

theorem dirname_append_basename (p : Path) (hp : p ≠ []) :
    dirname p ++ [basename p] = p := by
  unfold dirname basename
  cases h : p.getLast? with
  | none => exact absurd (List.getLast?_eq_none_iff.mp h) hp
  | some a => exact List.dropLast_append_getLast? a h

theorem dirname_concat (K : Path) (x : String) : dirname (K ++ [x]) = K := by
  simp [dirname]

theorem basename_concat (K : Path) (x : String) : basename (K ++ [x]) = x := by
  simp [basename]

theorem concat_ne_self (K : Path) (x : String) : K ++ [x] ≠ K := by
  intro h
  have := congrArg List.length h
  simp at this

theorem concat_ne_nil (K : Path) (x : String) : K ++ [x] ≠ [] := by
  simp

theorem basename_mem (p : Path) (hp : p ≠ []) : basename p ∈ p := by
  have h := dirname_append_basename p hp
  have hm : basename p ∈ dirname p ++ [basename p] := by simp
  rwa [h] at hm

theorem dirname_mem (p : Path) (x : String) (h : x ∈ dirname p) : x ∈ p :=
  List.mem_of_mem_dropLast h

/-- With every store call succeeding, `fs_mknod` leaves the store as it is, or
stores the empty object and the parent's table with one record appended. -/
theorem fs_mknod_nil (env : Env) (objs : Path → Option Obj) (p : Path) (mode : Nat) :
    (fs_mknod env ⟨objs, []⟩ p mode).2 = ⟨objs, []⟩ ∨
    (objs p = none ∧ ∃ po, objs (dirname p) = some po ∧
      (fs_mknod env ⟨objs, []⟩ p mode).2 =
        ⟨fun x => if x = dirname p
            then some (Obj.table (records env po ++ [fileEnt env (basename p) mode 0]))
            else if x = p then some (Obj.bytes []) else objs x, []⟩) := by
  cases h1 : objs p with
  | some o =>
    left
    rw [fs_mknod_ok_exists env objs p mode o h1]
  | none =>
    cases h2 : objs (dirname p) with
    | none =>
      left
      rw [fs_mknod_ok_no_parent env objs p mode h1 h2]
    | some po =>
      right
      exact ⟨rfl, po, rfl, by rw [fs_mknod_ok_new env objs p mode po h1 h2]⟩

/-- With every store call succeeding, `fs_mkdir` leaves the store as it is, or
stores the parent's table with one record appended and the new table. -/
theorem fs_mkdir_nil (env : Env) (objs : Path → Option Obj) (p : Path) (mode : Nat) :
    (fs_mkdir env ⟨objs, []⟩ p mode).2 = ⟨objs, []⟩ ∨
    (p ≠ [] ∧ (fs_opendir env ⟨objs, []⟩ p).1 ≠ 0 ∧
      (fs_opendir env ⟨objs, []⟩ (dirname p)).1 = 0 ∧
      ∃ po, objs (dirname p) = some po ∧
        (fs_mkdir env ⟨objs, []⟩ p mode).2 =
          ⟨fun x => if x = p then some (Obj.table [dirEnt env (mode ||| S_IFDIR)])
            else if x = dirname p
            then some (Obj.table (bumpFirst (records env po) ++ [addingEnt env (basename p)]))
            else objs x, []⟩) := by
  unfold fs_mkdir
  simp only [fs_opendir_ok_store]
  by_cases c1 : (fs_opendir env ⟨objs, []⟩ p).1 = 0
  · left
    simp [c1]
  · by_cases c2 : (fs_opendir env ⟨objs, []⟩ (dirname p)).1 = 0
    · cases hpo : objs (dirname p) with
      | none =>
        left
        simp [c1, c2, adddirtoparent_none env objs p hpo, EIO]
      | some po =>
        right
        have hp : p ≠ [] := by
          intro h
          subst h
          simp [fs_opendir] at c1
        refine ⟨hp, c1, c2, po, rfl, ?_⟩
        have hnn : ¬ ((env.recsize * ((records env po).length + 1) : Nat) : Int) < 0 := by
          omega
        have hge : ¬ ((env.recsize * ((records env po).length + 1) : Nat) : Int) < env.recsize := by
          have : env.recsize ≤ env.recsize * ((records env po).length + 1) :=
            Nat.le_mul_of_pos_right _ (Nat.succ_pos _)
          omega
        simp only [c1, c2, if_false, ne_eq, not_true_eq_false, adddirtoparent_ok env objs p po hpo,
          hnn, hge, adddirent_ok]
    · left
      simp [c1, c2]

/-- With every store call succeeding, `fs_rmdir` leaves the store as it is, or
removes the object at the path only (the root, or a path whose name the second
loop does not find), or removes it and stores the parent's table with one slot
set to `'U'`. -/
theorem fs_rmdir_nil (env : Env) (objs : Path → Option Obj) (p : Path) :
    (fs_rmdir env ⟨objs, []⟩ p).2 = ⟨objs, []⟩ ∨
    (p = [] ∧
      (fs_rmdir env ⟨objs, []⟩ p).2 = ⟨fun x => if x = [] then none else objs x, []⟩) ∨
    (p ≠ [] ∧ (fs_opendir env ⟨objs, []⟩ p).1 = 0 ∧ ∃ po, objs (dirname p) = some po ∧
      rmdir_mark (basename p) ((records env po).drop 1) = none ∧
      (fs_rmdir env ⟨objs, []⟩ p).2 = ⟨fun x => if x = p then none else objs x, []⟩) ∨
    (p ≠ [] ∧ (fs_opendir env ⟨objs, []⟩ p).1 = 0 ∧ ∃ po tail, objs (dirname p) = some po ∧
      rmdir_mark (basename p) ((records env po).drop 1) = some tail ∧
      (fs_rmdir env ⟨objs, []⟩ p).2 =
        ⟨fun x => if x = dirname p
            then some (Obj.table (dropFirst ((records env po).take 1 ++ tail)))
            else if x = p then none else objs x, []⟩) := by
  by_cases c1 : (fs_opendir env ⟨objs, []⟩ p).1 = 0
  · cases ho : objs p with
    | none =>
      left
      unfold fs_rmdir
      simp [c1, fs_opendir_ok_store, get_ok, ho]
    | some o =>
      by_cases hl : rmdir_live (records env o) = true
      · left
        rw [fs_rmdir_ok_live env objs p o c1 ho hl]
      · have hl2 : rmdir_live (records env o) = false := by simpa using hl
        by_cases hp : p = []
        · right
          left
          subst hp
          refine ⟨rfl, ?_⟩
          unfold fs_rmdir
          simp [c1, fs_opendir_ok_store, get_ok, ho, hl2, remove_ok objs [] o ho, dirname]
        · obtain ⟨o2, po, h1, h2, _⟩ := fs_opendir_ok_zero env objs p hp c1
          have hne : dirname p ≠ p := dirname_ne_self p hp
          cases hm : rmdir_mark (basename p) ((records env po).drop 1) with
          | none =>
            right
            right
            left
            refine ⟨hp, c1, po, h2, hm, ?_⟩
            unfold fs_rmdir
            simp only [c1, fs_opendir_ok_store, get_ok, ho, hl2, remove_ok objs p o ho]
            simp only [ne_eq, not_true_eq_false, if_false, Bool.false_eq_true, Bool.not_true, hne,
              h2, hm]
          | some tail =>
            right
            right
            right
            refine ⟨hp, c1, po, tail, h2, hm, ?_⟩
            unfold fs_rmdir
            simp only [c1, fs_opendir_ok_store, get_ok, ho, hl2, remove_ok objs p o ho]
            simp only [ne_eq, not_true_eq_false, if_false, Bool.false_eq_true, Bool.not_true, hne,
              h2, hm]
            rw [remove_ok _ (dirname p) po (by simp [hne, h2])]
            simp only [Bool.not_true, Bool.false_eq_true, if_false, put_ok]
            have hS : (fun x => if x = dirname p
                  then some (Obj.table (dropFirst ((records env po).take 1 ++ tail)))
                  else if x = dirname p then none else if x = p then none else objs x) =
                (fun x => if x = dirname p
                  then some (Obj.table (dropFirst ((records env po).take 1 ++ tail)))
                  else if x = p then none else objs x) := by
              funext x
              by_cases hx : x = dirname p <;> simp [hx]
            rw [hS]
            split <;> rfl
  · left
    unfold fs_rmdir
    simp [c1, fs_opendir_ok_store]

theorem basename_ne_dot (p : Path) (hdot : "." ∉ p) : basename p ≠ "." := by
  by_cases hp : p = []
  · subst hp
    simp [basename]
  · intro h
    exact hdot (h ▸ basename_mem p hp)

theorem dirname_no_dot (p : Path) (hdot : "." ∉ p) : "." ∉ dirname p :=
  fun h => hdot (dirname_mem p _ h)

/-- The records of the parent of a path, in a sound bucket: none when the
parent is a content object, the table otherwise. -/
theorem sound_records (env : Env) (objs : Path → Option Obj) (hs : Sound objs) (K : Path)
    (po : Obj) (h : objs K = some po) :
    (po = Obj.bytes [] ∧ records env po = []) ∨
    ∃ e t, po = Obj.table (e :: t) ∧ records env po = e :: t := by
  cases po with
  | bytes data =>
    left
    have := hs.bytes_nil K data h
    subst this
    exact ⟨rfl, records_bytes_nil env⟩
  | table T =>
    right
    cases T with
    | nil => exact absurd h (hs.nonempty K)
    | cons e t => exact ⟨e, t, rfl, records_table env _⟩

/-- In a sound bucket, a path without a component `"."` that opens as a
directory holds a table whose slot 0 is the self-descriptor, and its name is
found as a directory among the later slots of its parent's table. -/
theorem sound_opendir (env : Env) (objs : Path → Option Obj) (hs : Sound objs) (q : Path)
    (hq : q ≠ []) (hdot : "." ∉ q) (h : (fs_opendir env ⟨objs, []⟩ q).1 = 0) :
    ∃ pe pt e t, objs (dirname q) = some (Obj.table (pe :: pt)) ∧ pe.name ≠ basename q ∧
      opendir_scan (basename q) pt = 0 ∧
      objs q = some (Obj.table (e :: t)) ∧ e.type = 'D' ∧ e.name = "." := by
  obtain ⟨o, po, _, h2, h3⟩ := fs_opendir_ok_zero env objs q hq h
  have hn : basename q ≠ "." := basename_ne_dot q hdot
  rcases sound_records env objs hs _ po h2 with ⟨_, hr⟩ | ⟨pe, pt, hpo, hr⟩
  · rw [hr] at h3
    simp [opendir_scan, ENOENT] at h3
  · subst hpo
    rw [hr] at h3
    have hpe : pe.name ≠ basename q := by
      rcases hs.head _ pe pt h2 with ⟨_, hname⟩ | hF
      · rw [hname]
        exact fun e => hn e.symm
      · intro hname
        rw [opendir_scan_cons] at h3
        simp [hname, hF, ENOTDIR] at h3
    have h4 := opendir_scan_tail _ _ _ hpe h3
    obtain ⟨d, hd, hdn, hdt⟩ := opendir_scan_mem _ _ h4
    obtain ⟨e2, t2, he2, hty⟩ := hs.dir _ pe pt d h2 hd hdt
    rw [hdn, dirname_append_basename q hq] at he2
    refine ⟨pe, pt, e2, t2, h2, hpe, h4, he2, hty, ?_⟩
    rcases hs.head _ e2 t2 he2 with ⟨_, hname⟩ | hF
    · exact hname
    · rw [hty] at hF
      exact absurd hF (by decide)

theorem sound_remove_root (objs : Path → Option Obj) (hs : Sound objs) :
    Sound (fun x => if x = [] then none else objs x) := by
  refine ⟨?_, ?_, ?_, ?_, ?_, ?_, ?_, ?_⟩
  · intro o h
    simp at h
  · intro K data h
    by_cases hK : K = []
    · simp [hK] at h
    · simp only [hK, if_false] at h
      exact hs.bytes_nil K data h
  · intro K h
    by_cases hK : K = []
    · simp [hK] at h
    · simp only [hK, if_false] at h
      exact hs.nonempty K h
  · intro K e t h
    by_cases hK : K = []
    · simp [hK] at h
    · simp only [hK, if_false] at h
      exact hs.head K e t h
  · intro K e t h
    by_cases hK : K = []
    · simp [hK] at h
    · simp only [hK, if_false] at h
      exact hs.types K e t h
  · intro K e t d h hd hF
    by_cases hK : K = []
    · simp [hK] at h
    · simp only [hK, if_false] at h
      simp only [concat_ne_nil, if_false]
      exact hs.file K e t d h hd hF
  · intro K e t d h hd hD
    by_cases hK : K = []
    · simp [hK] at h
    · simp only [hK, if_false] at h
      simp only [concat_ne_nil, if_false]
      exact hs.dir K e t d h hd hD
  · intro K e t n h hn hsc
    by_cases hK : K = []
    · simp [hK] at h
    · simp only [hK, if_false] at h
      exact hs.uniq K e t n h hn hsc

theorem opendir_scan_single_file (m : String) (d : s3dirent_t)
    (hF : d.type = 'F') : opendir_scan m [d] ≠ 0 := by
  rw [opendir_scan_cons]
  by_cases hm : d.name = m
  · simp [hm, hF, ENOTDIR]
  · simp [hm, opendir_scan, ENOENT]

/-- A sound bucket stays sound when `fs_mknod` stores a new file. -/
theorem sound_mknod (env : Env) (objs objs2 : Path → Option Obj) (hs : Sound objs)
    (p : Path) (mode : Nat) (po : Obj)
    (h1 : objs p = none) (h2 : objs (dirname p) = some po)
    (hA : objs2 (dirname p) =
      some (Obj.table (records env po ++ [fileEnt env (basename p) mode 0])))
    (hB : objs2 p = some (Obj.bytes []))
    (hC : ∀ x, x ≠ dirname p → x ≠ p → objs2 x = objs x) : Sound objs2 := by
  have hne : dirname p ≠ p := by
    intro e
    rw [e, h1] at h2
    exact Option.noConfusion h2
  have hp : p ≠ [] := by
    intro e
    subst e
    exact hne rfl
  have hcat := dirname_append_basename p hp
  have hsome : ∀ c, (objs c).isSome = true → (objs2 c).isSome = true := by
    intro c hc
    by_cases hc0 : c = dirname p
    · rw [hc0, hA]
      rfl
    · by_cases hcp : c = p
      · rw [hcp, hB]
        rfl
      · rw [hC c hc0 hcp]
        exact hc
  have hdir : ∀ c, (∃ e2 t2, objs c = some (Obj.table (e2 :: t2)) ∧ e2.type = 'D') →
      ∃ e2 t2, objs2 c = some (Obj.table (e2 :: t2)) ∧ e2.type = 'D' := by
    intro c ⟨e2, t2, hc, hty⟩
    by_cases hc0 : c = dirname p
    · subst hc0
      rw [h2] at hc
      have hpo := Option.some.inj hc
      subst hpo
      rw [hA, records_table]
      exact ⟨e2, t2 ++ [fileEnt env (basename p) mode 0], rfl, hty⟩
    · by_cases hcp : c = p
      · rw [hcp, h1] at hc
        exact Option.noConfusion hc
      · rw [hC c hc0 hcp]
        exact ⟨e2, t2, hc, hty⟩
  -- the table stored at the parent's key
  have hnew : ∀ e2 t2, objs2 (dirname p) = some (Obj.table (e2 :: t2)) →
      (po = Obj.bytes [] ∧ e2 = fileEnt env (basename p) mode 0 ∧ t2 = []) ∨
      ∃ t, po = Obj.table (e2 :: t) ∧ t2 = t ++ [fileEnt env (basename p) mode 0] := by
    intro e2 t2 h
    rw [hA] at h
    have hT := Obj.table.inj (Option.some.inj h)
    rcases sound_records env objs hs _ po h2 with ⟨hpo, hr⟩ | ⟨e, t, hpo, hr⟩
    · left
      rw [hr] at hT
      simp only [List.nil_append, List.cons.injEq] at hT
      exact ⟨hpo, hT.1.symm, hT.2.symm⟩
    · right
      rw [hr] at hT
      simp only [List.cons_append, List.cons.injEq] at hT
      refine ⟨t, ?_, hT.2.symm⟩
      rw [hpo, hT.1]
  refine ⟨?_, ?_, ?_, ?_, ?_, ?_, ?_, ?_⟩
  · -- root
    intro o h
    by_cases h0 : ([] : Path) = dirname p
    · have hro := hs.root po (by rw [h0]; exact h2)
      obtain ⟨e, t, hpo, hty⟩ := hro
      subst hpo
      rw [h0, hA, records_table] at h
      exact ⟨e, t ++ [fileEnt env (basename p) mode 0], (Option.some.inj h).symm, hty⟩
    · rw [hC [] h0 (fun e => hp e.symm)] at h
      exact hs.root o h
  · -- bytes_nil
    intro K data h
    by_cases hK0 : K = dirname p
    · rw [hK0, hA] at h
      exact Obj.noConfusion (Option.some.inj h)
    · by_cases hKp : K = p
      · rw [hKp, hB] at h
        exact (Obj.bytes.inj (Option.some.inj h)).symm
      · rw [hC K hK0 hKp] at h
        exact hs.bytes_nil K data h
  · -- nonempty
    intro K h
    by_cases hK0 : K = dirname p
    · rw [hK0, hA] at h
      have := Obj.table.inj (Option.some.inj h)
      simp at this
    · by_cases hKp : K = p
      · rw [hKp, hB] at h
        exact Obj.noConfusion (Option.some.inj h)
      · rw [hC K hK0 hKp] at h
        exact hs.nonempty K h
  · -- head
    intro K e t h
    by_cases hK0 : K = dirname p
    · subst hK0
      rcases hnew e t h with ⟨_, he, _⟩ | ⟨t0, hpo, _⟩
      · right
        rw [he]
        rfl
      · subst hpo
        exact hs.head _ e t0 h2
    · by_cases hKp : K = p
      · rw [hKp, hB] at h
        exact Obj.noConfusion (Option.some.inj h)
      · rw [hC K hK0 hKp] at h
        exact hs.head K e t h
  · -- types
    intro K e t h d hd
    by_cases hK0 : K = dirname p
    · subst hK0
      rcases hnew e t h with ⟨_, _, ht⟩ | ⟨t0, hpo, ht⟩
      · rw [ht] at hd
        simp at hd
      · subst hpo
        rw [ht] at hd
        rcases List.mem_append.mp hd with hd1 | hd1
        · exact hs.types _ e t0 h2 d hd1
        · right
          left
          rw [List.mem_singleton.mp hd1]
          rfl
    · by_cases hKp : K = p
      · rw [hKp, hB] at h
        exact Obj.noConfusion (Option.some.inj h)
      · rw [hC K hK0 hKp] at h
        exact hs.types K e t h d hd
  · -- file
    intro K e t d h hd hF
    by_cases hK0 : K = dirname p
    · subst hK0
      rcases hnew e t h with ⟨_, _, ht⟩ | ⟨t0, hpo, ht⟩
      · rw [ht] at hd
        simp at hd
      · subst hpo
        rw [ht] at hd
        rcases List.mem_append.mp hd with hd1 | hd1
        · exact hsome _ (hs.file _ e t0 d h2 hd1 hF)
        · rw [List.mem_singleton.mp hd1]
          have : dirname p ++ [(fileEnt env (basename p) mode 0).name] = p := hcat
          rw [this, hB]
          rfl
    · by_cases hKp : K = p
      · rw [hKp, hB] at h
        exact Obj.noConfusion (Option.some.inj h)
      · rw [hC K hK0 hKp] at h
        exact hsome _ (hs.file K e t d h hd hF)
  · -- dir
    intro K e t d h hd hD
    by_cases hK0 : K = dirname p
    · subst hK0
      rcases hnew e t h with ⟨_, _, ht⟩ | ⟨t0, hpo, ht⟩
      · rw [ht] at hd
        simp at hd
      · subst hpo
        rw [ht] at hd
        rcases List.mem_append.mp hd with hd1 | hd1
        · exact hdir _ (hs.dir _ e t0 d h2 hd1 hD)
        · rw [List.mem_singleton.mp hd1] at hD
          have hF : (fileEnt env (basename p) mode 0).type = 'F' := rfl
          rw [hF] at hD
          exact absurd hD (by decide)
    · by_cases hKp : K = p
      · rw [hKp, hB] at h
        exact Obj.noConfusion (Option.some.inj h)
      · rw [hC K hK0 hKp] at h
        exact hdir _ (hs.dir K e t d h hd hD)
  · -- uniq
    intro K e t m h hm hsc
    by_cases hK0 : K = dirname p
    · subst hK0
      rcases hnew e t h with ⟨_, _, ht⟩ | ⟨t0, hpo, ht⟩
      · rw [ht] at hsc
        simp [opendir_scan, ENOENT] at hsc
      · subst hpo
        rw [ht] at hsc ⊢
        rw [opendir_scan_append] at hsc
        have hsc0 : opendir_scan m t0 = 0 := by
          by_cases hE : opendir_scan m t0 = -ENOENT
          · rw [if_pos hE] at hsc
            exact absurd hsc (opendir_scan_single_file m _ rfl)
          · rw [if_neg hE] at hsc
            exact hsc
        have hmn : basename p ≠ m := by
          intro e1
          subst e1
          obtain ⟨d, hd, hdn, hdt⟩ := opendir_scan_mem _ _ hsc0
          obtain ⟨e2, t2, he2, _⟩ := hs.dir _ e t0 d h2 hd hdt
          rw [hdn, hcat, h1] at he2
          exact Option.noConfusion he2
        rw [liveCount_append, hs.uniq _ e t0 m h2 hm hsc0, liveCount_cons, liveCount_nil]
        have : (fileEnt env (basename p) mode 0).name = basename p := rfl
        simp [this, hmn]
    · by_cases hKp : K = p
      · rw [hKp, hB] at h
        exact Obj.noConfusion (Option.some.inj h)
      · rw [hC K hK0 hKp] at h
        exact hs.uniq K e t m h hm hsc

theorem opendir_scan_single_name (m : String) (d : s3dirent_t)
    (h : opendir_scan m [d] = 0) : d.name = m := by
  by_contra hm
  rw [opendir_scan_cons] at h
  simp [hm, opendir_scan, ENOENT] at h

/-- A sound bucket stays sound when `fs_mkdir` stores a new directory. -/
theorem sound_mkdir (env : Env) (objs objs2 : Path → Option Obj) (hs : Sound objs)
    (p : Path) (mode : Nat) (po : Obj) (hdot : "." ∉ p) (hp : p ≠ [])
    (c1 : (fs_opendir env ⟨objs, []⟩ p).1 ≠ 0)
    (c2 : (fs_opendir env ⟨objs, []⟩ (dirname p)).1 = 0)
    (h2 : objs (dirname p) = some po)
    (hA : objs2 p = some (Obj.table [dirEnt env (mode ||| S_IFDIR)]))
    (hB : objs2 (dirname p) =
      some (Obj.table (bumpFirst (records env po) ++ [addingEnt env (basename p)])))
    (hC : ∀ x, x ≠ p → x ≠ dirname p → objs2 x = objs x) : Sound objs2 := by
  have hne : dirname p ≠ p := dirname_ne_self p hp
  have hn : basename p ≠ "." := basename_ne_dot p hdot
  have hcat := dirname_append_basename p hp
  -- the parent holds a table whose slot 0 is the self-descriptor
  have hpar : ∃ e t, po = Obj.table (e :: t) ∧ e.type = 'D' ∧ e.name = "." := by
    by_cases hK : dirname p = []
    · rw [hK] at h2
      obtain ⟨e, t, hpo, hty⟩ := hs.root po h2
      subst hpo
      rcases hs.head _ e t h2 with ⟨_, hname⟩ | hF
      · exact ⟨e, t, rfl, hty, hname⟩
      · rw [hty] at hF
        exact absurd hF (by decide)
    · obtain ⟨_, _, e, t, _, _, _, he, hty, hname⟩ :=
        sound_opendir env objs hs (dirname p) hK (dirname_no_dot p hdot) c2
      rw [h2] at he
      exact ⟨e, t, Option.some.inj he, hty, hname⟩
  obtain ⟨e, t, hpo, hty, hname⟩ := hpar
  subst hpo
  rw [records_table] at hB
  have hB2 : objs2 (dirname p) = some (Obj.table
      ({ e with hardlinks := (e.hardlinks + 1) % 2 ^ 32 } :: (t ++ [addingEnt env (basename p)]))) := by
    rw [hB]
    rfl
  have hscan : objs p ≠ none → opendir_scan (basename p) t ≠ 0 := by
    intro hex
    obtain ⟨o, ho⟩ := Option.ne_none_iff_exists'.mp hex
    have h3 := fs_opendir_ok_of env objs p o _ hp ho h2
    rw [records_table, opendir_scan_cons] at h3
    have hen : e.name ≠ basename p := by
      rw [hname]
      exact fun e1 => hn e1.symm
    simp only [hen, if_false] at h3
    rw [← h3]
    exact c1
  have hsome : ∀ c, (objs c).isSome = true → (objs2 c).isSome = true := by
    intro c hc
    by_cases hcp : c = p
    · rw [hcp, hA]
      rfl
    · by_cases hc0 : c = dirname p
      · rw [hc0, hB2]
        rfl
      · rw [hC c hcp hc0]
        exact hc
  have hdir : ∀ c, (∃ e2 t2, objs c = some (Obj.table (e2 :: t2)) ∧ e2.type = 'D') →
      ∃ e2 t2, objs2 c = some (Obj.table (e2 :: t2)) ∧ e2.type = 'D' := by
    intro c ⟨e2, t2, hc, hty2⟩
    by_cases hcp : c = p
    · rw [hcp, hA]
      exact ⟨_, _, rfl, rfl⟩
    · by_cases hc0 : c = dirname p
      · rw [hc0, hB2]
        exact ⟨_, _, rfl, hty⟩
      · rw [hC c hcp hc0]
        exact ⟨e2, t2, hc, hty2⟩
  have hnew : ∀ e2 t2, objs2 (dirname p) = some (Obj.table (e2 :: t2)) →
      e2 = { e with hardlinks := (e.hardlinks + 1) % 2 ^ 32 } ∧
      t2 = t ++ [addingEnt env (basename p)] := by
    intro e2 t2 h
    rw [hB2] at h
    have hT := Obj.table.inj (Option.some.inj h)
    simp only [List.cons.injEq] at hT
    exact ⟨hT.1.symm, hT.2.symm⟩
  have hself : ∀ e2 t2, objs2 p = some (Obj.table (e2 :: t2)) →
      e2 = dirEnt env (mode ||| S_IFDIR) ∧ t2 = [] := by
    intro e2 t2 h
    rw [hA] at h
    have hT := Obj.table.inj (Option.some.inj h)
    simp only [List.cons.injEq] at hT
    exact ⟨hT.1.symm, hT.2.symm⟩
  have haT : (addingEnt env (basename p)).type = 'D' := rfl
  have haN : (addingEnt env (basename p)).name = basename p := rfl
  refine ⟨?_, ?_, ?_, ?_, ?_, ?_, ?_, ?_⟩
  · -- root
    intro o h
    by_cases h0 : ([] : Path) = dirname p
    · rw [h0, hB2] at h
      exact ⟨_, _, (Option.some.inj h).symm, hty⟩
    · rw [hC [] (fun e1 => hp e1.symm) h0] at h
      exact hs.root o h
  · -- bytes_nil
    intro K data h
    by_cases hKp : K = p
    · rw [hKp, hA] at h
      exact Obj.noConfusion (Option.some.inj h)
    · by_cases hK0 : K = dirname p
      · rw [hK0, hB2] at h
        exact Obj.noConfusion (Option.some.inj h)
      · rw [hC K hKp hK0] at h
        exact hs.bytes_nil K data h
  · -- nonempty
    intro K h
    by_cases hKp : K = p
    · rw [hKp, hA] at h
      have := Obj.table.inj (Option.some.inj h)
      simp at this
    · by_cases hK0 : K = dirname p
      · rw [hK0, hB2] at h
        have := Obj.table.inj (Option.some.inj h)
        simp at this
      · rw [hC K hKp hK0] at h
        exact hs.nonempty K h
  · -- head
    intro K e2 t2 h
    by_cases hKp : K = p
    · subst hKp
      obtain ⟨he, _⟩ := hself e2 t2 h
      left
      rw [he]
      exact ⟨rfl, rfl⟩
    · by_cases hK0 : K = dirname p
      · subst hK0
        obtain ⟨he, _⟩ := hnew e2 t2 h
        left
        rw [he]
        exact ⟨hty, hname⟩
      · rw [hC K hKp hK0] at h
        exact hs.head K e2 t2 h
  · -- types
    intro K e2 t2 h d hd
    by_cases hKp : K = p
    · subst hKp
      obtain ⟨_, ht⟩ := hself e2 t2 h
      rw [ht] at hd
      simp at hd
    · by_cases hK0 : K = dirname p
      · subst hK0
        obtain ⟨_, ht⟩ := hnew e2 t2 h
        rw [ht] at hd
        rcases List.mem_append.mp hd with hd1 | hd1
        · exact hs.types _ e t h2 d hd1
        · left
          rw [List.mem_singleton.mp hd1]
          exact haT
      · rw [hC K hKp hK0] at h
        exact hs.types K e2 t2 h d hd
  · -- file
    intro K e2 t2 d h hd hF
    by_cases hKp : K = p
    · subst hKp
      obtain ⟨_, ht⟩ := hself e2 t2 h
      rw [ht] at hd
      simp at hd
    · by_cases hK0 : K = dirname p
      · subst hK0
        obtain ⟨_, ht⟩ := hnew e2 t2 h
        rw [ht] at hd
        rcases List.mem_append.mp hd with hd1 | hd1
        · exact hsome _ (hs.file _ e t d h2 hd1 hF)
        · rw [List.mem_singleton.mp hd1, haT] at hF
          exact absurd hF (by decide)
      · rw [hC K hKp hK0] at h
        exact hsome _ (hs.file K e2 t2 d h hd hF)
  · -- dir
    intro K e2 t2 d h hd hD
    by_cases hKp : K = p
    · subst hKp
      obtain ⟨_, ht⟩ := hself e2 t2 h
      rw [ht] at hd
      simp at hd
    · by_cases hK0 : K = dirname p
      · subst hK0
        obtain ⟨_, ht⟩ := hnew e2 t2 h
        rw [ht] at hd
        rcases List.mem_append.mp hd with hd1 | hd1
        · exact hdir _ (hs.dir _ e t d h2 hd1 hD)
        · rw [List.mem_singleton.mp hd1, haN, hcat, hA]
          exact ⟨_, _, rfl, rfl⟩
      · rw [hC K hKp hK0] at h
        exact hdir _ (hs.dir K e2 t2 d h hd hD)
  · -- uniq
    intro K e2 t2 m h hm hsc
    by_cases hKp : K = p
    · subst hKp
      obtain ⟨_, ht⟩ := hself e2 t2 h
      rw [ht] at hsc
      simp [opendir_scan, ENOENT] at hsc
    · by_cases hK0 : K = dirname p
      · subst hK0
        obtain ⟨_, ht⟩ := hnew e2 t2 h
        rw [ht] at hsc ⊢
        rw [opendir_scan_append] at hsc
        rw [liveCount_append, liveCount_cons, liveCount_nil]
        by_cases hE : opendir_scan m t = -ENOENT
        · rw [if_pos hE] at hsc
          have hmn := opendir_scan_single_name m _ hsc
          rw [haN] at hmn
          subst hmn
          rw [scan_enoent_liveCount _ t (hs.types _ e t h2) hE]
          simp [haN, haT]
        · rw [if_neg hE] at hsc
          have hmn : basename p ≠ m := by
            intro e1
            subst e1
            obtain ⟨d, hd, hdn, hdt⟩ := opendir_scan_mem _ _ hsc
            obtain ⟨e3, t3, he3, _⟩ := hs.dir _ e t d h2 hd hdt
            rw [hdn, hcat] at he3
            exact hscan (by rw [he3]; exact Option.noConfusion) hsc
          rw [hs.uniq _ e t m h2 hm hsc]
          simp [haN, hmn]
      · rw [hC K hKp hK0] at h
        exact hs.uniq K e2 t2 m h hm hsc

/-- A sound bucket stays sound when `fs_rmdir` removes a directory and sets its
slot in the parent's table to `'U'`. -/
theorem sound_rmdir (env : Env) (objs objs2 : Path → Option Obj) (hs : Sound objs)
    (p : Path) (po : Obj) (tail : List s3dirent_t) (hdot : "." ∉ p) (hp : p ≠ [])
    (c1 : (fs_opendir env ⟨objs, []⟩ p).1 = 0)
    (h2 : objs (dirname p) = some po)
    (hm : rmdir_mark (basename p) ((records env po).drop 1) = some tail)
    (hA : objs2 (dirname p) =
      some (Obj.table (dropFirst ((records env po).take 1 ++ tail))))
    (hB : objs2 p = none)
    (hC : ∀ x, x ≠ dirname p → x ≠ p → objs2 x = objs x) : Sound objs2 := by
  have hn : basename p ≠ "." := basename_ne_dot p hdot
  obtain ⟨pe, pt, _, _, hpar, _, hsc, _, _, _⟩ := sound_opendir env objs hs p hp hdot c1
  rw [h2] at hpar
  have hpo := Option.some.inj hpar
  subst hpo
  rw [records_table] at hm hA
  simp only [List.drop_succ_cons, List.drop_zero] at hm
  have hA2 : objs2 (dirname p) = some (Obj.table
      ({ pe with hardlinks := (pe.hardlinks + 2 ^ 32 - 1) % 2 ^ 32 } :: tail)) := by
    rw [hA]
    rfl
  have hone : liveCount (basename p) pt = 1 := hs.uniq _ pe pt _ h2 hn hsc
  have hzero : liveCount (basename p) tail = 0 := by
    have := rmdir_mark_liveCount _ _ _ hm
    omega
  have hnoN : ∀ d ∈ tail, d.name = basename p → d.type = 'U' :=
    (liveCount_zero_iff _ _).mp hzero
  have hmem : ∀ d ∈ tail, d ∈ pt ∨ d.type = 'U' := fun d hd => rmdir_mark_mem _ _ _ hm d hd
  have hnew : ∀ e2 t2, objs2 (dirname p) = some (Obj.table (e2 :: t2)) →
      e2 = { pe with hardlinks := (pe.hardlinks + 2 ^ 32 - 1) % 2 ^ 32 } ∧ t2 = tail := by
    intro e2 t2 h
    rw [hA2] at h
    have hT := Obj.table.inj (Option.some.inj h)
    simp only [List.cons.injEq] at hT
    exact ⟨hT.1.symm, hT.2.symm⟩
  have hsome : ∀ c, c ≠ p → (objs c).isSome = true → (objs2 c).isSome = true := by
    intro c hcp hc
    by_cases hc0 : c = dirname p
    · rw [hc0, hA2]
      rfl
    · rw [hC c hc0 hcp]
      exact hc
  have hdir : ∀ c, c ≠ p → (∃ e2 t2, objs c = some (Obj.table (e2 :: t2)) ∧ e2.type = 'D') →
      ∃ e2 t2, objs2 c = some (Obj.table (e2 :: t2)) ∧ e2.type = 'D' := by
    intro c hcp ⟨e2, t2, hc, hty2⟩
    by_cases hc0 : c = dirname p
    · subst hc0
      rw [h2] at hc
      have hT := Obj.table.inj (Option.some.inj hc)
      simp only [List.cons.injEq] at hT
      rw [hA2]
      refine ⟨_, _, rfl, ?_⟩
      show pe.type = 'D'
      rw [hT.1]
      exact hty2
    · rw [hC c hc0 hcp]
      exact ⟨e2, t2, hc, hty2⟩
  -- a slot of the new parent's table that is not `'U'` does not name `p`
  have hkey0 : ∀ d ∈ tail, d.type ≠ 'U' → dirname p ++ [d.name] ≠ p := by
    intro d hd hU hc
    have := congrArg basename hc
    rw [basename_concat] at this
    exact hU (hnoN d hd this)
  have hkey : ∀ K x, K ≠ dirname p → K ++ [x] ≠ p := by
    intro K x hK hc
    have := congrArg dirname hc
    rw [dirname_concat] at this
    exact hK this
  refine ⟨?_, ?_, ?_, ?_, ?_, ?_, ?_, ?_⟩
  · -- root
    intro o h
    by_cases h0 : ([] : Path) = dirname p
    · obtain ⟨e, t, hpo, hty⟩ := hs.root _ (by rw [h0]; exact h2)
      have hT := Obj.table.inj hpo
      simp only [List.cons.injEq] at hT
      rw [h0, hA2] at h
      refine ⟨_, _, (Option.some.inj h).symm, ?_⟩
      show pe.type = 'D'
      rw [hT.1]
      exact hty
    · rw [hC [] h0 (fun e1 => hp e1.symm)] at h
      exact hs.root o h
  · -- bytes_nil
    intro K data h
    by_cases hK0 : K = dirname p
    · rw [hK0, hA2] at h
      exact Obj.noConfusion (Option.some.inj h)
    · by_cases hKp : K = p
      · rw [hKp, hB] at h
        exact Option.noConfusion h
      · rw [hC K hK0 hKp] at h
        exact hs.bytes_nil K data h
  · -- nonempty
    intro K h
    by_cases hK0 : K = dirname p
    · rw [hK0, hA2] at h
      have := Obj.table.inj (Option.some.inj h)
      simp at this
    · by_cases hKp : K = p
      · rw [hKp, hB] at h
        exact Option.noConfusion h
      · rw [hC K hK0 hKp] at h
        exact hs.nonempty K h
  · -- head
    intro K e2 t2 h
    by_cases hK0 : K = dirname p
    · subst hK0
      obtain ⟨he, _⟩ := hnew e2 t2 h
      rw [he]
      exact hs.head _ pe pt h2
    · by_cases hKp : K = p
      · rw [hKp, hB] at h
        exact Option.noConfusion h
      · rw [hC K hK0 hKp] at h
        exact hs.head K e2 t2 h
  · -- types
    intro K e2 t2 h d hd
    by_cases hK0 : K = dirname p
    · subst hK0
      obtain ⟨_, ht⟩ := hnew e2 t2 h
      rw [ht] at hd
      rcases hmem d hd with h1 | h1
      · exact hs.types _ pe pt h2 d h1
      · exact Or.inr (Or.inr h1)
    · by_cases hKp : K = p
      · rw [hKp, hB] at h
        exact Option.noConfusion h
      · rw [hC K hK0 hKp] at h
        exact hs.types K e2 t2 h d hd
  · -- file
    intro K e2 t2 d h hd hF
    have hU : d.type ≠ 'U' := by
      rw [hF]
      decide
    by_cases hK0 : K = dirname p
    · subst hK0
      obtain ⟨_, ht⟩ := hnew e2 t2 h
      rw [ht] at hd
      rcases hmem d hd with h1 | h1
      · exact hsome _ (hkey0 d hd hU) (hs.file _ pe pt d h2 h1 hF)
      · exact absurd h1 hU
    · by_cases hKp : K = p
      · rw [hKp, hB] at h
        exact Option.noConfusion h
      · rw [hC K hK0 hKp] at h
        exact hsome _ (hkey K d.name hK0) (hs.file K e2 t2 d h hd hF)
  · -- dir
    intro K e2 t2 d h hd hD
    have hU : d.type ≠ 'U' := by
      rw [hD]
      decide
    by_cases hK0 : K = dirname p
    · subst hK0
      obtain ⟨_, ht⟩ := hnew e2 t2 h
      rw [ht] at hd
      rcases hmem d hd with h1 | h1
      · exact hdir _ (hkey0 d hd hU) (hs.dir _ pe pt d h2 h1 hD)
      · exact absurd h1 hU
    · by_cases hKp : K = p
      · rw [hKp, hB] at h
        exact Option.noConfusion h
      · rw [hC K hK0 hKp] at h
        exact hdir _ (hkey K d.name hK0) (hs.dir K e2 t2 d h hd hD)
  · -- uniq
    intro K e2 t2 m h hmd hscm
    by_cases hK0 : K = dirname p
    · subst hK0
      obtain ⟨_, ht⟩ := hnew e2 t2 h
      rw [ht] at hscm ⊢
      by_cases hmn : m = basename p
      · rw [hmn, liveCount_zero_scan _ _ hzero] at hscm
        simp [ENOENT] at hscm
      · obtain ⟨h3, h4⟩ := rmdir_mark_other _ m _ _ hm hmn
        rw [h3] at hscm
        rw [h4]
        exact hs.uniq _ pe pt m h2 hmd hscm
    · by_cases hKp : K = p
      · rw [hKp, hB] at h
        exact Option.noConfusion h
      · rw [hC K hK0 hKp] at h
        exact hs.uniq K e2 t2 m h hmd hscm

/-- In a sound bucket the second loop of `fs_rmdir` finds the name of a path
that opens as a directory. -/
theorem sound_rmdir_mark (env : Env) (objs : Path → Option Obj) (hs : Sound objs)
    (p : Path) (po : Obj) (hdot : "." ∉ p) (hp : p ≠ [])
    (c1 : (fs_opendir env ⟨objs, []⟩ p).1 = 0)
    (h2 : objs (dirname p) = some po) :
    rmdir_mark (basename p) ((records env po).drop 1) ≠ none := by
  obtain ⟨pe, pt, _, _, hpar, _, hsc, _, _, _⟩ := sound_opendir env objs hs p hp hdot c1
  rw [h2] at hpar
  have hpo := Option.some.inj hpar
  subst hpo
  rw [records_table]
  simp only [List.drop_succ_cons, List.drop_zero]
  obtain ⟨d, hd, hdn, hdt⟩ := opendir_scan_mem _ _ hsc
  obtain ⟨t, ht, _⟩ := rmdir_mark_some (basename p) pt ⟨d, hd, hdn, by rw [hdt]; decide⟩
  rw [ht]
  exact Option.noConfusion

theorem open_scan_cons (n : String) (d : s3dirent_t) (t : List s3dirent_t) :
    open_scan n (d :: t) =
      if d.name = n then
        if d.type = 'D' then some (-ENOENT)
        else if d.type = 'F' then some 0
        else open_scan n t
      else open_scan n t := by
  rw [open_scan]

theorem file_scan_cons (n : String) (d : s3dirent_t) (t : List s3dirent_t) :
    file_scan n (d :: t) = if d.name = n ∧ d.type = 'F' then some d else file_scan n t := by
  rw [file_scan]

/-- Where the loop of `fs_rename` finds a record, the loop of `fs_open` ends
inside the table. -/
theorem open_scan_of_file_scan (n : String) (t : List s3dirent_t) (d : s3dirent_t)
    (h : file_scan n t = some d) : open_scan n t ≠ none := by
  induction t with
  | nil => simp [file_scan] at h
  | cons x t ih =>
    rw [open_scan_cons]
    rw [file_scan_cons] at h
    by_cases hn : x.name = n
    · by_cases hD : x.type = 'D'
      · simp [hn, hD]
      · by_cases hF : x.type = 'F'
        · simp [hn, hD, hF]
        · simp only [hn, hD, hF, if_true, if_false, and_false] at h ⊢
          exact ih h
    · simp only [hn, if_false, false_and] at h ⊢
      exact ih h

/-- In a sound bucket, where the loop of `fs_rename` finds a name other than
`"."` as a file in a table, `fs_open` finds it as a file too. -/
theorem sound_open_scan (env : Env) (objs : Path → Option Obj) (hs : Sound objs) (K : Path)
    (po : Obj) (n : String) (d : s3dirent_t) (h2 : objs K = some po) (hn : n ≠ ".")
    (hf : file_scan n (records env po) = some d) :
    open_scan n (records env po) = some 0 := by
  rcases open_scan_values n (records env po) with h | h | h
  · exact h
  · exfalso
    rcases sound_records env objs hs K po h2 with ⟨_, hr⟩ | ⟨pe, pt, hpo, hr⟩
    · rw [hr] at hf
      simp [file_scan] at hf
    · subst hpo
      rw [hr] at h hf
      have hpe : pe.name ≠ n := by
        rcases hs.head _ pe pt h2 with ⟨_, hname⟩ | hF
        · rw [hname]
          exact fun e => hn e.symm
        · intro hname
          rw [open_scan_cons] at h
          simp [hname, hF, ENOENT] at h
      rw [open_scan_cons] at h
      rw [file_scan_cons] at hf
      simp only [hpe, if_false, false_and] at h hf
      have hsc := open_scan_dir _ _ h
      have hone := hs.uniq _ pe pt n h2 hn hsc
      obtain ⟨d1, hd1, hd1n, hd1t⟩ := opendir_scan_mem _ _ hsc
      obtain ⟨hd2, hd2n, hd2t⟩ := file_scan_mem _ _ _ hf
      have hne : d1 ≠ d := by
        intro e
        rw [e, hd2t] at hd1t
        exact absurd hd1t (by decide)
      have := liveCount_two n pt d1 d hd1 hd2 hne ⟨hd1n, by rw [hd1t]; decide⟩
        ⟨hd2n, by rw [hd2t]; decide⟩
      omega
  · exact absurd h (open_scan_of_file_scan _ _ _ hf)

/-- In a sound bucket, with every store call succeeding, `fs_rename` of a path
without a component `"."` leaves the store as it is: it ends in `fs_unlink` at
the latest. -/
theorem fs_rename_sound (env : Env) (objs : Path → Option Obj) (hs : Sound objs)
    (p q : Path) (hdot : "." ∉ p) :
    (fs_rename env ⟨objs, []⟩ p q).2 = ⟨objs, []⟩ := by
  unfold fs_rename
  simp only [get_ok]
  cases h1 : objs p with
  | none => rfl
  | some o =>
    cases h2 : objs (dirname p) with
    | none => rfl
    | some po =>
      cases hf : file_scan (basename p) (records env po) with
      | none => simp only [hf]
      | some d =>
        have hopen : (fs_open env ⟨objs, []⟩ p).1 = some 0 := by
          rw [fs_open_ok_of env objs p o po h1 h2]
          exact sound_open_scan env objs hs _ po _ d h2 (basename_ne_dot p hdot) hf
        simp only [hf, fs_unlink_ok env objs p hopen]

theorem fs_init_nil (env : Env) (objs0 : Path → Option Obj) :
    fs_init env ⟨objs0, []⟩ =
      ⟨fun k => if k = [] then some (Obj.table [rootEnt env]) else none, []⟩ := by
  simp [fs_init, s3fs_test_bucket, s3fs_clear_bucket, s3fs_put_object, nextCall]

theorem fs_init_sound (env : Env) (objs0 : Path → Option Obj) :
    SoundStore (fs_init env ⟨objs0, []⟩) := by
  rw [fs_init_nil]
  refine ⟨rfl, ?_, ?_, ?_, ?_, ?_, ?_, ?_, ?_⟩
  · intro o h
    simp only [if_true] at h
    exact ⟨rootEnt env, [], (Option.some.inj h).symm, rfl⟩
  · intro K data h
    by_cases hK : K = [] <;> simp [hK] at h
  · intro K h
    by_cases hK : K = [] <;> simp [hK] at h
  · intro K e t h
    by_cases hK : K = []
    · simp only [hK, if_true, Option.some.injEq, Obj.table.injEq, List.cons.injEq] at h
      left
      rw [← h.1]
      exact ⟨rfl, rfl⟩
    · simp [hK] at h
  · intro K e t h d hd
    by_cases hK : K = []
    · simp only [hK, if_true, Option.some.injEq, Obj.table.injEq, List.cons.injEq] at h
      rw [← h.2] at hd
      simp at hd
    · simp [hK] at h
  · intro K e t d h hd _
    by_cases hK : K = []
    · simp only [hK, if_true, Option.some.injEq, Obj.table.injEq, List.cons.injEq] at h
      rw [← h.2] at hd
      simp at hd
    · simp [hK] at h
  · intro K e t d h hd _
    by_cases hK : K = []
    · simp only [hK, if_true, Option.some.injEq, Obj.table.injEq, List.cons.injEq] at h
      rw [← h.2] at hd
      simp at hd
    · simp [hK] at h
  · intro K e t n h _ hsc
    by_cases hK : K = []
    · simp only [hK, if_true, Option.some.injEq, Obj.table.injEq, List.cons.injEq] at h
      rw [← h.2] at hsc
      simp [opendir_scan, ENOENT] at hsc
    · simp [hK] at h

theorem sound_of_same (s s2 : Store) (hs : SoundStore s) (hf : s2.faults = [])
    (ho : s2.objs = s.objs) : SoundStore s2 :=
  ⟨hf, ho ▸ hs.2⟩

/-- Every call keeps a sound store sound, where no store call fails and no
path argument has a component `"."`. -/
theorem applyOp_sound (env : Env) (s : Store) (op : Op) (hs : SoundStore s)
    (hargs : ∀ q ∈ opPaths op, "." ∉ q) : SoundStore (applyOp env s op) := by
  obtain ⟨objs, faults⟩ := s
  obtain ⟨hf, hsound⟩ := hs
  simp only at hf hsound
  subst hf
  cases op with
  | mkdir p m =>
    have hdot := hargs p (by simp [opPaths])
    show SoundStore (fs_mkdir env ⟨objs, []⟩ p m).2
    rcases fs_mkdir_nil env objs p m with h | ⟨hp, c1, c2, po, h2, h⟩
    · rw [h]
      exact ⟨rfl, hsound⟩
    · rw [h]
      have hne : dirname p ≠ p := dirname_ne_self p hp
      refine ⟨rfl, sound_mkdir env objs _ hsound p m po hdot hp c1 c2 h2 ?_ ?_ ?_⟩
      · simp
      · simp [hne]
      · intro x hx1 hx2
        simp [hx1, hx2]
  | rmdir p =>
    have hdot := hargs p (by simp [opPaths])
    show SoundStore (fs_rmdir env ⟨objs, []⟩ p).2
    rcases fs_rmdir_nil env objs p with h | ⟨_, h⟩ | ⟨hp, c1, po, h2, hm, _⟩ |
      ⟨hp, c1, po, tail, h2, hm, h⟩
    · rw [h]
      exact ⟨rfl, hsound⟩
    · rw [h]
      exact ⟨rfl, sound_remove_root objs hsound⟩
    · exact absurd hm (sound_rmdir_mark env objs hsound p po hdot hp c1 h2)
    · rw [h]
      have hne : dirname p ≠ p := dirname_ne_self p hp
      refine ⟨rfl, sound_rmdir env objs _ hsound p po tail hdot hp c1 h2 hm ?_ ?_ ?_⟩
      · simp
      · simp [hne.symm]
      · intro x hx1 hx2
        simp [hx1, hx2]
  | mknod p m =>
    show SoundStore (fs_mknod env ⟨objs, []⟩ p m).2
    rcases fs_mknod_nil env objs p m with h | ⟨h1, po, h2, h⟩
    · rw [h]
      exact ⟨rfl, hsound⟩
    · rw [h]
      have hne : dirname p ≠ p := by
        intro e
        rw [e, h1] at h2
        exact Option.noConfusion h2
      refine ⟨rfl, sound_mknod env objs _ hsound p m po h1 h2 ?_ ?_ ?_⟩
      · simp
      · simp [hne.symm]
      · intro x hx1 hx2
        simp [hx1, hx2]
  | unlink p =>
    exact sound_of_same ⟨objs, []⟩ _ ⟨rfl, hsound⟩ (fs_unlink_faults env _ p rfl)
      (fs_unlink_objs env _ p)
  | write p b n o =>
    show SoundStore (fs_write env ⟨objs, []⟩ p b n o).2
    rw [fs_write_nil]
    exact ⟨rfl, hsound⟩
  | truncate p n =>
    exact sound_of_same ⟨objs, []⟩ _ ⟨rfl, hsound⟩ (fs_truncate_faults env _ p n rfl)
      (fs_truncate_objs env _ p n)
  | ftruncate p n =>
    exact sound_of_same ⟨objs, []⟩ _ ⟨rfl, hsound⟩ (fs_ftruncate_faults env _ p n rfl)
      (fs_ftruncate_objs env _ p n)
  | rename p q =>
    show SoundStore (fs_rename env ⟨objs, []⟩ p q).2
    rw [fs_rename_sound env objs hsound p q (hargs p (by simp [opPaths]))]
    exact ⟨rfl, hsound⟩

theorem run_sound (s : Store) (calls : List (Env × Op)) (hs : SoundStore s)
    (hargs : ∀ c ∈ calls, ∀ q ∈ opPaths c.2, "." ∉ q) : SoundStore (run s calls) := by
  induction calls generalizing s with
  | nil => exact hs
  | cons c rest ih =>
    simp only [run]
    apply ih
    · exact applyOp_sound c.1 s c.2 hs (hargs c (List.mem_cons_self _ _))
    · intro c2 hc2
      exact hargs c2 (List.mem_cons_of_mem _ hc2)

/-! ## The claims -/

/-- C2, at `fs_rename("/f", "/g")` (one parent) and `fs_rename("/d/f", "/g")`
(two parents) where the third store call fails, the fetch that `fs_unlink`
makes through `fs_open`: `fs_unlink` returns `-ENOENT`, `fs_rename` goes on and
returns 0, and the slot of the source name in the old parent's table is still
of type `'F'`, so that `fs_readdir` of the old parent still lists the name.
With every store call succeeding the same calls do not return. -/
theorem rename_keeps_source_slot :
    (fs_rename env0 (st_f_pending [false, false, true]) ["f"] ["g"]).1 = some 0 ∧
    ((fs_rename env0 (st_f_pending [false, false, true]) ["f"] ["g"]).2.objs []).map
      (fun o => (records env0 o).map (fun d => (d.name, d.type))) =
        some [(".", 'D'), ("f", 'F'), ("g", 'F')] ∧
    (fs_readdir env0 (fs_rename env0 (st_f_pending [false, false, true]) ["f"] ["g"]).2 []
      acceptAll).2.1 = [".", "f", "g"] ∧
    (fs_rename env0 (st_df_pending [false, false, true]) ["d", "f"] ["g"]).1 = some 0 ∧
    ((fs_rename env0 (st_df_pending [false, false, true]) ["d", "f"] ["g"]).2.objs ["d"]).map
      (fun o => (records env0 o).map (fun d => (d.name, d.type))) =
        some [(".", 'D'), ("f", 'F')] ∧
    (fs_readdir env0 (fs_rename env0 (st_df_pending [false, false, true]) ["d", "f"] ["g"]).2
      ["d"] acceptAll).2.1 = [".", "f"] ∧
    (fs_rename env0 st_f ["f"] ["g"]).1 = none ∧
    (fs_rename env0 st_df ["d", "f"] ["g"]).1 = none := by
  decide

/-- C6, on the new file `/f`, which `fs_open` opens: a write of five bytes on
which every store call succeeds does not return, neither 5 nor any other
value, and the object at `/f` is still the empty one. -/
theorem write_does_not_return :
    (fs_open env0 st_f ["f"]).1 = some 0 ∧ st_f.faults = [] ∧
    (fs_write env0 st_f ["f"] [104, 101, 108, 108, 111] 5 0).1 = none ∧
    (fs_write env0 st_f ["f"] [104, 101, 108, 108, 111] 5 0).2.objs ["f"] =
      some (Obj.bytes []) := by
  decide

/-- C9, at `mknod /f` with mode 0644 on the new file system: `fs_mknod` returns
0, the root table holds the slot of `f`, and the following `fs_getattr` of `/f`
returns `-EIO` and fills no stat buffer. -/
theorem getattr_after_mknod_fails :
    (fs_mknod env0 st_init ["f"] 0o644).1 = 0 ∧
    (st_f.objs []).map (fun o => (records env0 o).map (fun d => (d.name, d.type, d.permissions)))
      = some [(".", 'D', 0o40700), ("f", 'F', 0o644)] ∧
    (fs_getattr env0 st_f ["f"]).1 = - EIO ∧
    (fs_getattr env0 st_f ["f"]).2.1 = none := by
  decide

/-- C10 as stated fails: on the new directory `/d`, `fs_readdir` returns 0 and
passes the name `"."` to the filler. -/
theorem readdir_new_dir_passes_dot :
    (fs_mkdir env0 st_init ["d"] 0o755).1 = 0 ∧
    (fs_readdir env0 st_d ["d"] acceptAll).1 = some 0 ∧
    (fs_readdir env0 st_d ["d"] acceptAll).2.1 = ["."] := by
  decide

/-- C10, amended: for every path `P` on which `fs_mkdir(P, mode)` has just
returned 0, every store call succeeding, and which then opens as a directory,
`fs_readdir(P)` passes to the filler exactly one name, the self-descriptor
`"."`, and returns 0 when the filler accepts it. -/
theorem readdir_after_mkdir (env : Env) (s : Store) (p : Path) (mode : Nat)
    (filler : List String → String → Bool) (hf : s.faults = [])
    (hm : (fs_mkdir env s p mode).1 = 0)
    (ho : (fs_opendir env (fs_mkdir env s p mode).2 p).1 = 0) :
    (fs_readdir env (fs_mkdir env s p mode).2 p filler).2.1 = ["."] ∧
    (filler [] "." = false →
      (fs_readdir env (fs_mkdir env s p mode).2 p filler).1 = some 0) := by
  obtain ⟨objs, faults⟩ := s
  simp only at hf
  subst hf
  obtain ⟨hp, po, hpo, hs⟩ := fs_mkdir_ok env objs p mode hm
  rw [hs] at ho ⊢
  unfold fs_readdir
  simp only [ho, ne_eq, not_true_eq_false, if_false, fs_opendir_ok_store, get_ok, if_true,
    records_table]
  have hl : readdir_loop filler [] [dirEnt env (mode ||| S_IFDIR)] =
      (if filler [] "." then -ENOMEM else 0, ["."]) := by
    by_cases hfl : filler [] "." = true <;> simp [readdir_loop, dirEnt, hfl]
  simp only [hl]
  by_cases hfl : filler [] "." = true <;> simp [hfl]

/-- A use of `readdir_after_mkdir`: `mkdir /d` on the new file system. -/
theorem readdir_after_mkdir_witness :
    (fs_readdir env0 (fs_mkdir env0 st_init ["d"] 0o755).2 ["d"] acceptAll).2.1 = ["."] ∧
    (acceptAll [] "." = false →
      (fs_readdir env0 (fs_mkdir env0 st_init ["d"] 0o755).2 ["d"] acceptAll).1 = some 0) :=
  readdir_after_mkdir env0 st_init ["d"] 0o755 acceptAll (by decide) (by decide) (by decide)

/-- C11: for every path `P` that opens as a directory and holds a table, with
every store call succeeding, `fs_readdir(P)` passes to the filler names of the
slots of the table stored at `P` itself whose type is not `'U'`, each slot at
most once and in slot order, and never the name of a slot of type `'U'`; with a
filler that accepts every name it passes the names of all those slots, each
once, in slot order, and returns 0. -/
theorem readdir_lists_live (env : Env) (s : Store) (p : Path) (ents : List s3dirent_t)
    (filler : List String → String → Bool) (hf : s.faults = [])
    (hd : (fs_opendir env s p).1 = 0) (ho : s.objs p = some (Obj.table ents)) :
    (∃ k, (fs_readdir env s p filler).2.1 =
      ((ents.filter (fun d => decide (d.type ≠ 'U'))).map (fun d => d.name)).take k) ∧
    ((∀ l n, filler l n = false) →
      (fs_readdir env s p filler).1 = some 0 ∧
      (fs_readdir env s p filler).2.1 =
        (ents.filter (fun d => decide (d.type ≠ 'U'))).map (fun d => d.name)) := by
  obtain ⟨objs, faults⟩ := s
  simp only at hf ho
  subst hf
  unfold fs_readdir
  simp only [hd, ne_eq, not_true_eq_false, if_false, fs_opendir_ok_store, get_ok, ho,
    records_table]
  constructor
  · obtain ⟨k, hk⟩ := readdir_loop_take filler [] ents
    exact ⟨k, by simpa [liveNames] using hk⟩
  · intro hacc
    simp [readdir_loop_accept filler hacc, liveNames]

/-- A use of `readdir_lists_live`: the root after `mkdir /d` and `rmdir /d`,
whose slot `d` is of type `'U'`, lists `"."` only. -/
theorem readdir_lists_live_witness :
    (fs_readdir env0 st_d_rm [] acceptAll).1 = some 0 ∧
    (fs_readdir env0 st_d_rm [] acceptAll).2.1 =
      ([rootEnt env0, { addingEnt env0 "d" with type := 'U' }].filter
        (fun d => decide (d.type ≠ 'U'))).map (fun d => d.name) :=
  (readdir_lists_live env0 st_d_rm [] [rootEnt env0, { addingEnt env0 "d" with type := 'U' }]
    acceptAll (by decide) (by decide) (by decide)).2 (by intro l n; rfl)

/-- C12: for every path `P` other than the root that opens as a directory and
holds a table, its parent holding the object `po`, with every store call
succeeding: if a slot of the table of `P` at index 1 or more is not `'U'`,
`fs_rmdir(P)` returns `-ENOTEMPTY`; if every such slot is `'U'` (or there is
none), and slot 0 of the parent's table is not named `basename(P)`,
`fs_rmdir(P)` returns 0 and no object is left at `P`. -/
theorem rmdir_empty_or_not (env : Env) (s : Store) (p : Path) (ents : List s3dirent_t)
    (po : Obj) (hf : s.faults = []) (hp : p ≠ [])
    (hd : (fs_opendir env s p).1 = 0) (ho : s.objs p = some (Obj.table ents))
    (hpo : s.objs (dirname p) = some po) :
    ((∃ d ∈ ents.drop 1, d.type ≠ 'U') → (fs_rmdir env s p).1 = -ENOTEMPTY) ∧
    ((∀ d ∈ ents.drop 1, d.type = 'U') →
      (records env po).head?.map (fun e => e.name) ≠ some (basename p) →
      (fs_rmdir env s p).1 = 0 ∧ (fs_rmdir env s p).2.objs p = none) := by
  obtain ⟨objs, faults⟩ := s
  simp only at hf ho hpo
  subst hf
  have hne : dirname p ≠ p := dirname_ne_self p hp
  constructor
  · intro hlive
    have hl : rmdir_live (records env (Obj.table ents)) = true := by
      obtain ⟨d, hd1, hd2⟩ := hlive
      simp only [rmdir_live, records_table, List.any_eq_true]
      exact ⟨d, hd1, by simpa using hd2⟩
    rw [fs_rmdir_ok_live env objs p _ hd ho hl]
  · intro hdead h0
    have hl : rmdir_live (records env (Obj.table ents)) = false := by
      simp only [rmdir_live, records_table, List.any_eq_false]
      intro d hd1
      simpa using hdead d hd1
    obtain ⟨o, po2, h1, h2, h3⟩ := fs_opendir_ok_zero env objs p hp hd
    have hpp : po2 = po := Option.some.inj (h2.symm.trans hpo)
    subst hpp
    cases hr : records env po2 with
    | nil => simp [hr, opendir_scan, ENOENT] at h3
    | cons e0 rest =>
      have hname : e0.name ≠ basename p := by
        intro he
        apply h0
        simp [hr, he]
      rw [hr] at h3
      obtain ⟨d, hmem, hdn, hdt⟩ := opendir_scan_mem _ _ (opendir_scan_tail _ _ _ hname h3)
      obtain ⟨tail, ht, hlen⟩ := rmdir_mark_some (basename p) rest
        ⟨d, hmem, hdn, by rw [hdt]; decide⟩
      have hpos : 0 < tail.length := by
        rw [hlen]
        exact List.length_pos_of_mem hmem
      rw [fs_rmdir_ok_empty env objs p _ po2 tail hp hd ho h2 hl (by simpa [hr] using ht) hpos]
      simp [hne.symm]

/-- A use of `rmdir_empty_or_not`: `/d` holding the file `f` is not removed;
the new directory `/d` is removed. -/
theorem rmdir_empty_or_not_witness :
    (fs_rmdir env0 st_df ["d"]).1 = -ENOTEMPTY ∧
    (fs_rmdir env0 st_d ["d"]).1 = 0 ∧ (fs_rmdir env0 st_d ["d"]).2.objs ["d"] = none :=
  ⟨(rmdir_empty_or_not env0 st_df ["d"]
      [dirEnt env0 (0o755 ||| S_IFDIR), fileEnt env0 "f" 0o644 0]
      (Obj.table [{ rootEnt env0 with hardlinks := 2 }, addingEnt env0 "d"])
      (by decide) (by decide) (by decide) (by decide) (by decide)).1 (by decide),
   (rmdir_empty_or_not env0 st_d ["d"] [dirEnt env0 (0o755 ||| S_IFDIR)]
      (Obj.table [{ rootEnt env0 with hardlinks := 2 }, addingEnt env0 "d"])
      (by decide) (by decide) (by decide) (by decide) (by decide)).2 (by decide) (by decide)⟩

/-- C13, on the file `/f` of the new file system, which opens as a file and
whose content object exists: `fs_mkdir("/f", 0755)` returns 0, not `-EEXIST`,
stores a directory table over the content object and appends a slot `f` of
type `'D'` to the root table. -/
theorem mkdir_over_file :
    (fs_open env0 st_f ["f"]).1 = some 0 ∧
    st_f.objs ["f"] = some (Obj.bytes []) ∧
    (fs_mkdir env0 st_f ["f"] 0o755).1 = 0 ∧
    (fs_mkdir env0 st_f ["f"] 0o755).2.objs ["f"] =
      some (Obj.table [dirEnt env0 (0o755 ||| S_IFDIR)]) ∧
    ((fs_mkdir env0 st_f ["f"] 0o755).2.objs []).map
      (fun o => (records env0 o).map (fun d => (d.name, d.type))) =
      some [(".", 'D'), ("f", 'F'), ("f", 'D')] := by
  decide

/-- C14, at `mkdir /d` with mode 0755 on the new file system: `fs_mkdir`
returns 0 and the slot `d` appended to the root table holds the indeterminate
values of the fields that `adddirtoparent` never assigns, not the mode
`0755|S_IFDIR` and the link count 1. -/
theorem mkdir_parent_slot_unset :
    (fs_mkdir env0 st_init ["d"] 0o755).1 = 0 ∧
    ((fs_mkdir env0 st_init ["d"] 0o755).2.objs []).map
      (fun o => (records env0 o).map (fun d => (d.name, d.type, d.permissions, d.hardlinks))) =
      some [(".", 'D', 0o40700, 2),
            ("d", 'D', env0.uninitEnt.permissions, env0.uninitEnt.hardlinks)] ∧
    env0.uninitEnt.permissions ≠ 0o755 ||| S_IFDIR ∧ env0.uninitEnt.hardlinks ≠ 1 := by
  decide

/-- What `fs_mkdir` stores: with every store call succeeding, where the parent
of `P` holds the table `e0 :: rest`, after `fs_mkdir(P, mode)` returns 0 (a) the
parent's table is the old one with slot 0 changed as in (b) and one slot
appended whose name is `basename(P)` and whose type is `'D'`, (b) the link count
of the parent's slot 0 is one more than before (modulo `2^32`), its other fields
unchanged, and (c) the object at `P` is a table of exactly one slot, named
`"."`, of type `'D'`, with mode `mode|S_IFDIR` and link count 1. -/
theorem mkdir_tables (env : Env) (s : Store) (p : Path) (mode : Nat) (e0 : s3dirent_t)
    (rest : List s3dirent_t) (hf : s.faults = [])
    (hpar : s.objs (dirname p) = some (Obj.table (e0 :: rest)))
    (hm : (fs_mkdir env s p mode).1 = 0) :
    (∃ a, (fs_mkdir env s p mode).2.objs (dirname p) =
        some (Obj.table
          ({ e0 with hardlinks := (e0.hardlinks + 1) % 2 ^ 32 } :: rest ++ [a])) ∧
      a.name = basename p ∧ a.type = 'D') ∧
    (∃ c, (fs_mkdir env s p mode).2.objs p = some (Obj.table [c]) ∧
      c.name = "." ∧ c.type = 'D' ∧ c.permissions = mode ||| S_IFDIR ∧ c.hardlinks = 1) := by
  obtain ⟨objs, faults⟩ := s
  simp only at hf hpar
  subst hf
  obtain ⟨hp, po, hpo, hs⟩ := fs_mkdir_ok env objs p mode hm
  have hne : dirname p ≠ p := dirname_ne_self p hp
  have hpp : po = Obj.table (e0 :: rest) := Option.some.inj (hpo.symm.trans hpar)
  subst hpp
  rw [hs]
  refine ⟨⟨addingEnt env (basename p), ?_, rfl, rfl⟩,
    ⟨dirEnt env (mode ||| S_IFDIR), by simp, rfl, rfl, rfl, rfl⟩⟩
  simp [hne, records_table, bumpFirst]

/-- A use of `mkdir_tables`: `mkdir /d` on the new file system. -/
theorem mkdir_tables_witness :
    (∃ a, (fs_mkdir env0 st_init ["d"] 0o755).2.objs (dirname ["d"]) =
        some (Obj.table
          ({ rootEnt env0 with hardlinks := ((rootEnt env0).hardlinks + 1) % 2 ^ 32 } :: [] ++ [a]))
      ∧ a.name = basename ["d"] ∧ a.type = 'D') ∧
    (∃ c, (fs_mkdir env0 st_init ["d"] 0o755).2.objs ["d"] = some (Obj.table [c]) ∧
      c.name = "." ∧ c.type = 'D' ∧ c.permissions = 0o755 ||| S_IFDIR ∧ c.hardlinks = 1) :=
  mkdir_tables env0 st_init ["d"] 0o755 (rootEnt env0) [] (by decide) (by decide) (by decide)

/-- C16, at `fs_rename("/f", "/g")` where the third and the fourth store call
fail, the fetch that `fs_unlink` makes through `fs_open` and the fetch of the
parent's table in `addfiletoparent`: `fs_rename` returns 0 and stores the
object at `/g`, and the root table, the table of the parent of `/g`, is the one
stored before, with no slot named `g`. -/
theorem rename_skips_slot :
    (st_f.objs []).map (fun o => (records env0 o).map (fun d => (d.name, d.type))) =
      some [(".", 'D'), ("f", 'F')] ∧
    (fs_rename env0 (st_f_pending [false, false, true, true]) ["f"] ["g"]).1 = some 0 ∧
    (fs_rename env0 (st_f_pending [false, false, true, true]) ["f"] ["g"]).2.objs ["g"] =
      some (Obj.bytes []) ∧
    (fs_rename env0 (st_f_pending [false, false, true, true]) ["f"] ["g"]).2.objs [] =
      st_f.objs [] := by
  decide

/-- C17, on the file `/f` of the store reached from `fs_init` by `mknod /f`,
at `fs_rename("/f", "/g")` where the third store call fails, the fetch that
`fs_unlink` makes through `fs_open`: `fs_rename` returns 0, the object at `/g`
is stored, and the object at `/f` is still there. -/
theorem rename_keeps_source_object :
    st_f = run (fs_init env0 emptyStore) [(env0, Op.mknod ["f"] 0o644)] ∧
    st_f.objs ["f"] = some (Obj.bytes []) ∧
    (fs_rename env0 (st_f_pending [false, false, true]) ["f"] ["g"]).1 = some 0 ∧
    (fs_rename env0 (st_f_pending [false, false, true]) ["f"] ["g"]).2.objs ["g"] =
      some (Obj.bytes []) ∧
    (fs_rename env0 (st_f_pending [false, false, true]) ["f"] ["g"]).2.objs ["f"] =
      some (Obj.bytes []) := by
  refine ⟨rfl, ?_, ?_, ?_, ?_⟩ <;> decide

/-- C19 as stated fails: on the new file system, every store call succeeding,
`fs_rmdir("/")` removes the object at `"/"`. -/
theorem rmdir_root_removes_root :
    (fs_init env0 emptyStore).faults = [] ∧
    rootOK (fs_init env0 emptyStore).objs = true ∧
    (fs_rmdir env0 (fs_init env0 emptyStore) []).2.objs [] = none ∧
    rootOK (run (fs_init env0 emptyStore) [(env0, Op.rmdir [])]).objs = false := by
  decide

/-- C19, amended: with every store call succeeding, `fs_init` stores at `"/"`
a table of one slot, named `"."`, of type `'D'`, with mode `S_IFDIR|0700`; and
after every sequence of calls of `mkdir`, `rmdir`, `mknod`, `unlink`, `write`,
`truncate`, `ftruncate` and `rename` none of whose path arguments is the root,
the object at `"/"` is a table whose slot 0 has that name, type and mode. -/
theorem root_persists (env : Env) (objs0 : Path → Option Obj) (calls : List (Env × Op))
    (hargs : ∀ c ∈ calls, ∀ q ∈ opPaths c.2, q ≠ []) :
    (fs_init env ⟨objs0, []⟩).objs [] = some (Obj.table [rootEnt env]) ∧
    ((rootEnt env).name = "." ∧ (rootEnt env).type = 'D' ∧
      (rootEnt env).permissions = S_IFDIR ||| 0o700) ∧
    rootOK (run (fs_init env ⟨objs0, []⟩) calls).objs = true :=
  ⟨(fs_init_root env objs0).1, ⟨rfl, rfl, rfl⟩,
    (run_good _ calls (fs_init_good env objs0) hargs).2⟩

/-- A use of `root_persists`: a directory made, filled, emptied and removed. -/
theorem root_persists_witness :
    (fs_init env0 ⟨fun _ => none, []⟩).objs [] = some (Obj.table [rootEnt env0]) ∧
    ((rootEnt env0).name = "." ∧ (rootEnt env0).type = 'D' ∧
      (rootEnt env0).permissions = S_IFDIR ||| 0o700) ∧
    rootOK (run (fs_init env0 ⟨fun _ => none, []⟩)
      [(env0, Op.mkdir ["d"] 0o755), (env0, Op.mknod ["d", "f"] 0o644),
       (env0, Op.write ["d", "f"] [104, 105] 2 0), (env0, Op.rename ["d", "f"] ["g"]),
       (env0, Op.unlink ["g"]), (env0, Op.rmdir ["d"])]).objs = true :=
  root_persists env0 (fun _ => none)
    [(env0, Op.mkdir ["d"] 0o755), (env0, Op.mknod ["d", "f"] 0o644),
     (env0, Op.write ["d", "f"] [104, 105] 2 0), (env0, Op.rename ["d", "f"] ["g"]),
     (env0, Op.unlink ["g"]), (env0, Op.rmdir ["d"])]
    (by simp [opPaths])

/-- C20, on the store reached from `fs_init` by `mknod /f` and `mkdir /f`,
every store call succeeding: both calls return 0, the live names of the root
table were distinct before the `mkdir`, and after it the root table holds two
slots named `f` that are not `'U'`, one of type `'F'` and one of type `'D'`. -/
theorem mkdir_duplicates_live_name :
    st_f_dir = run (fs_init env0 emptyStore)
      [(env0, Op.mknod ["f"] 0o644), (env0, Op.mkdir ["f"] 0o755)] ∧
    st_f_dir.faults = [] ∧
    (fs_mknod env0 (fs_init env0 emptyStore) ["f"] 0o644).1 = 0 ∧
    (fs_mkdir env0 st_f ["f"] 0o755).1 = 0 ∧
    (st_f.objs []).map (fun o => liveNames (records env0 o)) = some [".", "f"] ∧
    (st_f_dir.objs []).map (fun o => liveNames (records env0 o)) = some [".", "f", "f"] ∧
    (st_f_dir.objs []).map (fun o => (records env0 o).map (fun d => (d.name, d.type))) =
      some [(".", 'D'), ("f", 'F'), ("f", 'D')] ∧
    (st_f_dir.objs []).map (fun o => decide (liveNames (records env0 o)).Nodup) = some false := by
  refine ⟨rfl, ?_, ?_, ?_, ?_, ?_, ?_, ?_⟩ <;> decide

/-- C21: with every store call succeeding, in every store reached from `fs_init`
by calls of `mkdir`, `rmdir`, `mknod`, `unlink`, `write`, `truncate`,
`ftruncate` and `rename` whose path arguments have no component `"."` (FUSE
passes normalised paths), for every object stored at a key `D`, read as a
table, and every slot of it at an index of 1 or more whose type is `'F'` or
`'D'`, an object exists at the key formed from `D` and the name of the slot. -/
theorem no_dangling_entries (env : Env) (objs0 : Path → Option Obj)
    (calls : List (Env × Op)) (env2 : Env) (D : Path) (o : Obj) (i : Nat) (d : s3dirent_t)
    (hargs : ∀ c ∈ calls, ∀ q ∈ opPaths c.2, "." ∉ q)
    (hT : (run (fs_init env ⟨objs0, []⟩) calls).objs D = some o)
    (hi : 1 ≤ i) (hd : (records env2 o)[i]? = some d) (hk : d.type = 'F' ∨ d.type = 'D') :
    ((run (fs_init env ⟨objs0, []⟩) calls).objs (D ++ [d.name])).isSome = true := by
  have hs := (run_sound _ calls (fs_init_sound env objs0) hargs).2
  rcases sound_records env2 _ hs D o hT with ⟨_, hr⟩ | ⟨e, t, ho, hr⟩
  · rw [hr] at hd
    simp at hd
  · subst ho
    rw [hr] at hd
    have hmem : d ∈ t := by
      obtain ⟨j, rfl⟩ : ∃ j, i = j + 1 := ⟨i - 1, by omega⟩
      simp only [List.getElem?_cons_succ] at hd
      exact List.getElem?_mem hd
    rcases hk with hF | hD
    · exact hs.file D e t d hT hmem hF
    · obtain ⟨e2, t2, h2, _⟩ := hs.dir D e t d hT hmem hD
      rw [h2]
      rfl

/-- A use of `no_dangling_entries`: after `mkdir /d`, `mknod /d/f`, a refused
`rmdir /d`, `mknod /f`, `mkdir /f` and `unlink /d/f`, slot 1 of the table of
`/d` is the file `f`, and an object is at `/d/f`. -/
theorem no_dangling_entries_witness :
    ((run (fs_init env0 ⟨fun _ => none, []⟩)
      [(env0, Op.mkdir ["d"] 0o755), (env0, Op.mknod ["d", "f"] 0o644),
       (env0, Op.rmdir ["d"]), (env0, Op.mknod ["f"] 0o644), (env0, Op.mkdir ["f"] 0o755),
       (env0, Op.unlink ["d", "f"])]).objs
      (["d"] ++ [(fileEnt env0 "f" 0o644 0).name])).isSome = true :=
  no_dangling_entries env0 (fun _ => none)
    [(env0, Op.mkdir ["d"] 0o755), (env0, Op.mknod ["d", "f"] 0o644),
     (env0, Op.rmdir ["d"]), (env0, Op.mknod ["f"] 0o644), (env0, Op.mkdir ["f"] 0o755),
     (env0, Op.unlink ["d", "f"])]
    env0 ["d"] (Obj.table [dirEnt env0 (0o755 ||| S_IFDIR), fileEnt env0 "f" 0o644 0]) 1
    (fileEnt env0 "f" 0o644 0)
    (by decide) (by decide) (by decide) (by decide) (by decide)

/-- C22, at `mknod /f` on the new file system when the fourth store call, the
fetch of the parent table in `addfiletoparent`, fails: `fs_mknod` returns 0, the
content object is stored and the root table has no slot for it.  When instead
the sixth call fails, the put of the parent table after its removal, `fs_mknod`
returns 0 as well and no object is left at `"/"`. -/
theorem mknod_ignores_parent_failure :
    (fs_mknod env0 (st_init_pending [false, false, false, true]) ["f"] 0o644).1 = 0 ∧
    (fs_mknod env0 (st_init_pending [false, false, false, true]) ["f"] 0o644).2.objs ["f"] =
      some (Obj.bytes []) ∧
    ((fs_mknod env0 (st_init_pending [false, false, false, true]) ["f"] 0o644).2.objs []).map
      (fun o => (records env0 o).map (fun d => (d.name, d.type))) = some [(".", 'D')] ∧
    (addfiletoparent env0 (st_init_pending [true]) ["f"] 0o644 0).1 = - EIO ∧
    (fs_mknod env0 (st_init_pending [false, false, false, false, false, true])
      ["f"] 0o644).1 = 0 ∧
    (fs_mknod env0 (st_init_pending [false, false, false, false, false, true])
      ["f"] 0o644).2.objs [] = none := by
  decide

/-- C23 as stated fails: for a record of size 1, `fillstat` reports 1 block,
and `ceil(1/512) + 1` is 2. -/
theorem fillstat_blocks_not_ceil :
    (fillstat (fileEnt env0 "f" 0o644 1)).st_blocks = 1 ∧ ceilDiv512 1 + 1 = 2 := by
  decide

/-- C23, amended: for every record, the block count that `fillstat` reports is
`floor(size/512) + 1`; this is `ceil(size/512) + 1` when the size is a multiple
of 512 and `ceil(size/512)` otherwise. -/
theorem fillstat_blocks (d : s3dirent_t) :
    (fillstat d).st_blocks = d.size / 512 + 1 ∧
    (fillstat d).st_blocks =
      if d.size % 512 = 0 then ceilDiv512 d.size + 1 else ceilDiv512 d.size := by
  refine ⟨rfl, ?_⟩
  simp only [fillstat, ceilDiv512]
  split <;> omega

/-- C28: for every store and whatever the outcomes of the store calls, when
`fs_mkdir` returns `-EEXIST` or `-ENOENT`, when `fs_mknod` returns `-EEXIST` or
`-ENOENT`, and when `fs_rmdir` returns `-ENOTDIR` or `-ENOTEMPTY`, the objects
of the store after the call are those before it. -/
theorem rejected_requests_change_nothing (env : Env) (s : Store) (p : Path) (mode : Nat) :
    ((fs_mkdir env s p mode).1 = -EEXIST ∨ (fs_mkdir env s p mode).1 = -ENOENT →
      (fs_mkdir env s p mode).2.objs = s.objs) ∧
    ((fs_mknod env s p mode).1 = -EEXIST ∨ (fs_mknod env s p mode).1 = -ENOENT →
      (fs_mknod env s p mode).2.objs = s.objs) ∧
    ((fs_rmdir env s p).1 = -ENOTDIR ∨ (fs_rmdir env s p).1 = -ENOTEMPTY →
      (fs_rmdir env s p).2.objs = s.objs) :=
  ⟨fs_mkdir_rejected env s p mode, fs_mknod_rejected env s p mode, fs_rmdir_rejected env s p⟩

/-- A use of `rejected_requests_change_nothing`: `mkdir /d` and `mknod /d` where
`/d` exists, and `rmdir /d` where `/d` holds a file. -/
theorem rejected_requests_change_nothing_witness :
    (fs_mkdir env0 st_df ["d"] 0o755).2.objs = st_df.objs ∧
    (fs_mknod env0 st_df ["d"] 0o755).2.objs = st_df.objs ∧
    (fs_rmdir env0 st_df ["d"]).2.objs = st_df.objs :=
  ⟨(rejected_requests_change_nothing env0 st_df ["d"] 0o755).1 (Or.inl (by decide)),
   (rejected_requests_change_nothing env0 st_df ["d"] 0o755).2.1 (Or.inl (by decide)),
   (rejected_requests_change_nothing env0 st_df ["d"] 0o755).2.2 (Or.inr (by decide))⟩

/-- C24: with every store call succeeding, for every path `P` other than the
root whose parent holds the table `T = e0 :: rest`, slot 0 not being named
`basename(P)` and its link count being at least 1 (and within 32 bits): after
`fs_rmdir(P)` returns 0 the parent's table is `T` with two slots replaced, so
with as many slots as before: slot 0 by itself with its link count one less,
and the first slot named `basename(P)` that was not `'U'`, at an index `k ≥ 1`,
by itself with its type now `'U'`; every other slot is as it was, in the same
position. -/
theorem rmdir_parent_frame (env : Env) (s : Store) (p : Path) (e0 : s3dirent_t)
    (rest : List s3dirent_t) (hf : s.faults = []) (hp : p ≠ [])
    (hpar : s.objs (dirname p) = some (Obj.table (e0 :: rest)))
    (hname : e0.name ≠ basename p)
    (hlink : 1 ≤ e0.hardlinks ∧ e0.hardlinks < 2 ^ 32)
    (hr : (fs_rmdir env s p).1 = 0) :
    ∃ (k : Nat) (d : s3dirent_t), 1 ≤ k ∧ (e0 :: rest)[k]? = some d ∧
      d.name = basename p ∧ d.type ≠ 'U' ∧
      (∀ (j : Nat) (e : s3dirent_t), j < k → (e0 :: rest)[j]? = some e →
        ¬ (e.name = basename p ∧ e.type ≠ 'U')) ∧
      (fs_rmdir env s p).2.objs (dirname p) =
        some (Obj.table
          (((e0 :: rest).set 0 { e0 with hardlinks := e0.hardlinks - 1 }).set k
            { d with type := 'U' })) := by
  obtain ⟨objs, faults⟩ := s
  simp only at hf hpar
  subst hf
  obtain ⟨o, po, tail, _, hpo, _, hm, hs⟩ := fs_rmdir_ok_zero env objs p hp hr
  have hpp : po = Obj.table (e0 :: rest) := Option.some.inj (hpo.symm.trans hpar)
  subst hpp
  simp only [records_table, List.drop_succ_cons, List.drop_zero] at hm
  obtain ⟨i, d, h1, h2, h3, h4, h5⟩ := rmdir_mark_spec _ _ _ hm
  refine ⟨i + 1, d, by omega, by simpa using h1, h2, h3, ?_, ?_⟩
  · intro j e hj he
    cases j with
    | zero =>
      simp only [List.getElem?_cons_zero, Option.some.injEq] at he
      subst he
      intro hc
      exact hname hc.1
    | succ j2 =>
      simp only [List.getElem?_cons_succ] at he
      exact h4 j2 e (by omega) he
  · rw [hs]
    have hh : (e0.hardlinks + 4294967295) % 4294967296 = e0.hardlinks - 1 := by
      have := hlink.1
      have := hlink.2
      omega
    simp [records_table, dropFirst, h5, hh]

/-- A use of `rmdir_parent_frame`: `rmdir /d` after `mkdir /d`. -/
theorem rmdir_parent_frame_witness :
    ∃ (k : Nat) (d : s3dirent_t), 1 ≤ k ∧
      ({ rootEnt env0 with hardlinks := 2 } :: [addingEnt env0 "d"])[k]? = some d ∧
      d.name = basename ["d"] ∧ d.type ≠ 'U' ∧
      (∀ (j : Nat) (e : s3dirent_t), j < k →
        ({ rootEnt env0 with hardlinks := 2 } :: [addingEnt env0 "d"])[j]? = some e →
        ¬ (e.name = basename ["d"] ∧ e.type ≠ 'U')) ∧
      (fs_rmdir env0 st_d ["d"]).2.objs (dirname ["d"]) =
        some (Obj.table
          ((({ rootEnt env0 with hardlinks := 2 } :: [addingEnt env0 "d"]).set 0
            { ({ rootEnt env0 with hardlinks := 2 } : s3dirent_t) with
              hardlinks := ({ rootEnt env0 with hardlinks := 2 } : s3dirent_t).hardlinks - 1 }).set k
            { d with type := 'U' })) :=
  rmdir_parent_frame env0 st_d ["d"] { rootEnt env0 with hardlinks := 2 } [addingEnt env0 "d"]
    (by decide) (by decide) (by decide) (by decide) (by decide) (by decide)

/-- C26: with every store call succeeding, in every store reached from `fs_init`
by calls of `fs_mkdir`, `fs_rmdir`, `fs_mknod` and `fs_unlink` (no path of
`fs_rmdir` ending in the component `"."`) in which the root holds a table
`e0 :: rest`, the link count of slot 0 is 1 plus the number of later slots of
type `'D'`, in the 32 bits of the field; so it is exactly that number whenever
the number fits the field. -/
theorem root_link_count (env : Env) (objs0 : Path → Option Obj) (calls : List (Env × Op))
    (e0 : s3dirent_t) (rest : List s3dirent_t)
    (hcalls : ∀ c ∈ calls, linkCall c.2 = true)
    (hroot : (run (fs_init env ⟨objs0, []⟩) calls).objs [] = some (Obj.table (e0 :: rest))) :
    e0.hardlinks = (1 + countD rest) % 2 ^ 32 ∧
    (countD rest + 1 < 2 ^ 32 → e0.hardlinks = 1 + countD rest) := by
  have h := run_linked _ calls (fs_init_linked env objs0) hcalls
  have hl : e0.hardlinks = (1 + countD rest) % 2 ^ 32 := by
    rcases (linkOK_iff _).mp h.2 with hnone | ⟨e, r, he, _, _, hl⟩
    · rw [hnone] at hroot
      exact Option.noConfusion hroot
    · rw [he] at hroot
      have hinj := Obj.table.inj (Option.some.inj hroot)
      rw [List.cons.injEq] at hinj
      rw [← hinj.1, ← hinj.2]
      exact hl
  refine ⟨hl, ?_⟩
  intro hsmall
  rw [hl]
  exact Nat.mod_eq_of_lt (by omega)

/-- A use of `root_link_count`: two directories made, a file made, one
directory removed, the file unlinked. -/
theorem root_link_count_witness :
    ({ rootEnt env0 with hardlinks := 2 } : s3dirent_t).hardlinks =
      (1 + countD [{ addingEnt env0 "d" with type := 'U' }, addingEnt env0 "e",
        fileEnt env0 "f" 0o644 0]) % 2 ^ 32 ∧
    (countD [{ addingEnt env0 "d" with type := 'U' }, addingEnt env0 "e",
        fileEnt env0 "f" 0o644 0] + 1 < 2 ^ 32 →
      ({ rootEnt env0 with hardlinks := 2 } : s3dirent_t).hardlinks =
        1 + countD [{ addingEnt env0 "d" with type := 'U' }, addingEnt env0 "e",
          fileEnt env0 "f" 0o644 0]) :=
  root_link_count env0 (fun _ => none)
    [(env0, Op.mkdir ["d"] 0o755), (env0, Op.mkdir ["e"] 0o755),
     (env0, Op.mknod ["f"] 0o644), (env0, Op.rmdir ["d"]), (env0, Op.unlink ["f"])]
    { rootEnt env0 with hardlinks := 2 }
    [{ addingEnt env0 "d" with type := 'U' }, addingEnt env0 "e", fileEnt env0 "f" 0o644 0]
    (by decide) (by decide)

end S3fs
